import Mathlib

/-!
# crawly: session engine, broadcaster and tracking state machine

A shallow embedding of the Go packages `crawly` and `crawly/csync`.

* Go pointers are indices into explicit tables (`csync.Heap`).
* A run-time panic is the `error` case of `Except Panic`.
* Everything the code reads from outside (the clock, the state of a context,
  the order in which a map is ranged over, whether a receiver is parked on a
  channel) is a field of an environment record, so every definition is a
  computable function.
* Go `int`, `time.Duration` are 64-bit; arithmetic that can leave the range
  wraps or saturates explicitly.
-/

/-- The error values of the two packages (`errors.New` sentinels), the two
context errors, and `other n` for any error value made elsewhere. -/
inductive Err where
  | InvalidHandle
  | NilHandler
  | InvalidTrackingCommand
  | ExceededTrackingOrderTimeout
  | ExceededTrackingTimeout
  | SessionAlreadyActive
  | SessionInvalidInterval
  | ExceededSessionPassTimeout
  | ClosedBroadcastChannel
  | ExceededBroadcastSendTimeout
  | Canceled
  | DeadlineExceeded
  | other (n : Nat)
  deriving DecidableEq, Repr

/-- Largest value of a Go `int` / `int64`. -/
def maxInt64 : Int := 9223372036854775807

/-- Smallest value of a Go `int` / `int64`. -/
def minInt64 : Int := -9223372036854775808

/-- Two's-complement wrap of an integer into the 64-bit signed range. -/
def wrapInt64 (x : Int) : Int := (x + 9223372036854775808) % 18446744073709551616 - 9223372036854775808

/-- Instants are nanoseconds counted from the zero `time.Time`. -/
abbrev Time := Int

/-- Durations are nanoseconds (`time.Duration`, an `int64`). -/
abbrev Duration := Int

/-- The method `Time.IsZero`. -/
def Time.IsZero (t : Time) : Bool := t == 0

/-- The method `Time.Sub`: the difference, saturated to the range of a `Duration`. -/
def Time.Sub (t u : Time) : Duration :=
  if t - u > maxInt64 then maxInt64 else if t - u < minInt64 then minInt64 else t - u

/-- One second, as a `Duration`. -/
def Second : Duration := 1000000000

namespace csync

/-! ## map.go -/

/-- The type `Map[K, V]`: the entries of the underlying `sync.Map`, without
duplicate keys, in no meaningful order. -/
abbrev Map (K V : Type) := List (K × V)

/-- The method `Map.Has`. -/
def Map.Has {K V : Type} [DecidableEq K] (mm : Map K V) (key : K) : Bool :=
  mm.any (fun e => decide (e.1 = key))

/-- The method `Map.Load`. -/
def Map.Load {K V : Type} [DecidableEq K] (mm : Map K V) (key : K) : Option V :=
  (mm.find? (fun e => decide (e.1 = key))).map Prod.snd

/-- The method `Map.Delete`. -/
def Map.Delete {K V : Type} [DecidableEq K] (mm : Map K V) (key : K) : Map K V :=
  mm.filter (fun e => decide (e.1 ≠ key))

/-- The method `Map.Store`: replaces the value of a present key, adds an absent one. -/
def Map.Store {K V : Type} [DecidableEq K] (mm : Map K V) (key : K) (value : V) : Map K V :=
  if Map.Has mm key then mm.map (fun e => if e.1 = key then (key, value) else e)
  else mm ++ [(key, value)]

/-- The method `Map.LoadAndDelete`: the map without the key, and the value it had. -/
def Map.LoadAndDelete {K V : Type} [DecidableEq K] (mm : Map K V) (key : K) : Map K V × Option V :=
  (Map.Delete mm key, Map.Load mm key)

/-- The keys of a map, in the order `Map.Range` would visit them. -/
def Map.keys {K V : Type} (mm : Map K V) : List K := mm.map Prod.fst

/-! ## broadcast.go -/

/-- Run-time panics of the Go runtime that the code can reach. -/
inductive Panic where
  | closeOfClosedChannel
  | sendOnClosedChannel
  | makechanSizeOutOfRange
  | nilDereference
  deriving DecidableEq, Repr

/-- A Go channel of payloads: capacity, buffered values, values handed
directly to a parked receiver, and whether `close` was called on it. -/
structure Chan (V : Type) where
  cap : Nat
  buf : List V
  taken : List V
  closed : Bool
  deriving DecidableEq, Repr

/-- The struct `listener[V]`; `ch` and `bc` are heap indices. -/
structure listener where
  ch : Nat
  bc : Nat
  closed : Bool
  deriving DecidableEq, Repr

/-- The struct `broadcaster[V]`; `listeners` maps a listener to its channel. -/
structure broadcaster where
  listeners : Map Nat Nat
  capacity : Int
  closed : Bool
  deriving DecidableEq, Repr

/-- The objects allocated by the package: channels, listeners, broadcasters,
and the number of signalling channels made by `Bus.Setup`. -/
structure Heap (V : Type) where
  chans : List (Chan V)
  lsts : List listener
  bcs : List broadcaster
  signals : Nat
  deriving DecidableEq, Repr

/-- The heap with nothing allocated. -/
def Heap.empty {V : Type} : Heap V := ⟨[], [], [], 0⟩

/-- Dereference of a channel. -/
def Heap.chan {V : Type} (h : Heap V) (c : Nat) : Chan V := h.chans.getD c ⟨0, [], [], false⟩

/-- Dereference of a listener. -/
def Heap.lst {V : Type} (h : Heap V) (l : Nat) : listener := h.lsts.getD l ⟨0, 0, false⟩

/-- Dereference of a broadcaster. -/
def Heap.bc {V : Type} (h : Heap V) (b : Nat) : broadcaster := h.bcs.getD b ⟨[], 0, false⟩

/-- Write through a channel pointer. -/
def Heap.setChan {V : Type} (h : Heap V) (c : Nat) (x : Chan V) : Heap V :=
  { h with chans := h.chans.set c x }

/-- Write through a listener pointer. -/
def Heap.setLst {V : Type} (h : Heap V) (l : Nat) (x : listener) : Heap V :=
  { h with lsts := h.lsts.set l x }

/-- Write through a broadcaster pointer. -/
def Heap.setBc {V : Type} (h : Heap V) (b : Nat) (x : broadcaster) : Heap V :=
  { h with bcs := h.bcs.set b x }

/-- The builtin `close(ch)`: panics on a channel that is already closed. -/
def Heap.close {V : Type} (h : Heap V) (c : Nat) : Except Panic (Heap V) :=
  if (h.chan c).closed then Except.error Panic.closeOfClosedChannel
  else Except.ok (h.setChan c { h.chan c with closed := true })

/-- The function `NewBroadcaster`. -/
def NewBroadcaster {V : Type} (h : Heap V) (capacity : Int) : Heap V × Nat :=
  ({ h with bcs := h.bcs ++ [⟨[], capacity, false⟩] }, h.bcs.length)

/-- The method `broadcaster.DiscardListener`; `l = none` is the nil listener. -/
def broadcaster.DiscardListener {V : Type} (h : Heap V) (b : Nat) (l : Option Nat) :
    Except Panic (Heap V) :=
  match l with
  | none => Except.ok h
  | some l =>
    match Map.LoadAndDelete (h.bc b).listeners l with
    | (_, none) => Except.ok h
    | (rest, some ch) => (h.setBc b { h.bc b with listeners := rest }).close ch

/-- The `Range` loop of `broadcaster.Discard` over a snapshot of the listeners. -/
def broadcaster.discardAll {V : Type} (b : Nat) : List (Nat × Nat) → Heap V → Except Panic (Heap V)
  | [], h => Except.ok h
  | (l, _) :: rest, h =>
    match broadcaster.DiscardListener h b (some l) with
    | Except.error p => Except.error p
    | Except.ok h1 => broadcaster.discardAll b rest h1

/-- The method `broadcaster.Discard`. -/
def broadcaster.Discard {V : Type} (h : Heap V) (b : Nat) : Except Panic (Heap V) :=
  if (h.bc b).closed then Except.ok h
  else broadcaster.discardAll b (h.bc b).listeners (h.setBc b { h.bc b with closed := true })

/-- The method `broadcaster.Listen`: the new heap and the new listener. -/
def broadcaster.Listen {V : Type} (h : Heap V) (b : Nat) : Except Panic (Heap V × Nat) :=
  if (h.bc b).capacity < 0 then Except.error Panic.makechanSizeOutOfRange
  else
    let ch := h.chans.length
    let l := h.lsts.length
    let h1 : Heap V := { h with
      chans := h.chans ++ [⟨(h.bc b).capacity.toNat, [], [], (h.bc b).closed⟩],
      lsts := h.lsts ++ [⟨ch, b, (h.bc b).closed⟩] }
    Except.ok (h1.setBc b { h.bc b with listeners := Map.Store (h.bc b).listeners l ch }, l)

/-- The method `broadcaster.Closed`. -/
def broadcaster.Closed {V : Type} (h : Heap V) (b : Nat) : Bool := (h.bc b).closed

/-- The method `listener.Closed`. -/
def listener.Closed {V : Type} (h : Heap V) (l : Nat) : Bool := (h.lst l).closed

/-- The method `listener.Channel`. -/
def listener.Channel {V : Type} (h : Heap V) (l : Nat) : Nat := (h.lst l).ch

/-- The method `listener.Discard`. -/
def listener.Discard {V : Type} (h : Heap V) (l : Nat) : Except Panic (Heap V) :=
  if (h.lst l).closed then Except.ok h
  else broadcaster.DiscardListener (h.setLst l { h.lst l with closed := true }) (h.lst l).bc (some l)

/-- Whether the channel of a listener has been closed (what a receiver observes). -/
def listener.channelClosed {V : Type} (h : Heap V) (l : Nat) : Bool :=
  (h.chan (listener.Channel h l)).closed

/-- The struct `broadcasterReport[V]`; a nil slice is the empty list. -/
structure broadcasterReport where
  ok : List Nat
  fail : List Nat
  deriving DecidableEq, Repr

/-- The method `broadcasterReport.Status`. -/
def broadcasterReport.Status (br : broadcasterReport) : Int × Int :=
  if br.ok = [] ∧ br.fail = [] then (-1, -1) else (br.ok.length, br.fail.length)

/-- What a `select` in `SendWithTimeout` depends on from outside: whether a
receiver is parked on a channel, and whether the `ctx.Done()` case is the one
taken for a listener. -/
structure SendEnv where
  receiverReady : Nat → Bool
  ctxDone : Nat → Bool

/-- The callback `cb` of `SendWithTimeout` for one listener `l` with channel `ch`.
The send case is taken when the channel can accept the value (a send on a closed
channel panics); otherwise the `default` case (timeout 0) or the expiry of the
timeout marks the listener as failed. -/
def broadcaster.sendOne {V : Type} (env : SendEnv) (report : Bool) (value : V)
    (h : Heap V) (r : broadcasterReport) (l ch : Nat) : Except Panic (Heap V × broadcasterReport) :=
  if env.ctxDone l then Except.ok (h, if report then { r with fail := r.fail ++ [l] } else r)
  else if (h.chan ch).closed then Except.error Panic.sendOnClosedChannel
  else if env.receiverReady ch then
    Except.ok (h.setChan ch { h.chan ch with taken := (h.chan ch).taken ++ [value] },
      if report then { r with ok := r.ok ++ [l] } else r)
  else if (h.chan ch).buf.length < (h.chan ch).cap then
    Except.ok (h.setChan ch { h.chan ch with buf := (h.chan ch).buf ++ [value] },
      if report then { r with ok := r.ok ++ [l] } else r)
  else Except.ok (h, if report then { r with fail := r.fail ++ [l] } else r)

/-- The `Range` loop of `SendWithTimeout` over the listeners. -/
def broadcaster.sendAll {V : Type} (env : SendEnv) (report : Bool) (value : V) :
    List (Nat × Nat) → Heap V → broadcasterReport → Except Panic (Heap V × broadcasterReport)
  | [], h, r => Except.ok (h, r)
  | (l, ch) :: rest, h, r =>
    match broadcaster.sendOne env report value h r l ch with
    | Except.error p => Except.error p
    | Except.ok (h1, r1) => broadcaster.sendAll env report value rest h1 r1

/-- The method `broadcaster.SendWithTimeout`; `pctxErr` is `pctx.Err()`. Both
branches on `timeout` run the same select apart from the `default` case, whose
outcome (the listener is marked failed) is that of an expired timeout. -/
def broadcaster.SendWithTimeout {V : Type} (env : SendEnv) (h : Heap V) (b : Nat)
    (pctxErr : Option Err) (value : V) (_timeout : Duration) (report : Bool) :
    Except Panic (Heap V × Option broadcasterReport × Option Err) :=
  if (h.bc b).closed then Except.ok (h, none, some Err.ClosedBroadcastChannel)
  else
    match pctxErr with
    | some err => Except.ok (h, none, some err)
    | none =>
      match broadcaster.sendAll env report value (h.bc b).listeners h ⟨[], []⟩ with
      | Except.error p => Except.error p
      | Except.ok (h1, r) => Except.ok (h1, some r, none)

/-- The method `broadcaster.Send`. -/
def broadcaster.Send {V : Type} (env : SendEnv) (h : Heap V) (b : Nat)
    (ctxErr : Option Err) (value : V) (report : Bool) :
    Except Panic (Heap V × Option broadcasterReport × Option Err) :=
  broadcaster.SendWithTimeout env h b ctxErr value 0 report

/-! ## bus.go -/

/-- The struct `Bus[T]`: `none` is a nil broadcaster or a nil channel, `some i`
the `i`-th object allocated. -/
structure Bus where
  ready : Bool
  broadcast : Option Nat
  results : Option Nat
  stop : Option Nat
  stopped : Option Nat
  immediate : Option Nat
  paused : Option Nat
  deriving DecidableEq, Repr

/-- The zero value of `Bus[T]`. -/
def Bus.zero : Bus := ⟨false, none, none, none, none, none, none⟩

/-- The method `Bus.Ready`. -/
def Bus.Ready (bus : Bus) : Bool := bus.ready

/-- One `if bus.x == nil then bus.x = make(chan ...)` step of `Bus.Setup`. -/
def Bus.makeIfNil {V : Type} (c : Option Nat) (h : Heap V) : Option Nat × Heap V :=
  match c with
  | some i => (some i, h)
  | none => (some h.signals, { h with signals := h.signals + 1 })

/-- The method `Bus.Setup`. -/
def Bus.Setup {V : Type} (bus : Bus) (h : Heap V) : Bus × Heap V :=
  let bh : Option Nat × Heap V :=
    match bus.broadcast with
    | none => ((some (NewBroadcaster h 0).2), (NewBroadcaster h 0).1)
    | some b =>
      if broadcaster.Closed h b then ((some (NewBroadcaster h 0).2), (NewBroadcaster h 0).1)
      else (some b, h)
  let r1 := Bus.makeIfNil bus.results bh.2
  let r2 := Bus.makeIfNil bus.stop r1.2
  let r3 := Bus.makeIfNil bus.stopped r2.2
  let r4 := Bus.makeIfNil bus.immediate r3.2
  let r5 := Bus.makeIfNil bus.paused r4.2
  (⟨true, bh.1, r1.1, r2.1, r3.1, r4.1, r5.1⟩, r5.2)

/-- The method `Bus.Reset`. -/
def Bus.Reset {V : Type} (bus : Bus) (h : Heap V) : Except Panic (Bus × Heap V) :=
  if !bus.ready then Except.ok (bus, h)
  else
    match bus.broadcast with
    | none => Except.ok (Bus.zero, h)
    | some b =>
      if broadcaster.Closed h b then Except.ok (Bus.zero, h)
      else
        match broadcaster.Discard h b with
        | Except.error p => Except.error p
        | Except.ok h1 => Except.ok (Bus.zero, h1)

/-- The method `Bus.Broadcast`: the bus (set up if it was not ready), the heap,
and the broadcaster returned. -/
def Bus.Broadcast {V : Type} (bus : Bus) (h : Heap V) : Bus × Heap V × Option Nat :=
  let s := if !bus.ready then Bus.Setup bus h else (bus, h)
  (s.1, s.2, s.1.broadcast)

/-- The method `Bus.Channels`: the bus (set up if it was not ready) and the heap;
the five channels returned are the fields of the bus returned. -/
def Bus.Channels {V : Type} (bus : Bus) (h : Heap V) : Bus × Heap V :=
  if !bus.ready then Bus.Setup bus h else (bus, h)

/-! ## session.go -/

/-- The variable `MinimumSessionInterval`. -/
def MinimumSessionInterval : Duration := 1 * Second

/-- The struct `Session[T]`; `pass` is a `uint64`. -/
structure Session where
  active : Bool
  paused : Bool
  pauseIdle : Bool
  id : String
  pass : Nat
  bus : Bus
  deriving DecidableEq, Repr

/-- The zero value of `Session[T]`. -/
def Session.zero : Session := ⟨false, false, false, "", 0, Bus.zero⟩

/-- The struct `SessionSettings`. -/
structure SessionSettings where
  Interval : Duration
  SinglePassTimeout : Duration
  Paused : Bool
  PauseIdle : Bool
  deriving DecidableEq, Repr

/-- The method `Session.Active`. -/
def Session.Active (sess : Session) : Bool := sess.active

/-- The method `Session.ID`. -/
def Session.ID (sess : Session) : String := sess.id

/-- The method `Session.Pass`. -/
def Session.Pass (sess : Session) : Nat := sess.pass

/-- The method `Session.IncrementPass` (`atomic.AddUint64`). -/
def Session.IncrementPass (sess : Session) : Session :=
  { sess with pass := (sess.pass + 1) % 18446744073709551616 }

/-- The method `Session.Listen`: a nil broadcaster cannot be listened on. -/
def Session.Listen {V : Type} (sess : Session) (h : Heap V) :
    Except Panic (Session × Heap V × Nat) :=
  match Bus.Broadcast sess.bus h with
  | (_, _, none) => Except.error Panic.nilDereference
  | (bus, h1, some b) =>
    match broadcaster.Listen h1 b with
    | Except.error p => Except.error p
    | Except.ok (h2, l) => Except.ok ({ sess with bus := bus }, h2, l)

/-- The method `Session.halt`; `ctxErr` is `ctx.Err()` (`none` also for a nil context). -/
def Session.halt {V : Type} (sess : Session) (h : Heap V) (ctxErr : Option Err) :
    Except Panic (Session × Heap V) :=
  match ctxErr with
  | some _ => Except.ok (sess, h)
  | none =>
    match Bus.Reset sess.bus h with
    | Except.error p => Except.error p
    | Except.ok (bus, h1) => Except.ok ({ sess with active := false, bus := bus }, h1)

/-- The method `Session.PauseIdle`. -/
def Session.PauseIdle (sess : Session) : Bool := sess.pauseIdle

/-- The method `Session.SetPauseIdle`. -/
def Session.SetPauseIdle (sess : Session) (pauseIdle : Bool) : Session :=
  { sess with pauseIdle := pauseIdle }

/-- The method `Session.Paused`. -/
def Session.Paused (sess : Session) : Bool := sess.paused

/-- The method `Session.SetPaused`. When the flag changes, `bus.Channels()` is
called (which may set the bus up) and the loop is poked by a non-blocking send
on an unbuffered channel, which leaves no trace in the state. -/
def Session.SetPaused {V : Type} (sess : Session) (h : Heap V) (paused : Bool) : Session × Heap V :=
  if sess.paused != paused then
    ({ sess with paused := paused, bus := (Bus.Channels sess.bus h).1 }, (Bus.Channels sess.bus h).2)
  else ({ sess with paused := paused }, h)

/-- The method `Session.Pause`. -/
def Session.Pause {V : Type} (sess : Session) (h : Heap V) : Session × Heap V :=
  Session.SetPaused sess h true

/-- The method `Session.Resume`. -/
def Session.Resume {V : Type} (sess : Session) (h : Heap V) : Session × Heap V :=
  Session.SetPaused sess h false

/-- The local variables of `Session.run`: its parameters, the cooldown timer
(`none` is the nil channel, `some d` a timer made by `time.After(d)`), and the
broadcaster and channels read from the bus when the loop started. -/
structure RunLoop where
  interval : Duration
  singlePassTimeout : Duration
  cooldown : Option Duration
  broadcast : Option Nat
  results : Option Nat
  stop : Option Nat
  stopped : Option Nat
  immediate : Option Nat
  paused : Option Nat
  deriving DecidableEq, Repr

/-- The method `Session.Start`; `ctxErr` is `ctx.Err()` (`none` for a nil
context), `newID` what `uniqueHex()` returns. The last component is `true`
when `go sess.run(...)` was executed. -/
def Session.Start (sess : Session) (ctxErr : Option Err) (newID : String)
    (settings : SessionSettings) : Session × Option Err × Bool :=
  match ctxErr with
  | some err => (sess, some err, false)
  | none =>
    if settings.Interval < MinimumSessionInterval then (sess, some Err.SessionInvalidInterval, false)
    else if sess.active then ({ sess with active := true }, some Err.SessionAlreadyActive, false)
    else
      ({ sess with active := true, paused := settings.Paused, pauseIdle := settings.PauseIdle,
                   id := newID, pass := 0 }, none, true)

/-- The first two statements of `Session.run`: the loop reads the broadcaster
and the channels of the bus. -/
def Session.runInit {V : Type} (sess : Session) (h : Heap V) (interval singlePassTimeout : Duration) :
    Session × Heap V × RunLoop :=
  let b := Bus.Broadcast sess.bus h
  let c := Bus.Channels b.1 b.2.1
  ({ sess with bus := c.1 }, c.2,
    ⟨interval, singlePassTimeout, none, b.2.2, c.1.results, c.1.stop, c.1.stopped,
      c.1.immediate, c.1.paused⟩)

/-- The case of the `select` in `Session.run` that is taken. -/
inductive Event (T : Type) where
  | stop
  | cooldown
  | immediate (t : Duration)
  | paused
  | ctxDone
  | result (r : T)

/-- The methods a payload type has among `IsValid() bool` and `IsIdle() bool`
(`none`: the type assertion in `Session.run` fails). -/
structure Methods (T : Type) where
  IsValid : Option (T → Bool)
  IsIdle : Option (T → Bool)

/-- The `case result := <-results` branch of `Session.run`. -/
def Session.onResult {T : Type} (m : Methods T) (env : SendEnv) (sess : Session) (h : Heap T)
    (broadcast : Option Nat) (parentCtxErr : Option Err) (result : T) :
    Except Panic (Session × Heap T) :=
  let valid := match m.IsValid with
    | some f => f result
    | none => true
  if valid then
    let sent : Except Panic (Heap T) :=
      match broadcast with
      | none => Except.ok h
      | some b =>
        match broadcaster.Send env h b parentCtxErr result false with
        | Except.error p => Except.error p
        | Except.ok (h1, _, _) => Except.ok h1
    match sent with
    | Except.error p => Except.error p
    | Except.ok h1 =>
      let idle := match m.IsIdle with
        | some f => f result
        | none => false
      let sess1 := if sess.pauseIdle && idle then { sess with paused := true } else sess
      Except.ok (Session.IncrementPass sess1, h1)
  else Except.ok (sess, h)

/-- What one iteration of the loop of `Session.run` leaves behind. -/
structure Iteration (T : Type) where
  sess : Session
  heap : Heap T
  loop : RunLoop
  spawned : Bool
  exit : Bool

/-- One iteration of the `for` loop of `Session.run`: `parentCtxErr` is
`parentCtx.Err()` at the top of the loop, `ev` the case of the `select` taken
and `sendCtxErr` is `parentCtx.Err()` when the result is broadcast. `spawned`
reports whether a pass goroutine was started, `exit` whether the loop was left. -/
def Session.runIter {T : Type} (m : Methods T) (env : SendEnv) (sess : Session) (h : Heap T)
    (loop : RunLoop) (parentCtxErr : Option Err) (ev : Event T) (sendCtxErr : Option Err) :
    Except Panic (Iteration T) :=
  match parentCtxErr with
  | some _ => Except.ok ⟨sess, h, loop, false, true⟩
  | none =>
    let spawned := !sess.paused && loop.cooldown.isNone
    match ev with
    | Event.stop => Except.ok ⟨sess, h, loop, spawned, true⟩
    | Event.cooldown => Except.ok ⟨sess, h, { loop with cooldown := none }, spawned, false⟩
    | Event.immediate t =>
      Except.ok ⟨sess, h, { loop with cooldown := if t ≤ 0 then none else some t }, spawned, false⟩
    | Event.paused => Except.ok ⟨sess, h, { loop with cooldown := none }, spawned, false⟩
    | Event.ctxDone =>
      Except.ok ⟨sess, h,
        { loop with cooldown := if !sess.paused then some loop.interval else none }, spawned, false⟩
    | Event.result r =>
      match Session.onResult m env sess h loop.broadcast sendCtxErr r with
      | Except.error p => Except.error p
      | Except.ok (sess1, h1) =>
        Except.ok ⟨sess1, h1,
          { loop with cooldown := if !sess1.paused then some loop.interval else none },
          spawned, false⟩

/-- The `select` after the loop of `Session.run`: the send on the unbuffered
channel `stopped` goes through only when a receiver (a caller of `Stop`) is
waiting on it, and only then is `halt(parentCtx)` called. -/
def Session.runExit {V : Type} (sess : Session) (h : Heap V) (loop : RunLoop)
    (stoppedReceiverWaiting : Bool) (parentCtxErr : Option Err) : Except Panic (Session × Heap V) :=
  if loop.stopped.isSome && stoppedReceiverWaiting then Session.halt sess h parentCtxErr
  else Except.ok (sess, h)

end csync

namespace crawly

open csync

/-! ## handle.go, track.go, order.go, entity.go, result.go, settings.go -/

/-- An implementation of the interface `Handle`: a comparable value with the
answer of its `Valid()` method. A nil `Handle` is `none : Option Handle`. -/
structure Handle where
  id : Nat
  valid : Bool
  deriving DecidableEq, Repr

/-- The method `Handle.Valid`. -/
def Handle.Valid (h : Handle) : Bool := h.valid

/-- The type `TrackingCommand` (a `uint`). -/
abbrev TrackingCommand := Nat

/-- The constant `TrackingCommandNone`. -/
abbrev TrackingCommandNone : TrackingCommand := 0

/-- The constant `TrackingCommandStart`. -/
abbrev TrackingCommandStart : TrackingCommand := 1

/-- The constant `TrackingCommandStop`. -/
abbrev TrackingCommandStop : TrackingCommand := 2

/-- The type `TrackingAction` (a `uint`). -/
abbrev TrackingAction := Nat

/-- The constant `TrackingActionNone`. -/
abbrev TrackingActionNone : TrackingAction := 0

/-- The constant `TrackingActionUpdate`. -/
abbrev TrackingActionUpdate : TrackingAction := 1

/-- The constant `TrackingActionRemove`. -/
abbrev TrackingActionRemove : TrackingAction := 2

/-- The struct `Order`; `Data` stands for the `any` payload. -/
structure Order where
  Command : TrackingCommand
  Attempt : Int
  LastProcessing : Time
  Handle : Option Handle
  Data : Nat
  deriving DecidableEq, Repr

/-- The struct `Entity`; `Data` stands for the `any` payload. -/
structure Entity where
  Attempt : Int
  LastProcessing : Time
  Handle : Option Handle
  Data : Nat
  deriving DecidableEq, Repr

/-- The zero value of `Order`. -/
def Order.zero : Order := ⟨TrackingCommandNone, 0, 0, none, 0⟩

/-- The zero value of `Entity`. -/
def Entity.zero : Entity := ⟨0, 0, none, 0⟩

/-- The struct `actionableResult[T]`. -/
structure actionableResult (T : Type) where
  Action : TrackingAction
  Value : T
  Err : Option Err
  deriving DecidableEq, Repr

/-- The struct `TrackingResult`. -/
structure TrackingResult where
  Order : actionableResult Order
  Entity : actionableResult Entity
  deriving DecidableEq, Repr

/-- The zero value of `TrackingResult` (`var tr TrackingResult`). -/
def TrackingResult.zero : TrackingResult :=
  ⟨⟨TrackingActionNone, Order.zero, none⟩, ⟨TrackingActionNone, Entity.zero, none⟩⟩

/-- The struct `Result`; the two Go maps are association lists. The type
declares no method. -/
structure Result where
  Err : Option Err
  Valid : Bool
  Idle : Bool
  SessionID : String
  Pass : Nat
  Timestamp : Time
  Orders : Map Handle TrackingResult
  Entities : Map Handle TrackingResult
  deriving DecidableEq, Repr

/-- The method set of `*Result`: result.go declares neither `IsValid` nor
`IsIdle`, so both type assertions of `Session.run` fail on it. -/
def Result.methods : Methods Result := ⟨none, none⟩

/-- The struct `CrawlerSettings`. -/
structure CrawlerSettings where
  TrackingOrderTimeout : Duration
  MinimumTrackingOrderDelay : Duration
  MaximumTrackingOrderAttempts : Int
  TrackingTimeout : Duration
  MinimumTrackingDelay : Duration
  MaximumTrackingAttempts : Int
  deriving DecidableEq, Repr

/-- The variable `DefaultCrawlerSettings`. -/
def DefaultCrawlerSettings : CrawlerSettings :=
  ⟨45 * Second, 10 * Second, 3, 45 * Second, 10 * Second, 10⟩

/-- The type `OrderHandler`. The handler receives `&result.Order.Value` and
`result`, so all it can write is part of the `TrackingResult`; it returns the
result as it left it and its error. The first argument stands for the context
and everything else the handler reads from outside. -/
abbrev OrderHandler := Nat → TrackingResult → TrackingResult × Option Err

/-- The type `EntityHandler`, as `OrderHandler` with `&result.Entity.Value`. -/
abbrev EntityHandler := Nat → TrackingResult → TrackingResult × Option Err

/-- The struct `CrawlerHandlers`; `none` is a nil function. -/
structure CrawlerHandlers where
  Order : Option OrderHandler
  Entity : Option EntityHandler

/-- The struct `Crawler` together with the heap its session allocates in. The
logger is left out: it only receives records. -/
structure Crawler where
  settings : CrawlerSettings
  session : Session
  heap : Heap Result
  orders : Map Handle Order
  entities : Map Handle Entity
  handlers : CrawlerHandlers

/-- A call of a user handler during a pass, with the handle of the value it was given. -/
inductive Call where
  | Order (h : Option Handle)
  | Entity (h : Option Handle)
  deriving DecidableEq, Repr

/-- What the code reads from outside during a pass: the clock and the state of
the pass context at each step, and the order in which `Range` visits a map. -/
structure Env where
  now : Nat → Time
  ctxErr : Nat → Option Err
  rangeOrders : Map Handle Order → Map Handle Order
  rangeEntities : Map Handle Entity → Map Handle Entity

/-- The progress of a pass: the number of outside reads made so far and the
handler calls made so far. -/
structure World where
  tick : Nat
  calls : List Call
  deriving DecidableEq, Repr

/-- The method `Crawler.loadSettings`. -/
def Crawler.loadSettings (cr : Crawler) : CrawlerSettings := cr.settings

/-- The method `Crawler.setSettings`. -/
def Crawler.setSettings (cr : Crawler) (settings : CrawlerSettings) : Crawler :=
  { cr with settings := settings }

/-- The method `Crawler.loadHandlers`. -/
def Crawler.loadHandlers (cr : Crawler) : CrawlerHandlers := cr.handlers

/-- The method `Crawler.setHandlers`. -/
def Crawler.setHandlers (cr : Crawler) (handlers : CrawlerHandlers) : Crawler :=
  { cr with handlers := handlers }

/-- The statement `x.Attempt++` on a Go `int`. -/
def incAttempt (a : Int) : Int := wrapInt64 (a + 1)

/-- The local `maxAttempts` of `processOrder` and `processEntity`. -/
def maxAttemptsOf (configured : Int) : Int := if configured < 1 then -1 else configured

/-- The `case TrackingCommandStart` block of `processOrder` after the handler
call: `result` is the result as the handler left it, with its error stored. -/
def Crawler.orderStartOutcome (maxAttempts : Int) (result : TrackingResult) : TrackingResult :=
  match result.Order.Err with
  | some err =>
    let r1 : TrackingResult :=
      { result with
        Order := { result.Order with
          Value := { result.Order.Value with Attempt := incAttempt result.Order.Value.Attempt } },
        Entity := { result.Entity with Action := TrackingActionNone } }
    if err = Err.InvalidHandle ∨ (maxAttempts > 0 ∧ r1.Order.Value.Attempt ≥ maxAttempts) then
      { r1 with Order := { r1.Order with Action := TrackingActionRemove },
                Entity := { r1.Entity with Action := TrackingActionNone } }
    else if r1.Order.Action = TrackingActionNone then
      { r1 with Order := { r1.Order with Action := TrackingActionUpdate } }
    else r1
  | none =>
    let r1 : TrackingResult :=
      { result with Order := { result.Order with Value := { result.Order.Value with Attempt := 0 } } }
    if r1.Order.Action = TrackingActionNone then
      { r1 with Order := { r1.Order with Action := TrackingActionRemove },
                Entity := { r1.Entity with Action := TrackingActionUpdate } }
    else r1

/-- The `switch result.Order.Value.Command` of `processOrder`. -/
def Crawler.orderSwitch (cr : Crawler) (w : World) (result : TrackingResult) :
    World × TrackingResult :=
  if result.Order.Value.Command = TrackingCommandStart then
    match cr.loadHandlers.Order with
    | some handler =>
      let out := handler w.tick result
      (⟨w.tick + 1, w.calls ++ [Call.Order result.Order.Value.Handle]⟩,
        Crawler.orderStartOutcome (maxAttemptsOf cr.loadSettings.MaximumTrackingOrderAttempts)
          { out.1 with Order := { out.1.Order with Err := out.2 } })
    | none =>
      (w, Crawler.orderStartOutcome (maxAttemptsOf cr.loadSettings.MaximumTrackingOrderAttempts)
          { result with Order := { result.Order with Err := some Err.NilHandler } })
  else if result.Order.Value.Command = TrackingCommandStop then
    (w, { result with Order := { result.Order with Action := TrackingActionRemove },
                      Entity := { result.Entity with Action := TrackingActionRemove } })
  else
    (w, { result with Order := { result.Order with Err := some Err.InvalidTrackingCommand,
                                                   Action := TrackingActionRemove } })

/-- The part of `processOrder` after the minimum-delay check: the switch, then
the stamp `LastProcessing = time.Now()`. -/
def Crawler.orderBody (cr : Crawler) (env : Env) (w : World) (result : TrackingResult) :
    World × TrackingResult × Option Err :=
  let s := Crawler.orderSwitch cr w result
  (⟨s.1.tick + 1, s.1.calls⟩,
    { s.2 with Order := { s.2.Order with
        Value := { s.2.Order.Value with LastProcessing := env.now s.1.tick } } },
    none)

/-- The first two assignments of `processOrder`: `result.Order.Value = *order`
and `result.Entity.Value.Handle = order.Handle`. -/
def Crawler.orderPrelude (order : Order) (result : TrackingResult) : TrackingResult :=
  { Order := { result.Order with Value := order },
    Entity := { result.Entity with Value := { result.Entity.Value with Handle := order.Handle } } }

/-- The method `Crawler.processOrder`: the world, `*result` and the error returned. -/
def Crawler.processOrder (cr : Crawler) (env : Env) (w : World) (order : Order)
    (result : TrackingResult) : World × TrackingResult × Option Err :=
  match env.ctxErr w.tick with
  | some err => (w, result, some err)
  | none =>
    let r0 := Crawler.orderPrelude order result
    if !Time.IsZero r0.Order.Value.LastProcessing then
      if Time.Sub (env.now w.tick) r0.Order.Value.LastProcessing
          < cr.loadSettings.MinimumTrackingOrderDelay then
        (⟨w.tick + 1, w.calls⟩, r0, none)
      else Crawler.orderBody cr env ⟨w.tick + 1, w.calls⟩ r0
    else Crawler.orderBody cr env w r0

/-- The decision of `processEntity` after the handler call: `result` is the
result as the handler left it, with its error stored. -/
def Crawler.entityOutcome (maxAttempts : Int) (result : TrackingResult) : TrackingResult :=
  match result.Entity.Err with
  | some err =>
    let r1 : TrackingResult :=
      { result with Entity := { result.Entity with
          Value := { result.Entity.Value with Attempt := incAttempt result.Entity.Value.Attempt } } }
    if err = Err.InvalidHandle ∨ (maxAttempts > 0 ∧ r1.Entity.Value.Attempt ≥ maxAttempts) then
      { r1 with Entity := { r1.Entity with Action := TrackingActionRemove } }
    else if r1.Entity.Action = TrackingActionNone then
      { r1 with Entity := { r1.Entity with Action := TrackingActionUpdate } }
    else r1
  | none =>
    let r1 : TrackingResult :=
      { result with Entity := { result.Entity with Value := { result.Entity.Value with Attempt := 0 } } }
    if r1.Entity.Action = TrackingActionNone then
      { r1 with Entity := { r1.Entity with Action := TrackingActionUpdate } }
    else r1

/-- The part of `processEntity` after the minimum-delay check: the handler
call, the decision, then the stamp `LastProcessing = time.Now()`. -/
def Crawler.entityBody (cr : Crawler) (env : Env) (w : World) (result : TrackingResult) :
    World × TrackingResult × Option Err :=
  let s : World × TrackingResult :=
    match cr.loadHandlers.Entity with
    | some handler =>
      let out := handler w.tick result
      (⟨w.tick + 1, w.calls ++ [Call.Entity result.Entity.Value.Handle]⟩,
        Crawler.entityOutcome (maxAttemptsOf cr.loadSettings.MaximumTrackingAttempts)
          { out.1 with Entity := { out.1.Entity with Err := out.2 } })
    | none =>
      (w, Crawler.entityOutcome (maxAttemptsOf cr.loadSettings.MaximumTrackingAttempts)
          { result with Entity := { result.Entity with Err := some Err.NilHandler } })
  (⟨s.1.tick + 1, s.1.calls⟩,
    { s.2 with Entity := { s.2.Entity with
        Value := { s.2.Entity.Value with LastProcessing := env.now s.1.tick } } },
    none)

/-- The first assignment of `processEntity`: `result.Entity.Value = *entity`. -/
def Crawler.entityPrelude (entity : Entity) (result : TrackingResult) : TrackingResult :=
  { result with Entity := { result.Entity with Value := entity } }

/-- The method `Crawler.processEntity`: the world, `*result` and the error returned. -/
def Crawler.processEntity (cr : Crawler) (env : Env) (w : World) (entity : Entity)
    (result : TrackingResult) : World × TrackingResult × Option Err :=
  match env.ctxErr w.tick with
  | some err => (w, result, some err)
  | none =>
    let r0 := Crawler.entityPrelude entity result
    if !Time.IsZero r0.Entity.Value.LastProcessing then
      if Time.Sub (env.now w.tick) r0.Entity.Value.LastProcessing
          < cr.loadSettings.MinimumTrackingDelay then
        (⟨w.tick + 1, w.calls⟩, r0, none)
      else Crawler.entityBody cr env ⟨w.tick + 1, w.calls⟩ r0
    else Crawler.entityBody cr env w r0

/-- The order half of `commitTrackingResult`, on the orders map. -/
def commitOrders (orders : Map Handle Order) (tr : TrackingResult) : Map Handle Order :=
  match tr.Order.Value.Handle with
  | none => orders
  | some h =>
    if h.Valid then
      if tr.Order.Action = TrackingActionRemove then Map.Delete orders h
      else if tr.Order.Action = TrackingActionUpdate then Map.Store orders h tr.Order.Value
      else orders
    else orders

/-- The entity half of `commitTrackingResult`, on the entities map. -/
def commitEntities (entities : Map Handle Entity) (tr : TrackingResult) : Map Handle Entity :=
  match tr.Entity.Value.Handle with
  | none => entities
  | some h =>
    if h.Valid then
      if tr.Entity.Action = TrackingActionRemove then Map.Delete entities h
      else if tr.Entity.Action = TrackingActionUpdate then Map.Store entities h tr.Entity.Value
      else entities
    else entities

/-- The method `Crawler.commitTrackingResult` (the pointer is never nil). -/
def Crawler.commitTrackingResult (cr : Crawler) (tr : TrackingResult) : Crawler :=
  { cr with orders := commitOrders cr.orders tr, entities := commitEntities cr.entities tr }

/-- The method `Crawler.Tracked`, ranging in the order the environment gives. -/
def Crawler.Tracked (cr : Crawler) (env : Env) : List Handle :=
  Map.keys (env.rangeEntities cr.entities)

/-- The method `Crawler.IsTracked`. -/
def Crawler.IsTracked (cr : Crawler) (handle : Handle) : Bool := Map.Has cr.entities handle

/-- The method `Crawler.order`: the crawler, `tracked` and `err`. -/
def Crawler.order (cr : Crawler) (handle : Handle) (command : TrackingCommand) (quiet : Bool) :
    Crawler × Bool × Option Err :=
  if !handle.Valid then (cr, false, some Err.InvalidHandle)
  else
    let tracked := cr.IsTracked handle
    if command = TrackingCommandStart ∧ tracked then (cr, tracked, none)
    else if command = TrackingCommandStop ∧ !tracked then (cr, tracked, none)
    else if command ≠ TrackingCommandStart ∧ command ≠ TrackingCommandStop then
      (cr, tracked, some Err.InvalidTrackingCommand)
    else
      let cr1 : Crawler :=
        { cr with orders := Map.Store cr.orders handle ⟨command, 0, 0, some handle, 0⟩ }
      if !quiet && cr1.session.PauseIdle && cr1.session.Paused then
        ({ cr1 with session := (Session.Resume cr1.session cr1.heap).1,
                    heap := (Session.Resume cr1.session cr1.heap).2 }, tracked, none)
      else (cr1, tracked, none)

/-- The method `Crawler.Track`. -/
def Crawler.Track (cr : Crawler) (handle : Handle) : Crawler × Bool × Option Err :=
  Crawler.order cr handle TrackingCommandStart false

/-- The method `Crawler.Untrack`. -/
def Crawler.Untrack (cr : Crawler) (handle : Handle) : Crawler × Bool × Option Err :=
  Crawler.order cr handle TrackingCommandStop false

/-- The state of `sessionHandler` while it runs: the crawler, the world, and `*result`. -/
structure PassState where
  cr : Crawler
  w : World
  result : Result

/-- The `cr.orders.Range(...)` loop of `sessionHandler` over the entries visited:
the entries the mapping held when `Range` was called, in the order the
environment gives. `sync.Map.Range` loads the value of a key when it reaches it
and passes over a key deleted in the meantime; the two agree when a callback
changes no entry but the one it is called for, which is so when the mappings
are keyed by the handles of their values and the handlers leave the Handle
fields alone (`Crawler.Keyed`, `Crawler.HandlersKeepHandles`). -/
def Crawler.visitOrders (env : Env) : List (Handle × Order) → PassState → PassState
  | [], st => st
  | (handle, order) :: rest, st =>
    let st1 : PassState := { st with result := { st.result with Idle := false } }
    match Crawler.processOrder st1.cr env st1.w order TrackingResult.zero with
    | (w1, _, some err) => { st1 with w := w1, result := { st1.result with Err := some err } }
    | (w1, tr, none) =>
      Crawler.visitOrders env rest
        { cr := Crawler.commitTrackingResult st1.cr tr, w := w1,
          result := { st1.result with Orders := Map.Store st1.result.Orders handle tr } }

/-- The `cr.entities.Range(...)` loop of `sessionHandler` over the entries
visited: the entries the mapping held when `Range` was called, in the order the
environment gives, with the same proviso as for `visitOrders`. -/
def Crawler.visitEntities (env : Env) : List (Handle × Entity) → PassState → PassState
  | [], st => st
  | (handle, entity) :: rest, st =>
    let st1 : PassState := { st with result := { st.result with Idle := false } }
    match Crawler.processEntity st1.cr env st1.w entity TrackingResult.zero with
    | (w1, _, some err) => { st1 with w := w1, result := { st1.result with Err := some err } }
    | (w1, tr, none) =>
      Crawler.visitEntities env rest
        { cr := Crawler.commitTrackingResult st1.cr tr, w := w1,
          result := { st1.result with Entities := Map.Store st1.result.Entities handle tr } }

/-- The state in which `sessionHandler` starts in world `w`: the crawler and the
`Result` literal it builds. -/
def Crawler.passStart (cr : Crawler) (w : World) : PassState :=
  { cr := cr, w := w,
    result := { Err := none, Valid := true, Idle := false, SessionID := cr.session.ID,
                Pass := cr.session.Pass, Timestamp := 0, Orders := [], Entities := [] } }

/-- The method `Crawler.sessionHandler`, started in world `w`. -/
def Crawler.sessionHandler (cr : Crawler) (env : Env) (w : World) : PassState :=
  let st0 : PassState := Crawler.passStart cr w
  let st1 : PassState :=
    if st0.result.Err = none then Crawler.visitOrders env (env.rangeOrders st0.cr.orders) st0
    else st0
  let st2 : PassState :=
    if st1.result.Err = none then Crawler.visitEntities env (env.rangeEntities st1.cr.entities) st1
    else st1
  { st2 with w := ⟨st2.w.tick + 1, st2.w.calls⟩,
             result := { st2.result with Timestamp := env.now st2.w.tick } }

/-- Consecutive passes of `processEntity` over one tracked entity, one world per
pass: `commitTrackingResult` stores the value of a result, and the next pass
loads it. The list holds the result of each pass. -/
def Crawler.entityRun (cr : Crawler) (env : Env) : List World → Entity → List TrackingResult
  | [], _ => []
  | w :: ws, e =>
    (Crawler.processEntity cr env w e TrackingResult.zero).2.1 ::
      Crawler.entityRun cr env ws (Crawler.processEntity cr env w e TrackingResult.zero).2.1.Entity.Value

/-- Whether `processEntity` gets past its context check and its minimum-delay
check, so that the handler is reached. -/
def Crawler.entityProcessed (cr : Crawler) (env : Env) (w : World) (e : Entity) : Bool :=
  (env.ctxErr w.tick).isNone &&
    !(!Time.IsZero e.LastProcessing &&
        decide (Time.Sub (env.now w.tick) e.LastProcessing < cr.loadSettings.MinimumTrackingDelay))

/-- Whether every pass of `entityRun` is a processed one. -/
def Crawler.entityRunProcessed (cr : Crawler) (env : Env) : List World → Entity → Bool
  | [], _ => true
  | w :: ws, e =>
    Crawler.entityProcessed cr env w e &&
      Crawler.entityRunProcessed cr env ws
        (Crawler.processEntity cr env w e TrackingResult.zero).2.1.Entity.Value

/-- An environment for examples: the clock advances one second per read, the
context is never cancelled, maps are ranged over in the order stored. -/
def Env.steady : Env := ⟨fun n => (1000 + n) * Second, fun _ => none, id, id⟩

/-- A crawler with nothing tracked, nothing ordered, no handlers, an inactive
session and the default settings. -/
def Crawler.fresh : Crawler :=
  { settings := DefaultCrawlerSettings, session := Session.zero, heap := Heap.empty,
    orders := [], entities := [], handlers := ⟨none, none⟩ }

/-- An entity handler that fails with a generic error and writes nothing. -/
def failingHandler : EntityHandler := fun _ r => (r, some (Err.other 1))

/-- A handler that succeeds and writes nothing. -/
def plainHandler : OrderHandler := fun _ r => (r, none)

/-- An order handler that reports `InvalidHandle` after presetting both actions. -/
def rejectingHandler : OrderHandler := fun _ r =>
  ({ r with Order := { r.Order with Action := TrackingActionUpdate },
            Entity := { r.Entity with Action := TrackingActionUpdate } }, some Err.InvalidHandle)

/-- An entity handler that on every call returns an error other than
`InvalidHandle`, and neither sets the entity action nor changes `Attempt`. -/
def FailsPlainly (f : EntityHandler) : Prop :=
  ∀ t r, (∃ err, (f t r).2 = some err ∧ err ≠ Err.InvalidHandle) ∧
    (f t r).1.Entity.Action = r.Entity.Action ∧
    (f t r).1.Entity.Value.Attempt = r.Entity.Value.Attempt

/-- A valid handle for examples. -/
def handleA : Handle := ⟨1, true⟩

/-- A second valid handle for examples. -/
def handleB : Handle := ⟨2, true⟩

/-- A crawler with the given handlers and settings and nothing else. -/
def Crawler.withHandlers (handlers : CrawlerHandlers) (settings : CrawlerSettings) : Crawler :=
  { Crawler.fresh with handlers := handlers, settings := settings }

/-- Settings without timeouts and delays, retry caps as given. -/
def settingsWithCaps (orderCap entityCap : Int) : CrawlerSettings :=
  ⟨0, 0, orderCap, 0, 0, entityCap⟩

/-- The session of a crawler just started with the given settings (the loop
has read the bus), with the heap it allocated in. -/
def startedSession (settings : SessionSettings) : Session × Heap Result × RunLoop :=
  Session.runInit (Session.Start Session.zero none "0000000000000001" settings).1 Heap.empty
    settings.Interval settings.SinglePassTimeout

/-- A crawler with nothing tracked and nothing ordered whose session was just
started with the given settings. -/
def Crawler.started (settings : SessionSettings) : Crawler :=
  { Crawler.fresh with session := (startedSession settings).1, heap := (startedSession settings).2.1 }

/-- A send environment in which every listener has a receiver waiting. -/
def SendEnv.eager : SendEnv := ⟨fun _ => true, fun _ => false⟩

/-- The `paused` flag after an iteration of the loop (`none` if it panicked). -/
def pausedAfter {T : Type} (it : Except Panic (Iteration T)) : Option Bool :=
  match it with
  | Except.ok i => some i.sess.paused
  | Except.error _ => none

/-- The `paused` flag after the loop handled a result (`none` if it panicked). -/
def pausedAfterResult {T : Type} (x : Except Panic (Session × Heap T)) : Option Bool :=
  match x with
  | Except.ok p => some p.1.paused
  | Except.error _ => none

/-- A session is started and listened on once; then the parent context is
cancelled: the select of the loop takes the `parentCtx.Done()` case, the next
iteration leaves the loop at its top, and the select after the loop runs, with
a caller of `Stop` waiting on `stopped` or not. The result is what `Active()`
returns afterwards and whether the channel of the listener is closed (`none`
if something panicked). -/
def cancelScenario (waiting : Bool) : Option (Bool × Bool) :=
  match Session.Listen (startedSession ⟨Second, 0, false, false⟩).1
      (startedSession ⟨Second, 0, false, false⟩).2.1 with
  | Except.error _ => none
  | Except.ok (sess, h, l) =>
    match Session.runIter Result.methods SendEnv.eager sess h
        (startedSession ⟨Second, 0, false, false⟩).2.2 none Event.ctxDone none with
    | Except.error _ => none
    | Except.ok it1 =>
      match Session.runIter Result.methods SendEnv.eager it1.sess it1.heap it1.loop
          (some Err.Canceled) Event.ctxDone none with
      | Except.error _ => none
      | Except.ok it =>
        if it.exit then
          match Session.runExit it.sess it.heap it.loop waiting (some Err.Canceled) with
          | Except.error _ => none
          | Except.ok (sess2, h2) => some (sess2.Active, listener.channelClosed h2 l)
        else none

/-- On a new broadcaster: `Discard()`, then `l := Listen()`, then
`DiscardListener(l)`. -/
def discardListenDiscard : Except Panic (Heap Nat) :=
  match broadcaster.Discard (NewBroadcaster Heap.empty 0).1 0 with
  | Except.error p => Except.error p
  | Except.ok h1 =>
    match broadcaster.Listen h1 0 with
    | Except.error p => Except.error p
    | Except.ok (h2, l) => broadcaster.DiscardListener h2 0 (some l)

/-- A session is started and listened on once, then stopped: `halt` runs with a
context that is not cancelled. The session and heap after the stop. -/
def stoppedSession : Except Panic (Session × Heap Result) :=
  match Session.Listen (startedSession ⟨Second, 0, false, false⟩).1
      (startedSession ⟨Second, 0, false, false⟩).2.1 with
  | Except.error p => Except.error p
  | Except.ok (sess, h, _) => Session.halt sess h none

/-- Whether the listener returned by `Session.Listen` has a closed channel
(`none` if the call panicked). -/
def listenGivesClosed {V : Type} (x : Except Panic (Session × Heap V)) : Option Bool :=
  match x with
  | Except.error _ => none
  | Except.ok (sess, h) =>
    match Session.Listen sess h with
    | Except.error _ => none
    | Except.ok (_, h1, l) => some (listener.channelClosed h1 l)

/-- One call of the `Range` callback of `sessionHandler` on an order, when
`processOrder` returns nil: the result is committed and recorded. -/
def Crawler.orderStep (env : Env) (st : PassState) (handle : Handle) (order : Order) : PassState :=
  { cr := Crawler.commitTrackingResult st.cr
      (Crawler.processOrder st.cr env st.w order TrackingResult.zero).2.1,
    w := (Crawler.processOrder st.cr env st.w order TrackingResult.zero).1,
    result := { st.result with
      Idle := false,
      Orders := Map.Store st.result.Orders handle
        (Crawler.processOrder st.cr env st.w order TrackingResult.zero).2.1 } }

/-- One call of the `Range` callback of `sessionHandler` on an entity, when
`processEntity` returns nil: the result is committed and recorded. -/
def Crawler.entityStep (env : Env) (st : PassState) (handle : Handle) (entity : Entity) : PassState :=
  { cr := Crawler.commitTrackingResult st.cr
      (Crawler.processEntity st.cr env st.w entity TrackingResult.zero).2.1,
    w := (Crawler.processEntity st.cr env st.w entity TrackingResult.zero).1,
    result := { st.result with
      Idle := false,
      Entities := Map.Store st.result.Entities handle
        (Crawler.processEntity st.cr env st.w entity TrackingResult.zero).2.1 } }

/-- A handler that leaves the `Handle` of both values of the result as it found them. -/
def KeepsHandles (f : Nat → TrackingResult → TrackingResult × Option Err) : Prop :=
  ∀ t r, (f t r).1.Order.Value.Handle = r.Order.Value.Handle ∧
    (f t r).1.Entity.Value.Handle = r.Entity.Value.Handle

/-- A handler that returns nil on every call and sets neither action. -/
def SucceedsPlainly (f : Nat → TrackingResult → TrackingResult × Option Err) : Prop :=
  ∀ t r, (f t r).2 = none ∧ (f t r).1.Order.Action = r.Order.Action ∧
    (f t r).1.Entity.Action = r.Entity.Action

/-- The handlers of a crawler, where present, keep the handles. -/
def Crawler.HandlersKeepHandles (cr : Crawler) : Prop :=
  (∀ f, cr.handlers.Order = some f → KeepsHandles f) ∧
  (∀ f, cr.handlers.Entity = some f → KeepsHandles f)

/-- Every order is stored under its own handle (`Crawler.order` and
`commitTrackingResult` store no other way) and no key occurs twice. -/
def OrdersKeyed (m : Map Handle Order) : Prop :=
  (∀ p ∈ m, p.2.Handle = some p.1) ∧ (Map.keys m).Nodup

/-- Every entity is stored under its own handle and no key occurs twice. -/
def EntitiesKeyed (m : Map Handle Entity) : Prop :=
  (∀ p ∈ m, p.2.Handle = some p.1) ∧ (Map.keys m).Nodup

/-- The mappings of a crawler are keyed by the handles of their values. -/
def Crawler.Keyed (cr : Crawler) : Prop := OrdersKeyed cr.orders ∧ EntitiesKeyed cr.entities

/-- `Range` visits every entry of a mapping once, in some order. -/
def Env.Fair (env : Env) : Prop :=
  (∀ m, (env.rangeOrders m).Perm m) ∧ (∀ m, (env.rangeEntities m).Perm m)

/-- The pass context is not cancelled at any point of the pass. -/
def Env.Live (env : Env) : Prop := ∀ n, env.ctxErr n = none

/-- No handler call in the list was made for the handle `h`. -/
def NotCalledFor (h : Handle) (calls : List Call) : Prop :=
  Call.Order (some h) ∉ calls ∧ Call.Entity (some h) ∉ calls

/-- The orders loop of a pass on a live context. -/
def Crawler.ordersPhase (cr : Crawler) (env : Env) (w : World) : PassState :=
  (env.rangeOrders cr.orders).foldl (fun st p => Crawler.orderStep env st p.1 p.2)
    (Crawler.passStart cr w)

/-- The entities loop of a pass on a live context, from the state the orders loop left. -/
def Crawler.entitiesPhase (env : Env) (st : PassState) : PassState :=
  (env.rangeEntities st.cr.entities).foldl (fun st p => Crawler.entityStep env st p.1 p.2) st

/-- `Track(handle)` followed by one `sessionHandler` pass started in world `w`. -/
def Crawler.trackThenPass (cr : Crawler) (env : Env) (w : World) (handle : Handle) : PassState :=
  Crawler.sessionHandler (Crawler.Track cr handle).1 env w

/-- `Untrack(handle)` followed by one `sessionHandler` pass started in world `w`. -/
def Crawler.untrackThenPass (cr : Crawler) (env : Env) (w : World) (handle : Handle) : PassState :=
  Crawler.sessionHandler (Crawler.Untrack cr handle).1 env w

/-- A third valid handle for examples. -/
def handleC : Handle := ⟨3, true⟩

/-- A crawler that tracks `handleB`, holds a Start order for `handleC`, and has
handlers that succeed and write nothing. -/
def Crawler.busy : Crawler :=
  { Crawler.fresh with
    handlers := ⟨some plainHandler, some plainHandler⟩,
    orders := [(handleC, ⟨TrackingCommandStart, 0, 0, some handleC, 0⟩)],
    entities := [(handleB, ⟨0, 0, some handleB, 0⟩)] }

/-- A crawler whose session is paused, with `PauseIdle` as given, that tracks
`handleB` and holds a Stop order for it. -/
def Crawler.dormant (pauseIdle : Bool) : Crawler :=
  { Crawler.fresh with
    session := { Session.zero with active := true, paused := true, pauseIdle := pauseIdle },
    orders := [(handleB, ⟨TrackingCommandStop, 0, 0, some handleB, 0⟩)],
    entities := [(handleB, ⟨0, 0, some handleB, 0⟩)] }

/-- A call of the broadcast API on the heap: `NewBroadcaster`, the methods of a
broadcaster, and `Discard` of a listener. -/
inductive BroadcastCall (V : Type) where
  | NewBroadcaster (capacity : Int)
  | Listen (b : Nat)
  | DiscardListener (b : Nat) (l : Option Nat)
  | Discard (b : Nat)
  | ListenerDiscard (l : Nat)
  | SendWithTimeout (env : SendEnv) (b : Nat) (pctxErr : Option Err) (value : V)
      (timeout : Duration) (report : Bool)

/-- The heap after one call of the broadcast API. -/
def BroadcastCall.run {V : Type} (c : BroadcastCall V) (h : Heap V) : Except Panic (Heap V) :=
  match c with
  | BroadcastCall.NewBroadcaster capacity => Except.ok (csync.NewBroadcaster h capacity).1
  | BroadcastCall.Listen b =>
    match broadcaster.Listen h b with
    | Except.error p => Except.error p
    | Except.ok (h1, _) => Except.ok h1
  | BroadcastCall.DiscardListener b l => broadcaster.DiscardListener h b l
  | BroadcastCall.Discard b => broadcaster.Discard h b
  | BroadcastCall.ListenerDiscard l => listener.Discard h l
  | BroadcastCall.SendWithTimeout env b pctxErr value timeout report =>
    match broadcaster.SendWithTimeout env h b pctxErr value timeout report with
    | Except.error p => Except.error p
    | Except.ok (h1, _, _) => Except.ok h1

/-- The heap after a sequence of calls of the broadcast API. -/
def BroadcastCall.runAll {V : Type} : List (BroadcastCall V) → Heap V → Except Panic (Heap V)
  | [], h => Except.ok h
  | c :: rest, h =>
    match c.run h with
    | Except.error p => Except.error p
    | Except.ok h1 => BroadcastCall.runAll rest h1

/-- The heap a call returned, the empty heap if it panicked. -/
def heapOf {V : Type} (x : Except Panic (Heap V)) : Heap V :=
  match x with
  | Except.ok h => h
  | Except.error _ => Heap.empty

/-- A heap with one broadcaster of capacity 1 and one listener on it. -/
def listenedHeap : Heap Nat :=
  heapOf (BroadcastCall.runAll [BroadcastCall.Listen 0] (NewBroadcaster Heap.empty 1).1)

/-- Calls made after the broadcaster of `listenedHeap` was discarded: a second
listener, another broadcaster with a listener and a send on it, and a second
`Discard`. -/
def laterCalls : List (BroadcastCall Nat) :=
  [BroadcastCall.Listen 0, BroadcastCall.NewBroadcaster 1, BroadcastCall.Listen 1,
   BroadcastCall.SendWithTimeout SendEnv.eager 1 none 5 0 true, BroadcastCall.Discard 0]

/-- An order handler that succeeds after setting the order action to Update,
leaving the entity action alone. -/
def deferringHandler : OrderHandler := fun _ r =>
  ({ r with Order := { r.Order with Action := TrackingActionUpdate } }, none)

/-- The value `processOrder` assigns to `result.Order.Err` for a Start order:
what the Order handler returns when called at tick `t` on `result`, or
`NilHandler` when there is no Order handler. -/
def Crawler.orderHandlerErr (cr : Crawler) (t : Nat) (result : TrackingResult) : Option Err :=
  match cr.loadHandlers.Order with
  | some handler => (handler t result).2
  | none => some Err.NilHandler

/-- The value `processEntity` assigns to `result.Entity.Err`: what the Entity
handler returns when called at tick `t` on `result`, or `NilHandler` when
there is no Entity handler. -/
def Crawler.entityHandlerErr (cr : Crawler) (t : Nat) (result : TrackingResult) : Option Err :=
  match cr.loadHandlers.Entity with
  | some handler => (handler t result).2
  | none => some Err.NilHandler

/-- A crawler that tracks `handleB`, holds a Start order for `handleC`, has an
Entity handler that always fails and no Order handler. -/
def Crawler.troubled : Crawler :=
  { Crawler.busy with handlers := ⟨none, some failingHandler⟩ }

/-- What the Order handler returned to `processOrder`, called on `order` with a
zero result: the result as the handler left it and its error. It is `none`
when `processOrder` does not call the handler: the context is cancelled, the
minimum delay applies, the command is not Start, or the handler is nil. -/
def Crawler.orderHandlerOutput (cr : Crawler) (env : Env) (w : World) (order : Order) :
    Option (TrackingResult × Option Err) :=
  match env.ctxErr w.tick with
  | some _ => none
  | none =>
    if !Time.IsZero order.LastProcessing &&
        decide (Time.Sub (env.now w.tick) order.LastProcessing
          < cr.loadSettings.MinimumTrackingOrderDelay) then none
    else if order.Command = TrackingCommandStart then
      match cr.loadHandlers.Order with
      | some handler =>
        some (handler (if Time.IsZero order.LastProcessing then w.tick else w.tick + 1)
          (Crawler.orderPrelude order TrackingResult.zero))
      | none => none
    else none

/-- Something that happened during a pass: `processOrder` ran on an order, with
what the Order handler returned to it (if it was called); or the Entity
handler was invoked on an entity with the given handle. -/
inductive Happening where
  | order (o : Order) (out : Option (TrackingResult × Option Err))
  | entity (h : Option Handle)
  deriving DecidableEq, Repr

/-- The `processOrder` calls of the orders loop of `sessionHandler`, in the
order made; the loop ends at the first call that returns an error. -/
def Crawler.orderHappenings (env : Env) : List (Handle × Order) → PassState → List Happening
  | [], _ => []
  | p :: rest, st =>
    Happening.order p.2 (Crawler.orderHandlerOutput st.cr env st.w p.2) ::
      (if (Crawler.processOrder st.cr env st.w p.2 TrackingResult.zero).2.2.isNone then
        Crawler.orderHappenings env rest (Crawler.orderStep env st p.1 p.2)
      else [])

/-- The Entity handler calls of a call log, in the order made. -/
def entityHappenings (calls : List Call) : List Happening :=
  calls.filterMap (fun c =>
    match c with
    | Call.Entity h => some (Happening.entity h)
    | Call.Order _ => none)

/-- What happens in one `sessionHandler` pass started at tick `tick`: the
`processOrder` calls of the orders loop, then the Entity handler calls of the
entities loop. -/
def Crawler.passHappenings (cr : Crawler) (env : Env) (tick : Nat) : List Happening :=
  Crawler.orderHappenings env (env.rangeOrders cr.orders) (Crawler.passStart cr ⟨tick, []⟩) ++
    entityHappenings (Crawler.sessionHandler cr env ⟨tick, []⟩).w.calls

/-- A step of the life of a crawler: a call of `Track`, a call of `Untrack`, or
a pass of `sessionHandler` in an environment, started at a tick. -/
inductive Op where
  | Track (h : Handle)
  | Untrack (h : Handle)
  | Pass (env : Env) (tick : Nat)

/-- The crawler after a sequence of steps, and everything that happened in its
passes, in order, appended to `hist`. -/
def Crawler.runOps : List Op → Crawler → List Happening → Crawler × List Happening
  | [], cr, hist => (cr, hist)
  | Op.Track h :: rest, cr, hist => Crawler.runOps rest (Crawler.Track cr h).1 hist
  | Op.Untrack h :: rest, cr, hist => Crawler.runOps rest (Crawler.Untrack cr h).1 hist
  | Op.Pass env tick :: rest, cr, hist =>
    Crawler.runOps rest (Crawler.sessionHandler cr env ⟨tick, []⟩).cr
      (hist ++ Crawler.passHappenings cr env tick)

/-- Whether a happening is a `processOrder` on a Start order for `h` whose
handler returned nil and either left `order.action` None or set
`entity.action` to Update: the condition under which `processOrder` asks for
the entity to be stored. -/
def Happening.bornFrom (h : Handle) : Happening → Bool
  | Happening.order o (some (r, none)) =>
    decide (o.Handle = some h) && decide (o.Command = TrackingCommandStart) &&
      (decide (r.Order.Action = TrackingActionNone) ||
        decide (r.Entity.Action = TrackingActionUpdate))
  | _ => false

/-- The condition in the words of the specification: a `processOrder` on a
Start order for `h` whose handler returned nil and either set no action at
all, or set `entity.action` to Update. -/
def Happening.bornFromAsStated (h : Handle) : Happening → Bool
  | Happening.order o (some (r, none)) =>
    decide (o.Handle = some h) && decide (o.Command = TrackingCommandStart) &&
      ((decide (r.Order.Action = TrackingActionNone) &&
          decide (r.Entity.Action = TrackingActionNone)) ||
        decide (r.Entity.Action = TrackingActionUpdate))
  | _ => false

/-- Some happening of the list is a birth for `h`. -/
def Born (h : Handle) (hist : List Happening) : Prop :=
  ∃ e ∈ hist, Happening.bornFrom h e = true

/-- An order handler that succeeds, leaves the order action alone and asks for
the entity to be removed. -/
def discardingHandler : OrderHandler := fun _ r =>
  ({ r with Entity := { r.Entity with Action := TrackingActionRemove } }, none)

/-- The listeners of broadcaster `b` are in order: every listener stored has a
channel that was allocated and is not closed, and two listeners stored do not
share a channel. (`Listen` on an open broadcaster stores a channel it has just
made; `DiscardListener` removes a listener before it closes its channel.) -/
def ListenersIntact {V : Type} (h : Heap V) (b : Nat) : Prop :=
  (∀ p ∈ (h.bc b).listeners, p.2 < h.chans.length ∧ (h.chan p.2).closed = false) ∧
  (∀ p ∈ (h.bc b).listeners, ∀ q ∈ (h.bc b).listeners, p.2 = q.2 → p.1 = q.1)

/-- A heap with one broadcaster of capacity 1 and two listeners on it. -/
def twiceListenedHeap : Heap Nat :=
  heapOf (BroadcastCall.runAll [BroadcastCall.Listen 0, BroadcastCall.Listen 0]
    (NewBroadcaster Heap.empty 1).1)

end crawly

/-! # Properties -/

namespace csync

/-! ## The keyed mapping -/

theorem Map.Has_cons {K V : Type} [DecidableEq K] (e : K × V) (m : Map K V) (k : K) :
    Map.Has (e :: m) k = (decide (e.1 = k) || Map.Has m k) := by
  simp only [Map.Has, List.any_cons]

theorem Map.Load_cons {K V : Type} [DecidableEq K] (e : K × V) (m : Map K V) (k : K) :
    Map.Load (e :: m) k = if e.1 = k then some e.2 else Map.Load m k := by
  simp only [Map.Load, List.find?_cons]
  by_cases h : e.1 = k <;> simp [h]

theorem Map.Delete_cons {K V : Type} [DecidableEq K] (e : K × V) (m : Map K V) (k : K) :
    Map.Delete (e :: m) k = if e.1 = k then Map.Delete m k else e :: Map.Delete m k := by
  simp only [Map.Delete, List.filter_cons]
  by_cases h : e.1 = k <;> simp [h]

/-- The replacement branch of `Map.Store`, one entry at a time. -/
theorem Map.replace_cons {K V : Type} [DecidableEq K] (e : K × V) (m : Map K V) (k : K) (v : V) :
    (e :: m).map (fun e => if e.1 = k then (k, v) else e)
      = (if e.1 = k then (k, v) else e) :: m.map (fun e => if e.1 = k then (k, v) else e) := rfl

theorem Map.Has_replace {K V : Type} [DecidableEq K] (m : Map K V) (k k' : K) (v : V) :
    Map.Has (m.map (fun e => if e.1 = k then (k, v) else e)) k' = Map.Has m k' := by
  induction m with
  | nil => rfl
  | cons e m ih =>
    rw [Map.replace_cons, Map.Has_cons, Map.Has_cons, ih]
    by_cases he : e.1 = k
    · rw [if_pos he, he]
    · rw [if_neg he]

theorem Map.Has_append_single {K V : Type} [DecidableEq K] (m : Map K V) (k k' : K) (v : V) :
    Map.Has (m ++ [(k, v)]) k' = (Map.Has m k' || decide (k = k')) := by
  induction m with
  | nil => simp [Map.Has]
  | cons e m ih =>
    rw [List.cons_append, Map.Has_cons, Map.Has_cons, ih, Bool.or_assoc]

theorem Map.Load_append_single {K V : Type} [DecidableEq K] (m : Map K V) (k k' : K) (v : V) :
    Map.Load (m ++ [(k, v)]) k'
      = if Map.Has m k' = true then Map.Load m k' else if k = k' then some v else none := by
  induction m with
  | nil =>
    rw [List.nil_append, Map.Load_cons]
    simp [Map.Has, Map.Load]
  | cons e m ih =>
    rw [List.cons_append, Map.Load_cons, Map.Load_cons, Map.Has_cons, ih]
    by_cases he : e.1 = k'
    · simp [he]
    · simp [he]

theorem Map.Has_Delete_self {K V : Type} [DecidableEq K] (m : Map K V) (k : K) :
    Map.Has (Map.Delete m k) k = false := by
  induction m with
  | nil => rfl
  | cons e m ih =>
    rw [Map.Delete_cons]
    by_cases he : e.1 = k
    · rw [if_pos he, ih]
    · rw [if_neg he, Map.Has_cons, ih]
      simp [he]

theorem Map.Has_Delete_ne {K V : Type} [DecidableEq K] (m : Map K V) (k k' : K) (h : k' ≠ k) :
    Map.Has (Map.Delete m k) k' = Map.Has m k' := by
  induction m with
  | nil => rfl
  | cons e m ih =>
    rw [Map.Delete_cons]
    by_cases he : e.1 = k
    · have hne : ¬ e.1 = k' := fun h' => h (h'.symm.trans he)
      rw [if_pos he, ih, Map.Has_cons]
      simp [hne]
    · rw [if_neg he, Map.Has_cons, Map.Has_cons, ih]

theorem Map.Has_Store_self {K V : Type} [DecidableEq K] (m : Map K V) (k : K) (v : V) :
    Map.Has (Map.Store m k v) k = true := by
  by_cases hk : Map.Has m k = true
  · rw [Map.Store, if_pos hk, Map.Has_replace, hk]
  · rw [Map.Store, if_neg hk, Map.Has_append_single]
    simp

theorem Map.Has_Store_ne {K V : Type} [DecidableEq K] (m : Map K V) (k k' : K) (v : V)
    (h : k' ≠ k) : Map.Has (Map.Store m k v) k' = Map.Has m k' := by
  have hne : ¬ k = k' := fun h' => h h'.symm
  by_cases hk : Map.Has m k = true
  · rw [Map.Store, if_pos hk, Map.Has_replace]
  · rw [Map.Store, if_neg hk, Map.Has_append_single]
    simp [hne]

theorem Map.Load_replace_self {K V : Type} [DecidableEq K] (m : Map K V) (k : K) (v : V)
    (hk : Map.Has m k = true) :
    Map.Load (m.map (fun e => if e.1 = k then (k, v) else e)) k = some v := by
  induction m with
  | nil => simp [Map.Has] at hk
  | cons e m ih =>
    rw [Map.replace_cons, Map.Load_cons]
    by_cases he : e.1 = k
    · simp [he]
    · rw [Map.Has_cons] at hk
      have hm : Map.Has m k = true := by simpa [he] using hk
      simp [he, ih hm]

theorem Map.Load_replace_ne {K V : Type} [DecidableEq K] (m : Map K V) (k k' : K) (v : V)
    (h : k' ≠ k) :
    Map.Load (m.map (fun e => if e.1 = k then (k, v) else e)) k' = Map.Load m k' := by
  have hne : ¬ k = k' := fun h' => h h'.symm
  induction m with
  | nil => rfl
  | cons e m ih =>
    rw [Map.replace_cons, Map.Load_cons, Map.Load_cons, ih]
    by_cases he : e.1 = k
    · have hne1 : ¬ e.1 = k' := fun h' => h (h'.symm.trans he)
      simp [he, hne, hne1]
    · simp [he]

theorem Map.Load_Store_self {K V : Type} [DecidableEq K] (m : Map K V) (k : K) (v : V) :
    Map.Load (Map.Store m k v) k = some v := by
  by_cases hk : Map.Has m k = true
  · rw [Map.Store, if_pos hk, Map.Load_replace_self m k v hk]
  · rw [Map.Store, if_neg hk, Map.Load_append_single]
    simp [hk]

theorem Map.Load_Store_ne {K V : Type} [DecidableEq K] (m : Map K V) (k k' : K) (v : V)
    (h : k' ≠ k) : Map.Load (Map.Store m k v) k' = Map.Load m k' := by
  have hne : ¬ k = k' := fun h' => h h'.symm
  by_cases hk : Map.Has m k = true
  · rw [Map.Store, if_pos hk, Map.Load_replace_ne m k k' v h]
  · rw [Map.Store, if_neg hk, Map.Load_append_single]
    by_cases hk' : Map.Has m k' = true
    · simp [hk']
    · have hnone : Map.Load m k' = none := by
        simp only [Map.Has, List.any_eq_true, decide_eq_true_eq, not_exists, not_and] at hk'
        simp only [Map.Load, Option.map_eq_none', List.find?_eq_none, decide_eq_true_eq]
        exact hk'
      simp [hk', hne, hnone]

theorem Map.Load_Delete_ne {K V : Type} [DecidableEq K] (m : Map K V) (k k' : K) (h : k' ≠ k) :
    Map.Load (Map.Delete m k) k' = Map.Load m k' := by
  induction m with
  | nil => rfl
  | cons e m ih =>
    rw [Map.Delete_cons, Map.Load_cons]
    by_cases he : e.1 = k
    · have hne1 : ¬ e.1 = k' := fun h' => h (h'.symm.trans he)
      rw [if_pos he, ih, if_neg hne1]
    · rw [if_neg he, Map.Load_cons, ih]

theorem Map.Has_iff_mem_keys {K V : Type} [DecidableEq K] (m : Map K V) (k : K) :
    Map.Has m k = true ↔ k ∈ Map.keys m := by
  simp [Map.Has, Map.keys]

theorem Map.mem_Store {K V : Type} [DecidableEq K] (m : Map K V) (k : K) (v : V) (p : K × V)
    (hp : p ∈ Map.Store m k v) : p = (k, v) ∨ (p ∈ m ∧ p.1 ≠ k) := by
  unfold Map.Store at hp
  split at hp
  · obtain ⟨e, he, hep⟩ := List.mem_map.mp hp
    by_cases hk : e.1 = k
    · left; rw [if_pos hk] at hep; exact hep.symm
    · right; rw [if_neg hk] at hep; rw [← hep]; exact ⟨he, hk⟩
  · rename_i hk
    rcases List.mem_append.mp hp with h | h
    · right
      refine ⟨h, fun hpk => hk ?_⟩
      simp only [Map.Has, List.any_eq_true, decide_eq_true_eq]
      exact ⟨p, h, hpk⟩
    · left; simpa using h

theorem Map.mem_Store_self {K V : Type} [DecidableEq K] (m : Map K V) (k : K) (v : V) :
    (k, v) ∈ Map.Store m k v := by
  unfold Map.Store
  split
  · rename_i hk
    simp only [Map.Has, List.any_eq_true, decide_eq_true_eq] at hk
    obtain ⟨e, he, hek⟩ := hk
    exact List.mem_map.mpr ⟨e, he, by rw [if_pos hek]⟩
  · simp

theorem Map.keys_Store {K V : Type} [DecidableEq K] (m : Map K V) (k : K) (v : V) :
    Map.keys (Map.Store m k v) = if Map.Has m k = true then Map.keys m else Map.keys m ++ [k] := by
  unfold Map.Store
  split
  · simp only [Map.keys, List.map_map]
    apply List.map_congr_left
    intro e _
    simp only [Function.comp]
    by_cases hk : e.1 = k
    · rw [if_pos hk, hk]
    · rw [if_neg hk]
  · simp [Map.keys]

theorem Map.nodup_keys_Store {K V : Type} [DecidableEq K] (m : Map K V) (k : K) (v : V)
    (hm : (Map.keys m).Nodup) : (Map.keys (Map.Store m k v)).Nodup := by
  rw [Map.keys_Store]
  split
  · exact hm
  · rename_i hk
    rw [Map.Has_iff_mem_keys] at hk
    exact List.Nodup.append hm (List.nodup_singleton k) (by simpa using hk)

theorem Map.mem_Delete {K V : Type} [DecidableEq K] (m : Map K V) (k : K) (p : K × V) :
    p ∈ Map.Delete m k ↔ p ∈ m ∧ p.1 ≠ k := by
  simp [Map.Delete]

theorem Map.nodup_keys_Delete {K V : Type} [DecidableEq K] (m : Map K V) (k : K)
    (hm : (Map.keys m).Nodup) : (Map.keys (Map.Delete m k)).Nodup := by
  unfold Map.keys Map.Delete
  exact List.Nodup.sublist (List.Sublist.map _ (List.filter_sublist _)) hm

theorem Map.Has_of_perm {K V : Type} [DecidableEq K] (m m' : Map K V) (hp : m'.Perm m) (k : K) :
    Map.Has m' k = Map.Has m k := by
  rw [Bool.eq_iff_iff, Map.Has_iff_mem_keys, Map.Has_iff_mem_keys]
  exact (List.Perm.map Prod.fst hp).mem_iff

theorem Map.Has_Store_of_Has {K V : Type} [DecidableEq K] (m : Map K V) (k k' : K) (v : V)
    (h : Map.Has m k' = true) : Map.Has (Map.Store m k v) k' = true := by
  by_cases hk : k' = k
  · rw [hk]; exact Map.Has_Store_self m k v
  · rw [Map.Has_Store_ne m k k' v hk]; exact h

end csync

namespace crawly

open csync

/-! ## The tracking state machine -/

/-- A pass that `processEntity` skips for the minimum delay calls no handler,
returns nil and hands back the entity as it was, with action None. -/
theorem processEntity_skip (cr : Crawler) (env : Env) (w : World) (e : Entity) (r : TrackingResult)
    (hctx : env.ctxErr w.tick = none) (hz : Time.IsZero e.LastProcessing = false)
    (hd : Time.Sub (env.now w.tick) e.LastProcessing < cr.loadSettings.MinimumTrackingDelay) :
    Crawler.processEntity cr env w e r = (⟨w.tick + 1, w.calls⟩, Crawler.entityPrelude e r, none) := by
  simp [Crawler.processEntity, hctx, Crawler.entityPrelude, hz, hd]

/-- C10. Minimum-delay skip: for an entity whose lastProcessing is not zero and
a clock reading less than MinimumTrackingDelay after it (pass context not
cancelled), processEntity calls no handler, returns nil, leaves the action None
and the entity value (attempt and lastProcessing included) as it was, and
committing the result leaves both mappings as they were. -/
theorem C10_minimum_delay_skip (cr : Crawler) (env : Env) (w : World) (e : Entity)
    (hctx : env.ctxErr w.tick = none) (hz : Time.IsZero e.LastProcessing = false)
    (hd : Time.Sub (env.now w.tick) e.LastProcessing < cr.loadSettings.MinimumTrackingDelay) :
    (Crawler.processEntity cr env w e TrackingResult.zero).1.calls = w.calls ∧
    (Crawler.processEntity cr env w e TrackingResult.zero).2.2 = none ∧
    (Crawler.processEntity cr env w e TrackingResult.zero).2.1.Entity.Action = TrackingActionNone ∧
    (Crawler.processEntity cr env w e TrackingResult.zero).2.1.Entity.Value = e ∧
    (Crawler.commitTrackingResult cr
        (Crawler.processEntity cr env w e TrackingResult.zero).2.1).entities = cr.entities ∧
    (Crawler.commitTrackingResult cr
        (Crawler.processEntity cr env w e TrackingResult.zero).2.1).orders = cr.orders := by
  rw [processEntity_skip cr env w e _ hctx hz hd]
  simp [Crawler.entityPrelude, TrackingResult.zero, Crawler.commitTrackingResult, commitEntities,
    commitOrders, Order.zero]
  cases e.Handle <;> simp

/-- When the context is not cancelled and the minimum delay does not apply,
`processOrder` is `orderBody` run on the copied order. -/
theorem processOrder_processed (cr : Crawler) (env : Env) (w : World) (order : Order)
    (result : TrackingResult) (hctx : env.ctxErr w.tick = none)
    (hproc : ¬ (Time.IsZero order.LastProcessing = false ∧
      Time.Sub (env.now w.tick) order.LastProcessing < cr.loadSettings.MinimumTrackingOrderDelay)) :
    Crawler.processOrder cr env w order result
      = Crawler.orderBody cr env
          ⟨if Time.IsZero order.LastProcessing then w.tick else w.tick + 1, w.calls⟩
          (Crawler.orderPrelude order result) := by
  by_cases hz : Time.IsZero order.LastProcessing = true
  · simp [Crawler.processOrder, hctx, Crawler.orderPrelude, hz]
  · have hz' : Time.IsZero order.LastProcessing = false := by simpa using hz
    have hd : ¬ Time.Sub (env.now w.tick) order.LastProcessing
        < cr.loadSettings.MinimumTrackingOrderDelay := fun h => hproc ⟨hz', h⟩
    simp [Crawler.processOrder, hctx, Crawler.orderPrelude, hz', hd]

/-- The decision taken for a Start order whose handler reported `InvalidHandle`. -/
theorem orderStartOutcome_invalid (maxAttempts : Int) (r : TrackingResult)
    (herr : r.Order.Err = some Err.InvalidHandle) :
    (Crawler.orderStartOutcome maxAttempts r).Order.Action = TrackingActionRemove ∧
    (Crawler.orderStartOutcome maxAttempts r).Entity.Action = TrackingActionNone ∧
    (Crawler.orderStartOutcome maxAttempts r).Order.Value.Handle = r.Order.Value.Handle := by
  simp [Crawler.orderStartOutcome, herr]

/-- C9. For a Start order that reaches its handler (context not cancelled,
minimum delay not applying), whatever its attempt count, the configured
maximum and the actions the handler preset: if the handler returns
InvalidHandle, processOrder returns nil with order.action = Remove and
entity.action = None; committing that result leaves the entities mapping as it
was and removes the order carried by the result from the orders mapping, and
the carried handle is the order's own when the handler left it alone. -/
theorem C9_invalid_handle_removes_order (cr : Crawler) (env : Env) (w : World) (order : Order)
    (result : TrackingResult) (handler : OrderHandler)
    (hcmd : order.Command = TrackingCommandStart)
    (hh : cr.loadHandlers.Order = some handler)
    (hctx : env.ctxErr w.tick = none)
    (hproc : ¬ (Time.IsZero order.LastProcessing = false ∧
      Time.Sub (env.now w.tick) order.LastProcessing < cr.loadSettings.MinimumTrackingOrderDelay))
    (hret : ∀ t, (handler t (Crawler.orderPrelude order result)).2 = some Err.InvalidHandle) :
    (Crawler.processOrder cr env w order result).2.2 = none ∧
    (Crawler.processOrder cr env w order result).2.1.Order.Action = TrackingActionRemove ∧
    (Crawler.processOrder cr env w order result).2.1.Entity.Action = TrackingActionNone ∧
    (Crawler.commitTrackingResult cr (Crawler.processOrder cr env w order result).2.1).entities
      = cr.entities ∧
    (∀ h : Handle, (Crawler.processOrder cr env w order result).2.1.Order.Value.Handle = some h →
      h.Valid = true →
      Map.Has (Crawler.commitTrackingResult cr
        (Crawler.processOrder cr env w order result).2.1).orders h = false) ∧
    ((∀ t, (handler t (Crawler.orderPrelude order result)).1.Order.Value.Handle = order.Handle) →
      (Crawler.processOrder cr env w order result).2.1.Order.Value.Handle = order.Handle) := by
  rw [processOrder_processed cr env w order result hctx hproc]
  have hc : (Crawler.orderPrelude order result).Order.Value.Command = TrackingCommandStart := by
    simpa [Crawler.orderPrelude] using hcmd
  obtain ⟨h1, h2, h3⟩ := orderStartOutcome_invalid
    (maxAttemptsOf cr.loadSettings.MaximumTrackingOrderAttempts)
    { (handler (if Time.IsZero order.LastProcessing then w.tick else w.tick + 1)
          (Crawler.orderPrelude order result)).1 with
      Order := { (handler (if Time.IsZero order.LastProcessing then w.tick else w.tick + 1)
          (Crawler.orderPrelude order result)).1.Order with
        Err := (handler (if Time.IsZero order.LastProcessing then w.tick else w.tick + 1)
          (Crawler.orderPrelude order result)).2 } }
    (by simpa using hret _)
  refine ⟨rfl, ?_, ?_, ?_, ?_, ?_⟩
  · simpa [Crawler.orderBody, Crawler.orderSwitch, hc, hh] using h1
  · simpa [Crawler.orderBody, Crawler.orderSwitch, hc, hh] using h2
  · simp only [Crawler.commitTrackingResult, commitEntities, Crawler.orderBody,
      Crawler.orderSwitch, hc, hh, if_true]
    simp only [h2]
    cases (Crawler.orderStartOutcome _ _).Entity.Value.Handle with
    | none => rfl
    | some h => simp
  · intro h hcar hv
    simp only [Crawler.orderBody, Crawler.orderSwitch, hc, hh, if_true] at hcar
    simp only [Crawler.commitTrackingResult, commitOrders, Crawler.orderBody,
      Crawler.orderSwitch, hc, hh, if_true]
    simp only [hcar, hv, h1, if_true]
    exact Map.Has_Delete_self _ _
  · intro hkeep
    simp only [Crawler.orderBody, Crawler.orderSwitch, hc, hh, if_true]
    rw [h3]
    exact hkeep _

/-- C9 at a concrete order: third attempt of a Start order for `handleA`, the
handler presets both actions to Update and returns `InvalidHandle`. -/
theorem C9_invalid_handle_witness :
    (Crawler.processOrder (Crawler.withHandlers ⟨some rejectingHandler, none⟩ DefaultCrawlerSettings)
        Env.steady ⟨0, []⟩ ⟨TrackingCommandStart, 2, 0, some handleA, 0⟩
        TrackingResult.zero).2.1.Order.Action = TrackingActionRemove ∧
    (Crawler.processOrder (Crawler.withHandlers ⟨some rejectingHandler, none⟩ DefaultCrawlerSettings)
        Env.steady ⟨0, []⟩ ⟨TrackingCommandStart, 2, 0, some handleA, 0⟩
        TrackingResult.zero).2.1.Entity.Action = TrackingActionNone :=
  have h := C9_invalid_handle_removes_order
    (Crawler.withHandlers ⟨some rejectingHandler, none⟩ DefaultCrawlerSettings)
    Env.steady ⟨0, []⟩ ⟨TrackingCommandStart, 2, 0, some handleA, 0⟩ TrackingResult.zero
    rejectingHandler rfl rfl rfl (by decide) (fun _ => rfl)
  ⟨h.2.1, h.2.2.1⟩

/-- `x.Attempt++` is `+ 1` below the largest `int`. -/
theorem incAttempt_eq (a : Int) (h0 : 0 ≤ a) (h1 : a + 1 ≤ maxInt64) : incAttempt a = a + 1 := by
  simp only [incAttempt, wrapInt64, maxInt64] at *
  omega

/-- When the context is not cancelled and the minimum delay does not apply,
`processEntity` is `entityBody` run on the copied entity. -/
theorem processEntity_processed (cr : Crawler) (env : Env) (w : World) (e : Entity)
    (result : TrackingResult) (hproc : Crawler.entityProcessed cr env w e = true) :
    Crawler.processEntity cr env w e result
      = Crawler.entityBody cr env
          ⟨if Time.IsZero e.LastProcessing then w.tick else w.tick + 1, w.calls⟩
          (Crawler.entityPrelude e result) := by
  simp only [Crawler.entityProcessed, Bool.and_eq_true, Option.isNone_iff_eq_none,
    Bool.not_eq_true', Bool.and_eq_false_iff, decide_eq_false_iff_not, Bool.not_eq_false'] at hproc
  obtain ⟨hctx, hskip⟩ := hproc
  rcases hskip with hz | hd
  · simp [Crawler.processEntity, hctx, Crawler.entityPrelude, hz]
  · by_cases hz : Time.IsZero e.LastProcessing = true
    · simp [Crawler.processEntity, hctx, Crawler.entityPrelude, hz]
    · have hz' : Time.IsZero e.LastProcessing = false := by simpa using hz
      simp [Crawler.processEntity, hctx, Crawler.entityPrelude, hz', hd]

/-- One processed pass over an entity whose handler fails plainly: the attempt
is incremented and the action follows the retry cap. -/
theorem processEntity_failure (cr : Crawler) (env : Env) (w : World) (e : Entity)
    (handler : EntityHandler) (hh : cr.loadHandlers.Entity = some handler)
    (hf : FailsPlainly handler) (hproc : Crawler.entityProcessed cr env w e = true) :
    (Crawler.processEntity cr env w e TrackingResult.zero).2.1.Entity.Value.Attempt
      = incAttempt e.Attempt ∧
    (Crawler.processEntity cr env w e TrackingResult.zero).2.1.Entity.Action
      = (if maxAttemptsOf cr.loadSettings.MaximumTrackingAttempts > 0 ∧
            incAttempt e.Attempt ≥ maxAttemptsOf cr.loadSettings.MaximumTrackingAttempts
         then TrackingActionRemove else TrackingActionUpdate) := by
  rw [processEntity_processed cr env w e _ hproc]
  obtain ⟨⟨err, herr, hne⟩, hact, hatt⟩ :=
    hf (if Time.IsZero e.LastProcessing then w.tick else w.tick + 1)
      (Crawler.entityPrelude e TrackingResult.zero)
  have hact' : (handler (if Time.IsZero e.LastProcessing then w.tick else w.tick + 1)
      (Crawler.entityPrelude e TrackingResult.zero)).1.Entity.Action = TrackingActionNone := by
    rw [hact]; rfl
  have hatt' : (handler (if Time.IsZero e.LastProcessing then w.tick else w.tick + 1)
      (Crawler.entityPrelude e TrackingResult.zero)).1.Entity.Value.Attempt = e.Attempt := by
    rw [hatt]; rfl
  simp only [Crawler.entityBody, hh, Crawler.entityOutcome, herr, hne, false_or, hatt', hact']
  constructor
  · split <;> rfl
  · split <;> rfl

/-- With a retry cap `n > 0`: on a run of processed passes from an entity at
attempt `a`, the pass number `k + 1` leaves attempt `a + k + 1`, with action
Update below the cap and Remove at the cap. -/
theorem entityRun_capped (cr : Crawler) (env : Env) (handler : EntityHandler)
    (hh : cr.loadHandlers.Entity = some handler) (hf : FailsPlainly handler)
    (hpos : 0 < cr.loadSettings.MaximumTrackingAttempts)
    (hmax : cr.loadSettings.MaximumTrackingAttempts ≤ maxInt64) :
    ∀ (ws : List World) (e : Entity) (a : Int), e.Attempt = a → 0 ≤ a →
      Crawler.entityRunProcessed cr env ws e = true →
      ∀ (k : Nat) (tr : TrackingResult), (Crawler.entityRun cr env ws e)[k]? = some tr →
        a + k + 1 ≤ cr.loadSettings.MaximumTrackingAttempts →
        tr.Entity.Value.Attempt = a + k + 1 ∧
        tr.Entity.Action = (if a + k + 1 < cr.loadSettings.MaximumTrackingAttempts
          then TrackingActionUpdate else TrackingActionRemove) := by
  intro ws
  induction ws with
  | nil => intro e a _ _ _ k tr hk; simp [Crawler.entityRun] at hk
  | cons w ws ih =>
    intro e a ha h0 hproc k tr hk hbound
    simp only [Crawler.entityRunProcessed, Bool.and_eq_true] at hproc
    obtain ⟨hp, hrest⟩ := hproc
    obtain ⟨hatt, hactn⟩ := processEntity_failure cr env w e handler hh hf hp
    have hmo : maxAttemptsOf cr.loadSettings.MaximumTrackingAttempts
        = cr.loadSettings.MaximumTrackingAttempts := by
      simp only [maxAttemptsOf]; split <;> omega
    have hinc : incAttempt e.Attempt = a + 1 := by
      rw [ha]; exact incAttempt_eq a h0 (by omega)
    rw [hmo, hinc] at hactn
    rw [hinc] at hatt
    cases k with
    | zero =>
      simp only [Crawler.entityRun, List.getElem?_cons_zero, Option.some.injEq] at hk
      subst hk
      refine ⟨by simpa using hatt, ?_⟩
      rw [hactn]
      simp only [Nat.cast_zero, add_zero]
      by_cases hlt : a + 1 < cr.loadSettings.MaximumTrackingAttempts
      · rw [if_pos hlt, if_neg (by omega)]
      · rw [if_neg hlt, if_pos ⟨hpos, by omega⟩]
    | succ k =>
      simp only [Crawler.entityRun, List.getElem?_cons_succ] at hk
      have := ih _ (a + 1) hatt (by omega) hrest k tr hk (by push_cast at hbound ⊢; omega)
      push_cast
      have e1 : a + (k + 1 : Int) + 1 = a + 1 + k + 1 := by ring
      rw [e1]
      exact this

/-- Without a retry cap (`n ≤ 0`): every processed pass of a plainly failing
handler ends with action Update. -/
theorem entityRun_uncapped (cr : Crawler) (env : Env) (handler : EntityHandler)
    (hh : cr.loadHandlers.Entity = some handler) (hf : FailsPlainly handler)
    (hle : cr.loadSettings.MaximumTrackingAttempts ≤ 0) :
    ∀ (ws : List World) (e : Entity), Crawler.entityRunProcessed cr env ws e = true →
      ∀ (k : Nat) (tr : TrackingResult), (Crawler.entityRun cr env ws e)[k]? = some tr →
        tr.Entity.Action = TrackingActionUpdate := by
  intro ws
  induction ws with
  | nil => intro e _ k tr hk; simp [Crawler.entityRun] at hk
  | cons w ws ih =>
    intro e hproc k tr hk
    simp only [Crawler.entityRunProcessed, Bool.and_eq_true] at hproc
    obtain ⟨hp, hrest⟩ := hproc
    obtain ⟨_, hactn⟩ := processEntity_failure cr env w e handler hh hf hp
    have hmo : maxAttemptsOf cr.loadSettings.MaximumTrackingAttempts = -1 := by
      simp only [maxAttemptsOf]; split
      · rfl
      · omega
    rw [hmo] at hactn
    cases k with
    | zero =>
      simp only [Crawler.entityRun, List.getElem?_cons_zero, Option.some.injEq] at hk
      subst hk
      rw [hactn, if_neg (by omega)]
    | succ k =>
      simp only [Crawler.entityRun, List.getElem?_cons_succ] at hk
      exact ih _ hrest k tr hk

/-- C3. Entity retry cap. Take an entity at attempt 0 and any run of processed
(non-skipped) passes over it in which the Entity handler returns an error other
than InvalidHandle without setting the action or changing Attempt. With
n = MaximumTrackingAttempts > 0, the k-th failure (k ≤ n) leaves attempt = k,
with action Update when k < n and Remove when k = n. With n ≤ 0 every failure
gives action Update. -/
theorem C3_entity_retry_cap (cr : Crawler) (env : Env) (handler : EntityHandler)
    (ws : List World) (e : Entity)
    (hh : cr.loadHandlers.Entity = some handler) (hf : FailsPlainly handler)
    (hmax : cr.loadSettings.MaximumTrackingAttempts ≤ maxInt64)
    (he : e.Attempt = 0)
    (hproc : Crawler.entityRunProcessed cr env ws e = true) :
    ∀ (k : Nat) (tr : TrackingResult), 1 ≤ k → (Crawler.entityRun cr env ws e)[k - 1]? = some tr →
      (0 < cr.loadSettings.MaximumTrackingAttempts →
        (k : Int) ≤ cr.loadSettings.MaximumTrackingAttempts →
        tr.Entity.Value.Attempt = k ∧
        ((k : Int) < cr.loadSettings.MaximumTrackingAttempts →
          tr.Entity.Action = TrackingActionUpdate) ∧
        ((k : Int) = cr.loadSettings.MaximumTrackingAttempts →
          tr.Entity.Action = TrackingActionRemove)) ∧
      (cr.loadSettings.MaximumTrackingAttempts ≤ 0 → tr.Entity.Action = TrackingActionUpdate) := by
  intro k tr hk hget
  obtain ⟨j, rfl⟩ : ∃ j, k = j + 1 := ⟨k - 1, by omega⟩
  simp only [Nat.add_sub_cancel] at hget
  constructor
  · intro hpos hbound
    obtain ⟨h1, h2⟩ := entityRun_capped cr env handler hh hf hpos hmax ws e 0 he (le_refl 0)
      hproc j tr hget (by push_cast at hbound ⊢; omega)
    refine ⟨by rw [h1]; push_cast; ring, ?_, ?_⟩
    · intro hlt
      rw [h2, if_pos (by push_cast at hlt ⊢; omega)]
    · intro heq
      rw [h2, if_neg (by push_cast at heq ⊢; omega)]
  · intro hle
    exact entityRun_uncapped cr env handler hh hf hle ws e hproc j tr hget

/-- C3 on scenario S3: cap 2, generic error on each pass; the second failure
leaves attempt 2 with action Remove. -/
theorem C3_entity_retry_cap_witness :
    (Crawler.processEntity (Crawler.withHandlers ⟨none, some failingHandler⟩ (settingsWithCaps 3 2))
      Env.steady ⟨10, []⟩
      (Crawler.processEntity (Crawler.withHandlers ⟨none, some failingHandler⟩ (settingsWithCaps 3 2))
        Env.steady ⟨0, []⟩ ⟨0, 0, some handleA, 0⟩ TrackingResult.zero).2.1.Entity.Value
      TrackingResult.zero).2.1.Entity.Action = TrackingActionRemove :=
  ((C3_entity_retry_cap (Crawler.withHandlers ⟨none, some failingHandler⟩ (settingsWithCaps 3 2))
      Env.steady failingHandler [⟨0, []⟩, ⟨10, []⟩] ⟨0, 0, some handleA, 0⟩ rfl
      (fun _ _ => ⟨⟨Err.other 1, rfl, by decide⟩, rfl, rfl⟩) (by decide) rfl (by decide)
      2 _ (by decide) rfl).1 (by decide) (by decide)).2.2 (by decide)

/-! ## The pass -/

/-- Visiting orders never sets `Idle` to true. -/
theorem visitOrders_Idle (env : Env) :
    ∀ (l : List (Handle × Order)) (st : PassState), st.result.Idle = false →
      (Crawler.visitOrders env l st).result.Idle = false := by
  intro l
  induction l with
  | nil => intro st h; simpa [Crawler.visitOrders] using h
  | cons p l ih =>
    intro st _
    obtain ⟨handle, order⟩ := p
    simp only [Crawler.visitOrders]
    split
    · rfl
    · exact ih _ rfl

/-- Visiting entities never sets `Idle` to true. -/
theorem visitEntities_Idle (env : Env) :
    ∀ (l : List (Handle × Entity)) (st : PassState), st.result.Idle = false →
      (Crawler.visitEntities env l st).result.Idle = false := by
  intro l
  induction l with
  | nil => intro st h; simpa [Crawler.visitEntities] using h
  | cons p l ih =>
    intro st _
    obtain ⟨handle, entity⟩ := p
    simp only [Crawler.visitEntities]
    split
    · rfl
    · exact ih _ rfl

/-- C4 (what the code does). The Result of every pass has Idle = false: it
starts false and is only ever assigned false. In particular the pass over a
crawler with no order and no entity visits nothing and still reports
Idle = false. -/
theorem C4_idle_is_never_true :
    (∀ (cr : Crawler) (env : Env) (w : World),
      (Crawler.sessionHandler cr env w).result.Idle = false) ∧
    (Crawler.sessionHandler Crawler.fresh Env.steady ⟨0, []⟩).result.Orders = [] ∧
    (Crawler.sessionHandler Crawler.fresh Env.steady ⟨0, []⟩).result.Entities = [] ∧
    (Crawler.sessionHandler Crawler.fresh Env.steady ⟨0, []⟩).w.calls = [] ∧
    (Crawler.sessionHandler Crawler.fresh Env.steady ⟨0, []⟩).result.Idle = false := by
  refine ⟨?_, rfl, rfl, rfl, rfl⟩
  intro cr env w
  have hA := visitOrders_Idle env (env.rangeOrders cr.orders) (Crawler.passStart cr w) rfl
  unfold Crawler.sessionHandler
  simp only []
  rw [if_pos (show (Crawler.passStart cr w).result.Err = none from rfl)]
  split
  · exact visitEntities_Idle env _ _ hA
  · exact hA

/-- C10 at a concrete entity: processed at second 1000, looked at again at
second 1000 with the default minimum delay of ten seconds. -/
theorem C10_minimum_delay_skip_witness :
    (Crawler.processEntity Crawler.fresh Env.steady ⟨0, []⟩ ⟨3, 1000 * Second, some handleA, 7⟩
      TrackingResult.zero).2.1.Entity.Value = ⟨3, 1000 * Second, some handleA, 7⟩ ∧
    (Crawler.processEntity Crawler.fresh Env.steady ⟨0, []⟩ ⟨3, 1000 * Second, some handleA, 7⟩
      TrackingResult.zero).2.1.Entity.Action = TrackingActionNone :=
  have h := C10_minimum_delay_skip Crawler.fresh Env.steady ⟨0, []⟩
    ⟨3, 1000 * Second, some handleA, 7⟩ rfl (by decide) (by decide)
  ⟨h.2.2.2.1, h.2.2.1⟩

end crawly

namespace csync

/-! ## The session engine -/

/-- Handling a result whose type has no `IsIdle` method never changes `paused`. -/
theorem onResult_paused_unchanged {T : Type} (m : Methods T) (hm : m.IsIdle = none)
    (env : SendEnv) (sess : Session) (h : Heap T) (broadcast : Option Nat)
    (ctxErr : Option Err) (r : T) (sess1 : Session) (h1 : Heap T)
    (hok : Session.onResult m env sess h broadcast ctxErr r = Except.ok (sess1, h1)) :
    sess1.paused = sess.paused := by
  simp only [Session.onResult, hm] at hok
  split at hok
  · split at hok
    · exact absurd hok (by simp)
    · simp only [Bool.and_false, Bool.false_eq_true, if_false, Except.ok.injEq,
        Prod.mk.injEq] at hok
      rw [← hok.1]
      rfl
  · simp only [Except.ok.injEq, Prod.mk.injEq] at hok
    rw [← hok.1]

/-- A cancelled parent context makes the loop of `Session.run` exit at its top;
the select after the loop then leaves the session and the heap as they were,
whether or not a caller of `Stop` is waiting on `stopped`. -/
theorem run_cancelled_no_teardown {T : Type} (m : Methods T) (env : SendEnv) (sess : Session)
    (h : Heap T) (loop : RunLoop) (err : Err) (ev : Event T) (sendErr : Option Err)
    (waiting : Bool) :
    Session.runIter m env sess h loop (some err) ev sendErr
      = Except.ok ⟨sess, h, loop, false, true⟩ ∧
    Session.runExit sess h loop waiting (some err) = Except.ok (sess, h) := by
  refine ⟨rfl, ?_⟩
  simp only [Session.runExit, Session.halt]
  split <;> rfl

/-- A reset of a ready bus that returns leaves the zero bus. -/
theorem Reset_ready {V : Type} (bus : Bus) (h : Heap V) (bus1 : Bus) (h1 : Heap V)
    (hready : bus.ready = true) (hreset : Bus.Reset bus h = Except.ok (bus1, h1)) :
    bus1 = Bus.zero := by
  unfold Bus.Reset at hreset
  rw [hready] at hreset
  simp only [Bool.not_true, Bool.false_eq_true, if_false] at hreset
  cases hb : bus.broadcast with
  | none =>
    rw [hb] at hreset
    simp only [Except.ok.injEq, Prod.mk.injEq] at hreset
    exact hreset.1.symm
  | some b =>
    rw [hb] at hreset
    simp only at hreset
    by_cases hc : broadcaster.Closed h b = true
    · rw [if_pos hc] at hreset
      simp only [Except.ok.injEq, Prod.mk.injEq] at hreset
      exact hreset.1.symm
    · rw [if_neg hc] at hreset
      cases hd : broadcaster.Discard h b with
      | error p => rw [hd] at hreset; exact absurd hreset (by simp)
      | ok h2 =>
        rw [hd] at hreset
        simp only [Except.ok.injEq, Prod.mk.injEq] at hreset
        exact hreset.1.symm

/-- What `halt` leaves of a session whose bus was ready, when the context is live. -/
theorem halt_live {V : Type} (sess : Session) (h : Heap V) (sess1 : Session) (h1 : Heap V)
    (hready : sess.bus.ready = true)
    (hhalt : Session.halt sess h none = Except.ok (sess1, h1)) :
    sess1 = { sess with active := false, bus := Bus.zero } := by
  unfold Session.halt at hhalt
  simp only at hhalt
  cases hr : Bus.Reset sess.bus h with
  | error p => rw [hr] at hhalt; exact absurd hhalt (by simp)
  | ok q =>
    obtain ⟨bus1, h2⟩ := q
    rw [hr] at hhalt
    simp only [Except.ok.injEq, Prod.mk.injEq] at hhalt
    rw [← hhalt.1, Reset_ready sess.bus h bus1 h2 hready hr]

/-- `Listen` on a session whose bus was reset sets the bus up again and returns
a listener on a new, open broadcaster. -/
theorem Listen_on_reset_bus {V : Type} (sess : Session) (h : Heap V) (hbus : sess.bus = Bus.zero) :
    ∃ sess2 h2 l, Session.Listen sess h = Except.ok (sess2, h2, l) ∧
      listener.channelClosed h2 l = false ∧ listener.Closed h2 l = false ∧
      sess2.bus.ready = true := by
  simp only [Session.Listen, Bus.Broadcast, hbus, Bus.Setup, Bus.zero, NewBroadcaster, Bus.makeIfNil,
    broadcaster.Listen, Heap.bc, Heap.setBc, listener.channelClosed, listener.Channel,
    Heap.lst, Heap.chan, listener.Closed, broadcaster.Closed]
  simp
  refine ⟨_, _, _, ⟨rfl, rfl, rfl⟩, ?_⟩
  simp

theorem Heap.bc_setBc {V : Type} (h : Heap V) (b : Nat) (x : broadcaster) (hb : b < h.bcs.length) :
    (h.setBc b x).bc b = x := by
  simp [Heap.bc, Heap.setBc, List.getD_eq_getElem?_getD, hb]

theorem Heap.lt_of_closed {V : Type} (h : Heap V) (b : Nat) (hc : (h.bc b).closed = true) :
    b < h.bcs.length := by
  by_contra hlt
  have : h.bc b = ⟨[], 0, false⟩ := by
    simp only [Heap.bc, List.getD_eq_getElem?_getD]
    rw [List.getElem?_eq_none (by omega)]
    rfl
  rw [this] at hc
  exact absurd hc (by decide)

/-- `Listen` on a closed broadcaster returns a listener whose channel is closed
and which is still stored among the listeners: `DiscardListener` of it panics. -/
theorem Listen_closed_then_DiscardListener {V : Type} (h : Heap V) (b : Nat)
    (hc : (h.bc b).closed = true) (hcap : 0 ≤ (h.bc b).capacity) :
    ∃ h1 l, broadcaster.Listen h b = Except.ok (h1, l) ∧
      listener.channelClosed h1 l = true ∧ listener.Closed h1 l = true ∧
      broadcaster.DiscardListener h1 b (some l) = Except.error Panic.closeOfClosedChannel := by
  have hb := Heap.lt_of_closed h b hc
  refine ⟨(({ h with
      chans := h.chans ++ [⟨(h.bc b).capacity.toNat, [], [], (h.bc b).closed⟩],
      lsts := h.lsts ++ [⟨h.chans.length, b, (h.bc b).closed⟩] } : Heap V).setBc b
        { h.bc b with listeners := Map.Store (h.bc b).listeners h.lsts.length h.chans.length }),
    h.lsts.length, ?_, ?_, ?_, ?_⟩
  · unfold broadcaster.Listen
    rw [if_neg (by omega)]
  · simp [listener.channelClosed, listener.Channel, Heap.lst, Heap.chan, Heap.setBc, hc]
  · simp [listener.Closed, Heap.lst, Heap.setBc, hc]
  · unfold broadcaster.DiscardListener
    simp only []
    rw [Heap.bc_setBc _ _ _ (by simpa using hb)]
    simp only [Map.LoadAndDelete, Map.Load_Store_self]
    unfold Heap.close
    rw [if_pos]
    simp [Heap.chan, Heap.setBc, hc]

end csync

namespace crawly

open csync

/-- C5 (what the code does). A session started with PauseIdle = true is not
paused by a pass that visited nothing: the Result of the pass reports
Idle = false and `*Result` has no `IsIdle` method, so the loop leaves `paused`
as it was (the pass counter does advance). For every state, handling a
`*Result` leaves `paused` unchanged. -/
theorem C5_idle_pass_does_not_pause :
    (Crawler.started ⟨Second, 0, false, true⟩).session.PauseIdle = true ∧
    (Crawler.started ⟨Second, 0, false, true⟩).session.Paused = false ∧
    (Crawler.sessionHandler (Crawler.started ⟨Second, 0, false, true⟩) Env.steady
        ⟨0, []⟩).result.Orders = [] ∧
    (Crawler.sessionHandler (Crawler.started ⟨Second, 0, false, true⟩) Env.steady
        ⟨0, []⟩).result.Entities = [] ∧
    pausedAfter (Session.runIter Result.methods SendEnv.eager
        (Crawler.started ⟨Second, 0, false, true⟩).session
        (Crawler.started ⟨Second, 0, false, true⟩).heap
        (startedSession ⟨Second, 0, false, true⟩).2.2 none
        (Event.result (Crawler.sessionHandler (Crawler.started ⟨Second, 0, false, true⟩)
          Env.steady ⟨0, []⟩).result) none) = some false ∧
    (∀ (env : SendEnv) (sess : Session) (h : Heap Result) (broadcast : Option Nat)
        (ctxErr : Option Err) (r : Result),
      pausedAfterResult (Session.onResult Result.methods env sess h broadcast ctxErr r)
          = some sess.Paused ∨
      pausedAfterResult (Session.onResult Result.methods env sess h broadcast ctxErr r)
          = none) := by
  refine ⟨rfl, rfl, rfl, rfl, rfl, ?_⟩
  intro env sess h broadcast ctxErr r
  cases hok : Session.onResult Result.methods env sess h broadcast ctxErr r with
  | error p => exact Or.inr rfl
  | ok q =>
    obtain ⟨sess1, h1⟩ := q
    left
    simp only [pausedAfterResult, Session.Paused]
    rw [onResult_paused_unchanged Result.methods rfl env sess h broadcast ctxErr r sess1 h1 hok]

/-- C7 (what the code does). Cancelling the context passed to Start makes the
loop exit, but nothing is torn down: `halt` is reached only if a caller of
`Stop` is waiting on `stopped`, and it returns at once on a cancelled context.
The session and the heap are left as they were, so `Active()` stays true and
the channel of a listener obtained during the session stays open. -/
theorem C7_cancel_does_not_tear_down :
    (∀ (env : SendEnv) (sess : Session) (h : Heap Result) (loop : RunLoop) (err : Err)
        (ev : Event Result) (sendErr : Option Err) (waiting : Bool),
      Session.runIter Result.methods env sess h loop (some err) ev sendErr
        = Except.ok ⟨sess, h, loop, false, true⟩ ∧
      Session.runExit sess h loop waiting (some err) = Except.ok (sess, h)) ∧
    cancelScenario true = some (true, false) ∧
    cancelScenario false = some (true, false) :=
  ⟨fun env sess h loop err ev sendErr waiting =>
      run_cancelled_no_teardown Result.methods env sess h loop err ev sendErr waiting,
    rfl, rfl⟩

/-- C8 (what the code does). `Listen` on a closed broadcaster closes the new
channel and still stores it among the listeners, so a following
`DiscardListener` of that listener closes the channel a second time: the
sequence Discard, Listen, DiscardListener panics. -/
theorem C8_discard_listener_closes_twice :
    discardListenDiscard = Except.error Panic.closeOfClosedChannel := rfl

/-- C6 (the claim fails). After a session has been started, listened on and
stopped, the listener returned by the next `Listen` has an open channel. -/
theorem C6_listener_after_stop_is_open_example :
    listenGivesClosed stoppedSession = some false := rfl

/-- C6 (amended). After a session whose bus was ready has been stopped (`halt`
ran on a live context and returned), `Active()` is false and the bus is reset;
the next `Listen` sets the bus up again with a new broadcaster and returns a
listener whose channel is open and whose `Closed()` is false. -/
theorem C6_listen_after_stop_is_open {V : Type} (sess : Session) (h : Heap V) (sess1 : Session)
    (h1 : Heap V) (hready : sess.bus.ready = true)
    (hhalt : Session.halt sess h none = Except.ok (sess1, h1)) :
    sess1.Active = false ∧ sess1.bus = Bus.zero ∧
    ∃ sess2 h2 l, Session.Listen sess1 h1 = Except.ok (sess2, h2, l) ∧
      listener.channelClosed h2 l = false ∧ listener.Closed h2 l = false ∧
      sess2.bus.ready = true := by
  have hs := halt_live sess h sess1 h1 hready hhalt
  have hbus : sess1.bus = Bus.zero := by rw [hs]
  refine ⟨by rw [hs]; rfl, hbus, Listen_on_reset_bus sess1 h1 hbus⟩

/-- C6 (amended) on a session that was started and then stopped. -/
theorem C6_listen_after_stop_witness :
    ∃ sess1 h1,
      Session.halt (startedSession ⟨Second, 0, false, false⟩).1
        (startedSession ⟨Second, 0, false, false⟩).2.1 none = Except.ok (sess1, h1) ∧
      sess1.Active = false ∧
      ∃ sess2 h2 l, Session.Listen sess1 h1 = Except.ok (sess2, h2, l) ∧
        listener.channelClosed h2 l = false ∧ listener.Closed h2 l = false ∧
        sess2.bus.ready = true :=
  ⟨_, _, rfl,
    (C6_listen_after_stop_is_open (startedSession ⟨Second, 0, false, false⟩).1
      (startedSession ⟨Second, 0, false, false⟩).2.1 _ _ rfl rfl).1,
    (C6_listen_after_stop_is_open (startedSession ⟨Second, 0, false, false⟩).1
      (startedSession ⟨Second, 0, false, false⟩).2.1 _ _ rfl rfl).2.2⟩

theorem orderStartOutcome_handles (m : Int) (r : TrackingResult) :
    (Crawler.orderStartOutcome m r).Order.Value.Handle = r.Order.Value.Handle ∧
    (Crawler.orderStartOutcome m r).Entity.Value.Handle = r.Entity.Value.Handle := by
  unfold Crawler.orderStartOutcome
  split <;> (simp only []; split_ifs <;> exact ⟨rfl, rfl⟩)

theorem entityOutcome_handles (m : Int) (r : TrackingResult) :
    (Crawler.entityOutcome m r).Order = r.Order ∧
    (Crawler.entityOutcome m r).Entity.Value.Handle = r.Entity.Value.Handle := by
  unfold Crawler.entityOutcome
  split <;> (simp only []; split_ifs <;> exact ⟨rfl, rfl⟩)

theorem orderSwitch_handles (cr : Crawler) (w : World) (r : TrackingResult)
    (hk : ∀ f, cr.handlers.Order = some f → KeepsHandles f) :
    (Crawler.orderSwitch cr w r).2.Order.Value.Handle = r.Order.Value.Handle ∧
    (Crawler.orderSwitch cr w r).2.Entity.Value.Handle = r.Entity.Value.Handle := by
  unfold Crawler.orderSwitch
  split_ifs
  · cases hf : cr.loadHandlers.Order with
    | none =>
      simp only []
      exact orderStartOutcome_handles _ _
    | some f =>
      simp only []
      obtain ⟨h1, h2⟩ := orderStartOutcome_handles
        (maxAttemptsOf cr.loadSettings.MaximumTrackingOrderAttempts)
        { (f w.tick r).1 with Order := { (f w.tick r).1.Order with Err := (f w.tick r).2 } }
      obtain ⟨k1, k2⟩ := hk f hf w.tick r
      exact ⟨h1.trans k1, h2.trans k2⟩
  · exact ⟨rfl, rfl⟩
  · exact ⟨rfl, rfl⟩

theorem orderSwitch_calls (cr : Crawler) (w : World) (r : TrackingResult) :
    (Crawler.orderSwitch cr w r).1.calls = w.calls ∨
    ((Crawler.orderSwitch cr w r).1.calls = w.calls ++ [Call.Order r.Order.Value.Handle] ∧
      r.Order.Value.Command = TrackingCommandStart) := by
  unfold Crawler.orderSwitch
  split_ifs with h1
  · cases hf : cr.loadHandlers.Order with
    | none => left; rfl
    | some f => right; exact ⟨rfl, h1⟩
  · left; rfl
  · left; rfl

theorem orderBody_spec (cr : Crawler) (env : Env) (w : World) (r : TrackingResult) :
    (Crawler.orderBody cr env w r).2.2 = none ∧
    (Crawler.orderBody cr env w r).1.calls = (Crawler.orderSwitch cr w r).1.calls ∧
    (Crawler.orderBody cr env w r).2.1.Order.Action = (Crawler.orderSwitch cr w r).2.Order.Action ∧
    (Crawler.orderBody cr env w r).2.1.Entity = (Crawler.orderSwitch cr w r).2.Entity ∧
    (Crawler.orderBody cr env w r).2.1.Order.Value.Handle
      = (Crawler.orderSwitch cr w r).2.Order.Value.Handle :=
  ⟨rfl, rfl, rfl, rfl, rfl⟩

/-- The three ways `processOrder` can go when the context is live. -/
theorem processOrder_live (cr : Crawler) (env : Env) (w : World) (o : Order) (r : TrackingResult)
    (hctx : env.ctxErr w.tick = none) :
    (Time.IsZero o.LastProcessing = false ∧
      Crawler.processOrder cr env w o r = (⟨w.tick + 1, w.calls⟩, Crawler.orderPrelude o r, none)) ∨
    (∃ t, Crawler.processOrder cr env w o r
      = Crawler.orderBody cr env ⟨t, w.calls⟩ (Crawler.orderPrelude o r)) := by
  by_cases hproc : (Time.IsZero o.LastProcessing = false ∧
      Time.Sub (env.now w.tick) o.LastProcessing < cr.loadSettings.MinimumTrackingOrderDelay)
  · left
    refine ⟨hproc.1, ?_⟩
    simp [Crawler.processOrder, hctx, Crawler.orderPrelude, hproc.1, hproc.2]
  · right
    exact ⟨_, processOrder_processed cr env w o r hctx hproc⟩

theorem processOrder_err_live (cr : Crawler) (env : Env) (w : World) (o : Order)
    (r : TrackingResult) (hctx : env.ctxErr w.tick = none) :
    (Crawler.processOrder cr env w o r).2.2 = none := by
  rcases processOrder_live cr env w o r hctx with ⟨_, h⟩ | ⟨t, h⟩ <;> rw [h]
  exact (orderBody_spec cr env _ _).1

theorem processOrder_handles (cr : Crawler) (env : Env) (w : World) (o : Order)
    (r : TrackingResult) (hctx : env.ctxErr w.tick = none)
    (hk : ∀ f, cr.handlers.Order = some f → KeepsHandles f) :
    (Crawler.processOrder cr env w o r).2.1.Order.Value.Handle = o.Handle ∧
    (Crawler.processOrder cr env w o r).2.1.Entity.Value.Handle = o.Handle := by
  rcases processOrder_live cr env w o r hctx with ⟨_, h⟩ | ⟨t, h⟩ <;> rw [h]
  · exact ⟨rfl, rfl⟩
  · obtain ⟨h1, h2⟩ := orderSwitch_handles cr ⟨t, w.calls⟩ (Crawler.orderPrelude o r) hk
    exact ⟨h1, h2⟩

theorem processOrder_calls (cr : Crawler) (env : Env) (w : World) (o : Order)
    (r : TrackingResult) (hctx : env.ctxErr w.tick = none) :
    (Crawler.processOrder cr env w o r).1.calls = w.calls ∨
    ((Crawler.processOrder cr env w o r).1.calls = w.calls ++ [Call.Order o.Handle] ∧
      o.Command = TrackingCommandStart) := by
  rcases processOrder_live cr env w o r hctx with ⟨_, h⟩ | ⟨t, h⟩ <;> rw [h]
  · left; rfl
  · exact orderSwitch_calls cr ⟨t, w.calls⟩ (Crawler.orderPrelude o r)

theorem entityBody_spec (cr : Crawler) (env : Env) (w : World) (r : TrackingResult)
    (hk : ∀ f, cr.handlers.Entity = some f → KeepsHandles f) :
    (Crawler.entityBody cr env w r).2.2 = none ∧
    (Crawler.entityBody cr env w r).2.1.Entity.Value.Handle = r.Entity.Value.Handle ∧
    (Crawler.entityBody cr env w r).2.1.Order.Value.Handle = r.Order.Value.Handle ∧
    ((Crawler.entityBody cr env w r).1.calls = w.calls ∨
      (Crawler.entityBody cr env w r).1.calls = w.calls ++ [Call.Entity r.Entity.Value.Handle]) := by
  unfold Crawler.entityBody
  cases hf : cr.loadHandlers.Entity with
  | none =>
    obtain ⟨h1, h2⟩ := entityOutcome_handles
      (maxAttemptsOf cr.loadSettings.MaximumTrackingAttempts)
      { r with Entity := { r.Entity with Err := some Err.NilHandler } }
    exact ⟨rfl, h2, by rw [h1], Or.inl rfl⟩
  | some f =>
    obtain ⟨h1, h2⟩ := entityOutcome_handles
      (maxAttemptsOf cr.loadSettings.MaximumTrackingAttempts)
      { (f w.tick r).1 with Entity := { (f w.tick r).1.Entity with Err := (f w.tick r).2 } }
    obtain ⟨k1, k2⟩ := hk f hf w.tick r
    exact ⟨rfl, h2.trans k2, by rw [h1]; exact k1, Or.inr rfl⟩

/-- The three ways `processEntity` can go when the context is live. -/
theorem processEntity_live (cr : Crawler) (env : Env) (w : World) (e : Entity) (r : TrackingResult)
    (hctx : env.ctxErr w.tick = none) :
    (Time.IsZero e.LastProcessing = false ∧
      Crawler.processEntity cr env w e r
        = (⟨w.tick + 1, w.calls⟩, Crawler.entityPrelude e r, none)) ∨
    (∃ t, Crawler.processEntity cr env w e r
      = Crawler.entityBody cr env ⟨t, w.calls⟩ (Crawler.entityPrelude e r)) := by
  by_cases hskip : (Time.IsZero e.LastProcessing = false ∧
      Time.Sub (env.now w.tick) e.LastProcessing < cr.loadSettings.MinimumTrackingDelay)
  · left
    exact ⟨hskip.1, processEntity_skip cr env w e r hctx hskip.1 hskip.2⟩
  · right
    refine ⟨_, processEntity_processed cr env w e r ?_⟩
    simp only [Crawler.entityProcessed, hctx, Option.isNone_none, Bool.true_and]
    by_cases hz : Time.IsZero e.LastProcessing = true
    · simp [hz]
    · have hz' : Time.IsZero e.LastProcessing = false := by simpa using hz
      have hd : ¬ Time.Sub (env.now w.tick) e.LastProcessing
          < cr.loadSettings.MinimumTrackingDelay := fun h => hskip ⟨hz', h⟩
      simp [hz', hd]

theorem processEntity_err_live (cr : Crawler) (env : Env) (w : World) (e : Entity)
    (r : TrackingResult) (hctx : env.ctxErr w.tick = none) :
    (Crawler.processEntity cr env w e r).2.2 = none := by
  rcases processEntity_live cr env w e r hctx with ⟨_, h⟩ | ⟨t, h⟩ <;> rw [h]
  rfl

theorem processEntity_handles (cr : Crawler) (env : Env) (w : World) (e : Entity)
    (r : TrackingResult) (hctx : env.ctxErr w.tick = none)
    (hk : ∀ f, cr.handlers.Entity = some f → KeepsHandles f) :
    (Crawler.processEntity cr env w e r).2.1.Entity.Value.Handle = e.Handle ∧
    (Crawler.processEntity cr env w e r).2.1.Order.Value.Handle = r.Order.Value.Handle ∧
    ((Crawler.processEntity cr env w e r).1.calls = w.calls ∨
      (Crawler.processEntity cr env w e r).1.calls = w.calls ++ [Call.Entity e.Handle]) := by
  rcases processEntity_live cr env w e r hctx with ⟨_, h⟩ | ⟨t, h⟩ <;> rw [h]
  · exact ⟨rfl, rfl, Or.inl rfl⟩
  · obtain ⟨_, h1, h2, h3⟩ := entityBody_spec cr env ⟨t, w.calls⟩ (Crawler.entityPrelude e r) hk
    exact ⟨h1, h2, h3⟩

/-- With an Entity handler that succeeds and sets no action, a pass over an
entity ends with no order action and with entity action None (skipped) or Update. -/
theorem processEntity_plain (cr : Crawler) (env : Env) (w : World) (e : Entity)
    (f : EntityHandler) (hf : cr.handlers.Entity = some f) (hs : SucceedsPlainly f)
    (hctx : env.ctxErr w.tick = none) :
    (Crawler.processEntity cr env w e TrackingResult.zero).2.1.Order.Action = TrackingActionNone ∧
    ((Crawler.processEntity cr env w e TrackingResult.zero).2.1.Entity.Action = TrackingActionNone ∨
     (Crawler.processEntity cr env w e TrackingResult.zero).2.1.Entity.Action
        = TrackingActionUpdate) := by
  rcases processEntity_live cr env w e TrackingResult.zero hctx with ⟨_, h⟩ | ⟨t, h⟩ <;> rw [h]
  · exact ⟨rfl, Or.inl rfl⟩
  · obtain ⟨s1, s2, s3⟩ := hs t (Crawler.entityPrelude e TrackingResult.zero)
    have hf' : cr.loadHandlers.Entity = some f := hf
    have s2' : (f t (Crawler.entityPrelude e TrackingResult.zero)).1.Order.Action
        = TrackingActionNone := by rw [s2]; rfl
    have s3' : (f t (Crawler.entityPrelude e TrackingResult.zero)).1.Entity.Action
        = TrackingActionNone := by rw [s3]; rfl
    simp only [Crawler.entityBody, hf', Crawler.entityOutcome, s1, s3', if_true]
    exact ⟨s2', by trivial⟩

/-- A Start order that was never processed, under an Order handler that
succeeds without setting an action: the order is to be removed and the entity
stored. -/
theorem processOrder_start_plain (cr : Crawler) (env : Env) (w : World) (o : Order)
    (f : OrderHandler) (hf : cr.handlers.Order = some f) (hs : SucceedsPlainly f)
    (hctx : env.ctxErr w.tick = none) (hcmd : o.Command = TrackingCommandStart)
    (hz : o.LastProcessing = 0) :
    (Crawler.processOrder cr env w o TrackingResult.zero).2.1.Order.Action = TrackingActionRemove ∧
    (Crawler.processOrder cr env w o TrackingResult.zero).2.1.Entity.Action
      = TrackingActionUpdate := by
  have hproc : ¬ (Time.IsZero o.LastProcessing = false ∧
      Time.Sub (env.now w.tick) o.LastProcessing < cr.loadSettings.MinimumTrackingOrderDelay) := by
    rw [hz]; simp [Time.IsZero]
  rw [processOrder_processed cr env w o _ hctx hproc]
  have hf' : cr.loadHandlers.Order = some f := hf
  have hc : (Crawler.orderPrelude o TrackingResult.zero).Order.Value.Command
      = TrackingCommandStart := hcmd
  obtain ⟨s1, s2, s3⟩ := hs (if Time.IsZero o.LastProcessing then w.tick else w.tick + 1)
    (Crawler.orderPrelude o TrackingResult.zero)
  have s2' : (f (if Time.IsZero o.LastProcessing then w.tick else w.tick + 1)
      (Crawler.orderPrelude o TrackingResult.zero)).1.Order.Action = TrackingActionNone := by
    rw [s2]; rfl
  simp only [Crawler.orderBody, Crawler.orderSwitch, hc, hf', if_true, Crawler.orderStartOutcome,
    s1, s2']
  exact ⟨by trivial, by trivial⟩

/-- A Stop order that was never processed: both the order and the entity are to
be removed, and no handler is called. -/
theorem processOrder_stop (cr : Crawler) (env : Env) (w : World) (o : Order)
    (hctx : env.ctxErr w.tick = none) (hcmd : o.Command = TrackingCommandStop)
    (hz : o.LastProcessing = 0) :
    (Crawler.processOrder cr env w o TrackingResult.zero).2.1.Order.Action = TrackingActionRemove ∧
    (Crawler.processOrder cr env w o TrackingResult.zero).2.1.Entity.Action = TrackingActionRemove ∧
    (Crawler.processOrder cr env w o TrackingResult.zero).2.1.Order.Value.Handle = o.Handle ∧
    (Crawler.processOrder cr env w o TrackingResult.zero).2.1.Entity.Value.Handle = o.Handle ∧
    (Crawler.processOrder cr env w o TrackingResult.zero).1.calls = w.calls := by
  have hproc : ¬ (Time.IsZero o.LastProcessing = false ∧
      Time.Sub (env.now w.tick) o.LastProcessing < cr.loadSettings.MinimumTrackingOrderDelay) := by
    rw [hz]; simp [Time.IsZero]
  rw [processOrder_processed cr env w o _ hctx hproc]
  have hc : (Crawler.orderPrelude o TrackingResult.zero).Order.Value.Command
      = TrackingCommandStop := hcmd
  unfold Crawler.orderBody Crawler.orderSwitch
  rw [if_neg (by rw [hc]; decide), if_pos hc]
  exact ⟨rfl, rfl, rfl, rfl, rfl⟩

theorem commitOrders_frame (m : Map Handle Order) (tr : TrackingResult) (k h : Handle)
    (hk : tr.Order.Value.Handle = some k) (hne : h ≠ k) :
    Map.Has (commitOrders m tr) h = Map.Has m h ∧
    Map.Load (commitOrders m tr) h = Map.Load m h := by
  unfold commitOrders
  rw [hk]
  simp only []
  split_ifs
  · exact ⟨Map.Has_Delete_ne m k h hne, Map.Load_Delete_ne m k h hne⟩
  · exact ⟨Map.Has_Store_ne m k h _ hne, Map.Load_Store_ne m k h _ hne⟩
  · exact ⟨rfl, rfl⟩
  · exact ⟨rfl, rfl⟩

theorem commitEntities_frame (m : Map Handle Entity) (tr : TrackingResult) (k h : Handle)
    (hk : tr.Entity.Value.Handle = some k) (hne : h ≠ k) :
    Map.Has (commitEntities m tr) h = Map.Has m h ∧
    Map.Load (commitEntities m tr) h = Map.Load m h := by
  unfold commitEntities
  rw [hk]
  simp only []
  split_ifs
  · exact ⟨Map.Has_Delete_ne m k h hne, Map.Load_Delete_ne m k h hne⟩
  · exact ⟨Map.Has_Store_ne m k h _ hne, Map.Load_Store_ne m k h _ hne⟩
  · exact ⟨rfl, rfl⟩
  · exact ⟨rfl, rfl⟩

theorem commitOrders_noHandle (m : Map Handle Order) (tr : TrackingResult)
    (hk : tr.Order.Value.Handle = none) : commitOrders m tr = m := by
  unfold commitOrders
  rw [hk]

theorem commitOrders_noAction (m : Map Handle Order) (tr : TrackingResult)
    (ha : tr.Order.Action = TrackingActionNone) : commitOrders m tr = m := by
  unfold commitOrders
  rw [ha]
  cases tr.Order.Value.Handle with
  | none => rfl
  | some h => simp

theorem commitEntities_noAction (m : Map Handle Entity) (tr : TrackingResult)
    (ha : tr.Entity.Action = TrackingActionNone) : commitEntities m tr = m := by
  unfold commitEntities
  rw [ha]
  cases tr.Entity.Value.Handle with
  | none => rfl
  | some h => simp

theorem commitOrders_remove (m : Map Handle Order) (tr : TrackingResult) (h : Handle)
    (hk : tr.Order.Value.Handle = some h) (hv : h.Valid = true)
    (ha : tr.Order.Action = TrackingActionRemove) : Map.Has (commitOrders m tr) h = false := by
  unfold commitOrders
  rw [hk]
  simp only [hv, ha, if_true]
  exact Map.Has_Delete_self m h

theorem commitEntities_remove (m : Map Handle Entity) (tr : TrackingResult) (h : Handle)
    (hk : tr.Entity.Value.Handle = some h) (hv : h.Valid = true)
    (ha : tr.Entity.Action = TrackingActionRemove) : Map.Has (commitEntities m tr) h = false := by
  unfold commitEntities
  rw [hk]
  simp only [hv, ha, if_true]
  exact Map.Has_Delete_self m h

theorem commitEntities_update (m : Map Handle Entity) (tr : TrackingResult) (h : Handle)
    (hk : tr.Entity.Value.Handle = some h) (hv : h.Valid = true)
    (ha : tr.Entity.Action = TrackingActionUpdate) : Map.Has (commitEntities m tr) h = true := by
  unfold commitEntities
  rw [hk]
  simp only [hv, ha, if_true]
  rw [if_neg (by decide)]
  exact Map.Has_Store_self m h _

/-- Committing a result whose entity action is None or Update removes no entity. -/
theorem commitEntities_keeps (m : Map Handle Entity) (tr : TrackingResult) (h : Handle)
    (ha : tr.Entity.Action = TrackingActionNone ∨ tr.Entity.Action = TrackingActionUpdate)
    (hm : Map.Has m h = true) : Map.Has (commitEntities m tr) h = true := by
  rcases ha with ha | ha
  · rw [commitEntities_noAction m tr ha]; exact hm
  · unfold commitEntities
    cases tr.Entity.Value.Handle with
    | none => exact hm
    | some k =>
      simp only [ha]
      split_ifs
      · exact absurd ‹TrackingActionUpdate = TrackingActionRemove› (by decide)
      · exact Map.Has_Store_of_Has m k h _ hm
      · exact hm

theorem commitOrders_keyed (m : Map Handle Order) (tr : TrackingResult) (hm : OrdersKeyed m) :
    OrdersKeyed (commitOrders m tr) := by
  unfold commitOrders
  cases hk : tr.Order.Value.Handle with
  | none => exact hm
  | some k =>
    simp only []
    split_ifs
    · exact ⟨fun p hp => hm.1 p ((Map.mem_Delete m k p).mp hp).1, Map.nodup_keys_Delete m k hm.2⟩
    · refine ⟨fun p hp => ?_, Map.nodup_keys_Store m k _ hm.2⟩
      rcases Map.mem_Store m k _ p hp with h | h
      · rw [h]; exact hk
      · exact hm.1 p h.1
    · exact hm
    · exact hm

theorem commitEntities_keyed (m : Map Handle Entity) (tr : TrackingResult) (hm : EntitiesKeyed m) :
    EntitiesKeyed (commitEntities m tr) := by
  unfold commitEntities
  cases hk : tr.Entity.Value.Handle with
  | none => exact hm
  | some k =>
    simp only []
    split_ifs
    · exact ⟨fun p hp => hm.1 p ((Map.mem_Delete m k p).mp hp).1, Map.nodup_keys_Delete m k hm.2⟩
    · refine ⟨fun p hp => ?_, Map.nodup_keys_Store m k _ hm.2⟩
      rcases Map.mem_Store m k _ p hp with h | h
      · rw [h]; exact hk
      · exact hm.1 p h.1
    · exact hm
    · exact hm

/-- While the context is live, the orders loop is a fold of `orderStep`. -/
theorem visitOrders_live (env : Env) (hl : env.Live) :
    ∀ (l : List (Handle × Order)) (st : PassState),
      Crawler.visitOrders env l st
        = l.foldl (fun st p => Crawler.orderStep env st p.1 p.2) st := by
  intro l
  induction l with
  | nil => intro st; rfl
  | cons p l ih =>
    intro st
    obtain ⟨handle, order⟩ := p
    have herr := processOrder_err_live st.cr env st.w order TrackingResult.zero (hl _)
    rw [List.foldl_cons, ← ih, Crawler.visitOrders]
    unfold Crawler.orderStep
    generalize Crawler.processOrder st.cr env st.w order TrackingResult.zero = out at herr
    obtain ⟨w1, tr, err⟩ := out
    simp only at herr
    subst herr
    rfl

/-- While the context is live, the entities loop is a fold of `entityStep`. -/
theorem visitEntities_live (env : Env) (hl : env.Live) :
    ∀ (l : List (Handle × Entity)) (st : PassState),
      Crawler.visitEntities env l st
        = l.foldl (fun st p => Crawler.entityStep env st p.1 p.2) st := by
  intro l
  induction l with
  | nil => intro st; rfl
  | cons p l ih =>
    intro st
    obtain ⟨handle, entity⟩ := p
    have herr := processEntity_err_live st.cr env st.w entity TrackingResult.zero (hl _)
    rw [List.foldl_cons, ← ih, Crawler.visitEntities]
    unfold Crawler.entityStep
    generalize Crawler.processEntity st.cr env st.w entity TrackingResult.zero = out at herr
    obtain ⟨w1, tr, err⟩ := out
    simp only at herr
    subst herr
    rfl

/-- What one visited order changes, when the Order handler keeps the handles:
only the entries of its own handle. -/
theorem orderStep_spec (env : Env) (st : PassState) (k : Handle) (o : Order)
    (hctx : env.ctxErr st.w.tick = none)
    (hH : ∀ f, st.cr.handlers.Order = some f → KeepsHandles f) (ho : o.Handle = some k) :
    (Crawler.orderStep env st k o).cr.handlers = st.cr.handlers ∧
    (Crawler.orderStep env st k o).cr.settings = st.cr.settings ∧
    (Crawler.orderStep env st k o).result.Err = st.result.Err ∧
    (Crawler.orderStep env st k o).result.Entities = st.result.Entities ∧
    (OrdersKeyed st.cr.orders → OrdersKeyed (Crawler.orderStep env st k o).cr.orders) ∧
    (EntitiesKeyed st.cr.entities → EntitiesKeyed (Crawler.orderStep env st k o).cr.entities) ∧
    (∀ h, h ≠ k →
      Map.Has (Crawler.orderStep env st k o).cr.orders h = Map.Has st.cr.orders h ∧
      Map.Has (Crawler.orderStep env st k o).cr.entities h = Map.Has st.cr.entities h ∧
      Map.Load (Crawler.orderStep env st k o).result.Orders h = Map.Load st.result.Orders h) ∧
    ((Crawler.orderStep env st k o).w.calls = st.w.calls ∨
      (Crawler.orderStep env st k o).w.calls = st.w.calls ++ [Call.Order (some k)]) := by
  obtain ⟨h1, h2⟩ := processOrder_handles st.cr env st.w o TrackingResult.zero hctx hH
  rw [ho] at h1 h2
  refine ⟨rfl, rfl, rfl, rfl, fun hk => commitOrders_keyed _ _ hk,
    fun hk => commitEntities_keyed _ _ hk, ?_, ?_⟩
  · intro h hne
    exact ⟨(commitOrders_frame _ _ k h h1 hne).1, (commitEntities_frame _ _ k h h2 hne).1,
      Map.Load_Store_ne _ k h _ hne⟩
  · rcases processOrder_calls st.cr env st.w o TrackingResult.zero hctx with hc | ⟨hc, _⟩
    · exact Or.inl hc
    · right; rw [ho] at hc; exact hc

/-- What one visited entity changes, when the Entity handler keeps the handles:
only the entity of its own handle. -/
theorem entityStep_spec (env : Env) (st : PassState) (k : Handle) (e : Entity)
    (hctx : env.ctxErr st.w.tick = none)
    (hH : ∀ f, st.cr.handlers.Entity = some f → KeepsHandles f) (he : e.Handle = some k) :
    (Crawler.entityStep env st k e).cr.handlers = st.cr.handlers ∧
    (Crawler.entityStep env st k e).cr.settings = st.cr.settings ∧
    (Crawler.entityStep env st k e).result.Err = st.result.Err ∧
    (Crawler.entityStep env st k e).result.Orders = st.result.Orders ∧
    (Crawler.entityStep env st k e).cr.orders = st.cr.orders ∧
    (EntitiesKeyed st.cr.entities → EntitiesKeyed (Crawler.entityStep env st k e).cr.entities) ∧
    (∀ h, h ≠ k →
      Map.Has (Crawler.entityStep env st k e).cr.entities h = Map.Has st.cr.entities h) ∧
    ((Crawler.entityStep env st k e).w.calls = st.w.calls ∨
      (Crawler.entityStep env st k e).w.calls = st.w.calls ++ [Call.Entity (some k)]) := by
  obtain ⟨h1, h2, h3⟩ := processEntity_handles st.cr env st.w e TrackingResult.zero hctx hH
  rw [he] at h1 h3
  refine ⟨rfl, rfl, rfl, rfl, commitOrders_noHandle _ _ h2,
    fun hk => commitEntities_keyed _ _ hk, ?_, h3⟩
  intro h hne
  exact (commitEntities_frame _ _ k h h1 hne).1

/-- What one visited entity changes, when the Entity handler succeeds and sets
no action: no order, and no entity is removed. -/
theorem entityStep_plain (env : Env) (st : PassState) (k : Handle) (e : Entity)
    (hctx : env.ctxErr st.w.tick = none)
    (f : EntityHandler) (hf : st.cr.handlers.Entity = some f) (hs : SucceedsPlainly f) :
    (Crawler.entityStep env st k e).cr.handlers = st.cr.handlers ∧
    (Crawler.entityStep env st k e).result.Err = st.result.Err ∧
    (Crawler.entityStep env st k e).result.Orders = st.result.Orders ∧
    (Crawler.entityStep env st k e).cr.orders = st.cr.orders ∧
    (∀ h, Map.Has st.cr.entities h = true →
      Map.Has (Crawler.entityStep env st k e).cr.entities h = true) := by
  obtain ⟨h1, h2⟩ := processEntity_plain st.cr env st.w e f hf hs hctx
  exact ⟨rfl, rfl, rfl, commitOrders_noAction _ _ h1,
    fun h hm => commitEntities_keeps _ _ h h2 hm⟩

theorem NotCalledFor_step (h k : Handle) (calls calls' : List Call) (c : Call)
    (hc : c = Call.Order (some k) ∨ c = Call.Entity (some k)) (hne : h ≠ k)
    (hstep : calls' = calls ∨ calls' = calls ++ [c]) (hn : NotCalledFor h calls) :
    NotCalledFor h calls' := by
  rcases hstep with hs | hs
  · rw [hs]; exact hn
  · rw [hs]
    have hk : some h ≠ some k := fun e => hne (Option.some.inj e)
    constructor
    · intro hm
      rcases List.mem_append.mp hm with hm | hm
      · exact hn.1 hm
      · rcases hc with hc | hc <;> rw [hc] at hm <;> simp at hm
        exact hne hm
    · intro hm
      rcases List.mem_append.mp hm with hm | hm
      · exact hn.2 hm
      · rcases hc with hc | hc <;> rw [hc] at hm <;> simp at hm
        exact hne hm

/-- The orders loop over entries other than `h` leaves everything about `h` as it was. -/
theorem foldOrders_frame (env : Env) (hl : env.Live) (h : Handle) :
    ∀ (l : List (Handle × Order)) (st : PassState),
      (∀ p ∈ l, p.2.Handle = some p.1) → h ∉ l.map Prod.fst →
      (∀ f, st.cr.handlers.Order = some f → KeepsHandles f) →
      (l.foldl (fun st p => Crawler.orderStep env st p.1 p.2) st).cr.handlers = st.cr.handlers ∧
      (l.foldl (fun st p => Crawler.orderStep env st p.1 p.2) st).result.Err = st.result.Err ∧
      (EntitiesKeyed st.cr.entities →
        EntitiesKeyed (l.foldl (fun st p => Crawler.orderStep env st p.1 p.2) st).cr.entities) ∧
      Map.Has (l.foldl (fun st p => Crawler.orderStep env st p.1 p.2) st).cr.orders h
        = Map.Has st.cr.orders h ∧
      Map.Has (l.foldl (fun st p => Crawler.orderStep env st p.1 p.2) st).cr.entities h
        = Map.Has st.cr.entities h ∧
      Map.Load (l.foldl (fun st p => Crawler.orderStep env st p.1 p.2) st).result.Orders h
        = Map.Load st.result.Orders h ∧
      (NotCalledFor h st.w.calls →
        NotCalledFor h (l.foldl (fun st p => Crawler.orderStep env st p.1 p.2) st).w.calls) := by
  intro l
  induction l with
  | nil => intro st _ _ _; exact ⟨rfl, rfl, id, rfl, rfl, rfl, id⟩
  | cons p l ih =>
    intro st hkey hnot hH
    obtain ⟨k, o⟩ := p
    have ho : o.Handle = some k := hkey (k, o) (List.mem_cons_self _ _)
    have hne : h ≠ k := fun e => hnot (by rw [e]; simp)
    have hnot' : h ∉ l.map Prod.fst := fun hm => hnot (by simp only [List.map_cons]; exact List.mem_cons_of_mem _ hm)
    obtain ⟨s1, _, s3, _, _, s6, s7, s8⟩ := orderStep_spec env st k o (hl _) hH ho
    obtain ⟨i1, i2, i3, i4, i5, i6, i7⟩ := ih (Crawler.orderStep env st k o)
      (fun p hp => hkey p (List.mem_cons_of_mem _ hp)) hnot' (by rw [s1]; exact hH)
    obtain ⟨f1, f2, f3⟩ := s7 h hne
    rw [List.foldl_cons]
    refine ⟨i1.trans s1, i2.trans s3, fun hk => i3 (s6 hk), i4.trans f1, i5.trans f2,
      i6.trans f3, fun hn => i7 ?_⟩
    exact NotCalledFor_step h k _ _ (Call.Order (some k)) (Or.inl rfl) hne s8 hn

/-- The entities loop over entries other than `h` leaves everything about `h` as it was. -/
theorem foldEntities_frame (env : Env) (hl : env.Live) (h : Handle) :
    ∀ (l : List (Handle × Entity)) (st : PassState),
      (∀ p ∈ l, p.2.Handle = some p.1) → h ∉ l.map Prod.fst →
      (∀ f, st.cr.handlers.Entity = some f → KeepsHandles f) →
      (l.foldl (fun st p => Crawler.entityStep env st p.1 p.2) st).cr.orders = st.cr.orders ∧
      (l.foldl (fun st p => Crawler.entityStep env st p.1 p.2) st).result.Orders
        = st.result.Orders ∧
      Map.Has (l.foldl (fun st p => Crawler.entityStep env st p.1 p.2) st).cr.entities h
        = Map.Has st.cr.entities h ∧
      (NotCalledFor h st.w.calls →
        NotCalledFor h (l.foldl (fun st p => Crawler.entityStep env st p.1 p.2) st).w.calls) := by
  intro l
  induction l with
  | nil => intro st _ _ _; exact ⟨rfl, rfl, rfl, id⟩
  | cons p l ih =>
    intro st hkey hnot hH
    obtain ⟨k, e⟩ := p
    have he : e.Handle = some k := hkey (k, e) (List.mem_cons_self _ _)
    have hne : h ≠ k := fun e' => hnot (by rw [e']; simp)
    have hnot' : h ∉ l.map Prod.fst := fun hm => hnot (by simp only [List.map_cons]; exact List.mem_cons_of_mem _ hm)
    obtain ⟨s1, _, _, s4, s5, _, s7, s8⟩ := entityStep_spec env st k e (hl _) hH he
    obtain ⟨i1, i2, i3, i4⟩ := ih (Crawler.entityStep env st k e)
      (fun p hp => hkey p (List.mem_cons_of_mem _ hp)) hnot' (by rw [s1]; exact hH)
    rw [List.foldl_cons]
    refine ⟨i1.trans s5, i2.trans s4, i3.trans (s7 h hne), fun hn => i4 ?_⟩
    exact NotCalledFor_step h k _ _ (Call.Entity (some k)) (Or.inr rfl) hne s8 hn

/-- The entities loop under an Entity handler that succeeds and sets no action
changes no order and removes no entity. -/
theorem foldEntities_plain (env : Env) (hl : env.Live) (f : EntityHandler)
    (hs : SucceedsPlainly f) (h : Handle) :
    ∀ (l : List (Handle × Entity)) (st : PassState),
      st.cr.handlers.Entity = some f →
      (l.foldl (fun st p => Crawler.entityStep env st p.1 p.2) st).cr.orders = st.cr.orders ∧
      (l.foldl (fun st p => Crawler.entityStep env st p.1 p.2) st).result.Orders
        = st.result.Orders ∧
      (Map.Has st.cr.entities h = true →
        Map.Has (l.foldl (fun st p => Crawler.entityStep env st p.1 p.2) st).cr.entities h
          = true) := by
  intro l
  induction l with
  | nil => intro st _; exact ⟨rfl, rfl, id⟩
  | cons p l ih =>
    intro st hf
    obtain ⟨k, e⟩ := p
    obtain ⟨s1, _, s3, s4, s5⟩ := entityStep_plain env st k e (hl _) f hf hs
    obtain ⟨i1, i2, i3⟩ := ih (Crawler.entityStep env st k e) (by rw [s1]; exact hf)
    rw [List.foldl_cons]
    exact ⟨i1.trans s4, i2.trans s3, fun hm => i3 (s5 h hm)⟩

theorem foldOrders_Err (env : Env) :
    ∀ (l : List (Handle × Order)) (st : PassState),
      (l.foldl (fun st p => Crawler.orderStep env st p.1 p.2) st).result.Err = st.result.Err := by
  intro l
  induction l with
  | nil => intro st; rfl
  | cons p l ih => intro st; rw [List.foldl_cons, ih]; rfl

/-- A pass on a live context is the orders loop, then the entities loop over
the entities left by it, then the time stamp. -/
theorem sessionHandler_live (cr : Crawler) (env : Env) (w : World) (hl : env.Live) :
    Crawler.sessionHandler cr env w
      = { Crawler.entitiesPhase env (Crawler.ordersPhase cr env w) with
          w := ⟨(Crawler.entitiesPhase env (Crawler.ordersPhase cr env w)).w.tick + 1,
                (Crawler.entitiesPhase env (Crawler.ordersPhase cr env w)).w.calls⟩,
          result := { (Crawler.entitiesPhase env (Crawler.ordersPhase cr env w)).result with
            Timestamp := env.now (Crawler.entitiesPhase env (Crawler.ordersPhase cr env w)).w.tick } } := by
  have hA : Crawler.visitOrders env (env.rangeOrders cr.orders) (Crawler.passStart cr w)
      = Crawler.ordersPhase cr env w := visitOrders_live env hl _ _
  have hE : (Crawler.ordersPhase cr env w).result.Err = none := by
    unfold Crawler.ordersPhase
    rw [foldOrders_Err]; rfl
  unfold Crawler.sessionHandler
  simp only []
  rw [if_pos (show (Crawler.passStart cr w).result.Err = none from rfl)]
  rw [show (Crawler.passStart cr w).cr.orders = cr.orders from rfl, hA, if_pos hE,
    visitEntities_live env hl]
  rfl

theorem Track_untracked (cr : Crawler) (h : Handle) (hv : h.Valid = true)
    (hnt : cr.IsTracked h = false) :
    (Crawler.Track cr h).1.orders
      = Map.Store cr.orders h ⟨TrackingCommandStart, 0, 0, some h, 0⟩ ∧
    (Crawler.Track cr h).1.entities = cr.entities ∧
    (Crawler.Track cr h).1.handlers = cr.handlers ∧
    (Crawler.Track cr h).1.settings = cr.settings ∧
    (Crawler.Track cr h).2.2 = none := by
  unfold Crawler.Track Crawler.order
  simp only [hv, hnt, Bool.not_true, Bool.false_eq_true, if_false, and_false, Bool.not_false,
    and_true, ne_eq, not_true_eq_false, false_and]
  rw [if_neg (by decide)]
  split <;> exact ⟨rfl, rfl, rfl, rfl, rfl⟩

theorem Untrack_tracked (cr : Crawler) (h : Handle) (hv : h.Valid = true)
    (ht : cr.IsTracked h = true) :
    (Crawler.Untrack cr h).1.orders
      = Map.Store cr.orders h ⟨TrackingCommandStop, 0, 0, some h, 0⟩ ∧
    (Crawler.Untrack cr h).1.entities = cr.entities ∧
    (Crawler.Untrack cr h).1.handlers = cr.handlers ∧
    (Crawler.Untrack cr h).1.settings = cr.settings ∧
    (Crawler.Untrack cr h).2.2 = none := by
  unfold Crawler.Untrack Crawler.order
  simp only [hv, ht, Bool.not_true, Bool.false_eq_true, if_false, and_false, Bool.not_false,
    and_true, ne_eq, not_true_eq_false, false_and]
  split_ifs <;> first | exact ⟨rfl, rfl, rfl, rfl, rfl⟩ | (exfalso; simp_all)

theorem split_at_key {V : Type} (l : List (Handle × V)) (h : Handle) (v : V)
    (hm : (h, v) ∈ l) (hnd : (l.map Prod.fst).Nodup) :
    ∃ l1 l2, l = l1 ++ (h, v) :: l2 ∧ h ∉ l1.map Prod.fst ∧ h ∉ l2.map Prod.fst := by
  obtain ⟨l1, l2, hl⟩ := List.append_of_mem hm
  refine ⟨l1, l2, hl, ?_, ?_⟩
  · rw [hl, List.map_append, List.map_cons] at hnd
    intro hmem
    exact (List.nodup_append.mp hnd).2.2 hmem (List.mem_cons_self _ _)
  · rw [hl, List.map_append, List.map_cons] at hnd
    exact (List.nodup_cons.mp (List.nodup_append.mp hnd).2.1).1

theorem OrdersKeyed_Store (m : Map Handle Order) (h : Handle) (o : Order)
    (hm : OrdersKeyed m) (ho : o.Handle = some h) : OrdersKeyed (Map.Store m h o) := by
  refine ⟨fun p hp => ?_, Map.nodup_keys_Store m h o hm.2⟩
  rcases Map.mem_Store m h o p hp with e | e
  · rw [e]; exact ho
  · exact hm.1 p e.1

/-- Visiting a never-processed Start order for a valid handle `h`, with an
Order handler that succeeds, sets no action and keeps the handles. -/
theorem orderStep_start_hit (env : Env) (st : PassState) (h : Handle) (o : Order)
    (hctx : env.ctxErr st.w.tick = none) (f : OrderHandler)
    (hf : st.cr.handlers.Order = some f) (hs : SucceedsPlainly f) (hk : KeepsHandles f)
    (hv : h.Valid = true) (ho : o.Handle = some h) (hcmd : o.Command = TrackingCommandStart)
    (hz : o.LastProcessing = 0) :
    (Crawler.orderStep env st h o).cr.handlers = st.cr.handlers ∧
    Map.Has (Crawler.orderStep env st h o).cr.orders h = false ∧
    Map.Has (Crawler.orderStep env st h o).cr.entities h = true ∧
    ∃ tr, Map.Load (Crawler.orderStep env st h o).result.Orders h = some tr ∧
      tr.Order.Action = TrackingActionRemove ∧ tr.Entity.Action = TrackingActionUpdate := by
  have hH : ∀ g, st.cr.handlers.Order = some g → KeepsHandles g := by
    intro g hg; rw [hf] at hg; cases hg; exact hk
  obtain ⟨h1, h2⟩ := processOrder_handles st.cr env st.w o TrackingResult.zero hctx hH
  rw [ho] at h1 h2
  obtain ⟨a1, a2⟩ := processOrder_start_plain st.cr env st.w o f hf hs hctx hcmd hz
  exact ⟨rfl, commitOrders_remove _ _ h h1 hv a1, commitEntities_update _ _ h h2 hv a2,
    _, Map.Load_Store_self _ h _, a1, a2⟩

/-- Visiting a never-processed Stop order for a valid handle `h`. -/
theorem orderStep_stop_hit (env : Env) (st : PassState) (h : Handle) (o : Order)
    (hctx : env.ctxErr st.w.tick = none)
    (hv : h.Valid = true) (ho : o.Handle = some h) (hcmd : o.Command = TrackingCommandStop)
    (hz : o.LastProcessing = 0) :
    (Crawler.orderStep env st h o).cr.handlers = st.cr.handlers ∧
    (EntitiesKeyed st.cr.entities → EntitiesKeyed (Crawler.orderStep env st h o).cr.entities) ∧
    (Crawler.orderStep env st h o).w.calls = st.w.calls ∧
    Map.Has (Crawler.orderStep env st h o).cr.orders h = false ∧
    Map.Has (Crawler.orderStep env st h o).cr.entities h = false ∧
    ∃ tr, Map.Load (Crawler.orderStep env st h o).result.Orders h = some tr ∧
      tr.Order.Action = TrackingActionRemove ∧ tr.Entity.Action = TrackingActionRemove := by
  obtain ⟨a1, a2, h1, h2, c⟩ := processOrder_stop st.cr env st.w o hctx hcmd hz
  rw [ho] at h1 h2
  exact ⟨rfl, fun hk => commitEntities_keyed _ _ hk, c, commitOrders_remove _ _ h h1 hv a1,
    commitEntities_remove _ _ h h2 hv a2, _, Map.Load_Store_self _ h _, a1, a2⟩

/-- C1. Start round trip. In a crawler state whose orders are stored under
their own handles, take a valid handle h that is not tracked, an Order handler
and an Entity handler that succeed without setting an action, the Order
handler leaving the Handle fields alone. After Track(h) and one sessionHandler
pass on a context that is not cancelled, whatever the order in which the
mappings are ranged over: Tracked() contains h, IsTracked(h) is true, the
orders mapping no longer has h, and Result.Orders[h] carries
order.action = Remove and entity.action = Update. -/
theorem C1_start_round_trip (cr : Crawler) (env : Env) (w : World) (h : Handle)
    (fo : OrderHandler) (fe : EntityHandler)
    (hv : h.Valid = true) (hnt : cr.IsTracked h = false) (hkeyed : OrdersKeyed cr.orders)
    (hfo : cr.handlers.Order = some fo) (hfe : cr.handlers.Entity = some fe)
    (hso : SucceedsPlainly fo) (hse : SucceedsPlainly fe) (hko : KeepsHandles fo)
    (hlive : env.Live) (hfair : env.Fair) :
    h ∈ (Crawler.trackThenPass cr env w h).cr.Tracked env ∧
    (Crawler.trackThenPass cr env w h).cr.IsTracked h = true ∧
    Map.Has (Crawler.trackThenPass cr env w h).cr.orders h = false ∧
    ∃ tr, Map.Load (Crawler.trackThenPass cr env w h).result.Orders h = some tr ∧
      tr.Order.Action = TrackingActionRemove ∧ tr.Entity.Action = TrackingActionUpdate := by
  obtain ⟨t1, _, t3, _, _⟩ := Track_untracked cr h hv hnt
  have hperm := hfair.1 (Crawler.Track cr h).1.orders
  have hk1 : OrdersKeyed (Crawler.Track cr h).1.orders := by
    rw [t1]; exact OrdersKeyed_Store _ _ _ hkeyed rfl
  have hmem : (h, (⟨TrackingCommandStart, 0, 0, some h, 0⟩ : Order))
      ∈ env.rangeOrders (Crawler.Track cr h).1.orders :=
    hperm.mem_iff.mpr (by rw [t1]; exact Map.mem_Store_self _ _ _)
  have hkeyl : ∀ p ∈ env.rangeOrders (Crawler.Track cr h).1.orders, p.2.Handle = some p.1 :=
    fun p hp => hk1.1 p (hperm.mem_iff.mp hp)
  have hnd : ((env.rangeOrders (Crawler.Track cr h).1.orders).map Prod.fst).Nodup :=
    (hperm.map Prod.fst).nodup_iff.mpr hk1.2
  obtain ⟨l1, l2, hl, hn1, hn2⟩ := split_at_key _ h _ hmem hnd
  have hkey1 : ∀ p ∈ l1, p.2.Handle = some p.1 :=
    fun p hp => hkeyl p (by rw [hl]; exact List.mem_append_left _ hp)
  have hkey2 : ∀ p ∈ l2, p.2.Handle = some p.1 :=
    fun p hp => hkeyl p (by rw [hl]; exact List.mem_append_right _ (List.mem_cons_of_mem _ hp))
  have hH0 : (Crawler.passStart (Crawler.Track cr h).1 w).cr.handlers = cr.handlers := t3
  have hK : ∀ hs, hs = cr.handlers → ∀ g, hs.Order = some g → KeepsHandles g := by
    intro hs e g hg; rw [e, hfo] at hg; cases hg; exact hko
  -- the orders before the one for `h`
  obtain ⟨a1, _, _, _, _, _, _⟩ := foldOrders_frame env hlive h l1
    (Crawler.passStart (Crawler.Track cr h).1 w) hkey1 hn1 (hK _ hH0)
  have hH1 := a1.trans hH0
  -- the order for `h`
  obtain ⟨b1, b2, b3, tr, b4, b5, b6⟩ := orderStep_start_hit env
    (l1.foldl (fun st p => Crawler.orderStep env st p.1 p.2)
      (Crawler.passStart (Crawler.Track cr h).1 w))
    h ⟨TrackingCommandStart, 0, 0, some h, 0⟩ (hlive _) fo (by rw [hH1]; exact hfo) hso hko hv
    rfl rfl rfl
  have hH2 := b1.trans hH1
  -- the orders after it
  obtain ⟨c1, _, _, c4, c5, c6, _⟩ := foldOrders_frame env hlive h l2 _ hkey2 hn2 (hK _ hH2)
  have hH3 := c1.trans hH2
  have hOP : Crawler.ordersPhase (Crawler.Track cr h).1 env w
      = l2.foldl (fun st p => Crawler.orderStep env st p.1 p.2)
          (Crawler.orderStep env (l1.foldl (fun st p => Crawler.orderStep env st p.1 p.2)
            (Crawler.passStart (Crawler.Track cr h).1 w)) h ⟨TrackingCommandStart, 0, 0, some h, 0⟩) := by
    unfold Crawler.ordersPhase
    rw [hl, List.foldl_append, List.foldl_cons]
  -- the entities
  obtain ⟨d1, d2, d3⟩ := foldEntities_plain env hlive fe hse h
    (env.rangeEntities (Crawler.ordersPhase (Crawler.Track cr h).1 env w).cr.entities)
    (Crawler.ordersPhase (Crawler.Track cr h).1 env w) (by rw [hOP, hH3]; exact hfe)
  have hE : Map.Has (Crawler.entitiesPhase env
      (Crawler.ordersPhase (Crawler.Track cr h).1 env w)).cr.entities h = true :=
    d3 (by rw [hOP, c5]; exact b3)
  have hO : Map.Has (Crawler.entitiesPhase env
      (Crawler.ordersPhase (Crawler.Track cr h).1 env w)).cr.orders h = false := by
    unfold Crawler.entitiesPhase
    rw [d1, hOP, c4]; exact b2
  have hR : Map.Load (Crawler.entitiesPhase env
      (Crawler.ordersPhase (Crawler.Track cr h).1 env w)).result.Orders h = some tr := by
    unfold Crawler.entitiesPhase
    rw [d2, hOP, c6]; exact b4
  unfold Crawler.trackThenPass
  rw [sessionHandler_live _ env w hlive]
  refine ⟨?_, hE, hO, tr, hR, b5, b6⟩
  unfold Crawler.Tracked
  rw [← Map.Has_iff_mem_keys, Map.Has_of_perm _ _ (hfair.2 _)]
  exact hE

/-- C2. Stop round trip. In a crawler state whose orders and entities are
stored under their own handles, with handlers that leave the Handle fields
alone, take a valid handle h that is tracked. After Untrack(h) and one
sessionHandler pass on a context that is not cancelled, whatever the order in
which the mappings are ranged over: h is absent from Tracked() and from the
orders mapping, Result.Orders[h] carries order.action = Remove and
entity.action = Remove, and no handler was called for h during the pass. -/
theorem C2_stop_round_trip (cr : Crawler) (env : Env) (t : Nat) (h : Handle)
    (hv : h.Valid = true) (ht : cr.IsTracked h = true) (hkeyed : cr.Keyed)
    (hkeep : cr.HandlersKeepHandles) (hlive : env.Live) (hfair : env.Fair) :
    h ∉ (Crawler.untrackThenPass cr env ⟨t, []⟩ h).cr.Tracked env ∧
    (Crawler.untrackThenPass cr env ⟨t, []⟩ h).cr.IsTracked h = false ∧
    Map.Has (Crawler.untrackThenPass cr env ⟨t, []⟩ h).cr.orders h = false ∧
    (∃ tr, Map.Load (Crawler.untrackThenPass cr env ⟨t, []⟩ h).result.Orders h = some tr ∧
      tr.Order.Action = TrackingActionRemove ∧ tr.Entity.Action = TrackingActionRemove) ∧
    NotCalledFor h (Crawler.untrackThenPass cr env ⟨t, []⟩ h).w.calls := by
  obtain ⟨t1, t2, t3, _, _⟩ := Untrack_tracked cr h hv ht
  have hperm := hfair.1 (Crawler.Untrack cr h).1.orders
  have hk1 : OrdersKeyed (Crawler.Untrack cr h).1.orders := by
    rw [t1]; exact OrdersKeyed_Store _ _ _ hkeyed.1 rfl
  have hmem : (h, (⟨TrackingCommandStop, 0, 0, some h, 0⟩ : Order))
      ∈ env.rangeOrders (Crawler.Untrack cr h).1.orders :=
    hperm.mem_iff.mpr (by rw [t1]; exact Map.mem_Store_self _ _ _)
  have hkeyl : ∀ p ∈ env.rangeOrders (Crawler.Untrack cr h).1.orders, p.2.Handle = some p.1 :=
    fun p hp => hk1.1 p (hperm.mem_iff.mp hp)
  have hnd : ((env.rangeOrders (Crawler.Untrack cr h).1.orders).map Prod.fst).Nodup :=
    (hperm.map Prod.fst).nodup_iff.mpr hk1.2
  obtain ⟨l1, l2, hl, hn1, hn2⟩ := split_at_key _ h _ hmem hnd
  have hkey1 : ∀ p ∈ l1, p.2.Handle = some p.1 :=
    fun p hp => hkeyl p (by rw [hl]; exact List.mem_append_left _ hp)
  have hkey2 : ∀ p ∈ l2, p.2.Handle = some p.1 :=
    fun p hp => hkeyl p (by rw [hl]; exact List.mem_append_right _ (List.mem_cons_of_mem _ hp))
  have hH0 : (Crawler.passStart (Crawler.Untrack cr h).1 ⟨t, []⟩).cr.handlers = cr.handlers := t3
  have hKO : ∀ hs, hs = cr.handlers → ∀ g, hs.Order = some g → KeepsHandles g := by
    intro hs e g hg; rw [e] at hg; exact hkeep.1 g hg
  have hKE : ∀ hs, hs = cr.handlers → ∀ g, hs.Entity = some g → KeepsHandles g := by
    intro hs e g hg; rw [e] at hg; exact hkeep.2 g hg
  have hEK0 : EntitiesKeyed (Crawler.passStart (Crawler.Untrack cr h).1 ⟨t, []⟩).cr.entities := by
    show EntitiesKeyed (Crawler.Untrack cr h).1.entities
    rw [t2]; exact hkeyed.2
  have hN0 : NotCalledFor h (Crawler.passStart (Crawler.Untrack cr h).1 ⟨t, []⟩).w.calls :=
    ⟨List.not_mem_nil _, List.not_mem_nil _⟩
  -- the orders before the one for `h`
  obtain ⟨a1, _, a3, _, _, _, a7⟩ := foldOrders_frame env hlive h l1
    (Crawler.passStart (Crawler.Untrack cr h).1 ⟨t, []⟩) hkey1 hn1 (hKO _ hH0)
  have hH1 := a1.trans hH0
  -- the order for `h`
  obtain ⟨b1, b2, b3, b4, b5, tr, b6, b7, b8⟩ := orderStep_stop_hit env
    (l1.foldl (fun st p => Crawler.orderStep env st p.1 p.2)
      (Crawler.passStart (Crawler.Untrack cr h).1 ⟨t, []⟩))
    h ⟨TrackingCommandStop, 0, 0, some h, 0⟩ (hlive _) hv rfl rfl rfl
  have hH2 := b1.trans hH1
  -- the orders after it
  obtain ⟨c1, _, c3, c4, c5, c6, c7⟩ := foldOrders_frame env hlive h l2 _ hkey2 hn2 (hKO _ hH2)
  have hH3 := c1.trans hH2
  have hOP : Crawler.ordersPhase (Crawler.Untrack cr h).1 env ⟨t, []⟩
      = l2.foldl (fun st p => Crawler.orderStep env st p.1 p.2)
          (Crawler.orderStep env (l1.foldl (fun st p => Crawler.orderStep env st p.1 p.2)
            (Crawler.passStart (Crawler.Untrack cr h).1 ⟨t, []⟩)) h
            ⟨TrackingCommandStop, 0, 0, some h, 0⟩) := by
    unfold Crawler.ordersPhase
    rw [hl, List.foldl_append, List.foldl_cons]
  have hEK : EntitiesKeyed (Crawler.ordersPhase (Crawler.Untrack cr h).1 env ⟨t, []⟩).cr.entities := by
    rw [hOP]; exact c3 (b2 (a3 hEK0))
  have hEh : Map.Has (Crawler.ordersPhase (Crawler.Untrack cr h).1 env ⟨t, []⟩).cr.entities h
      = false := by
    rw [hOP, c5]; exact b5
  have hNC : NotCalledFor h (Crawler.ordersPhase (Crawler.Untrack cr h).1 env ⟨t, []⟩).w.calls := by
    rw [hOP]; exact c7 (by rw [b3]; exact a7 hN0)
  -- the entities
  have hperm2 := hfair.2 (Crawler.ordersPhase (Crawler.Untrack cr h).1 env ⟨t, []⟩).cr.entities
  have hnotin : h ∉ (env.rangeEntities
      (Crawler.ordersPhase (Crawler.Untrack cr h).1 env ⟨t, []⟩).cr.entities).map Prod.fst := by
    intro hm
    have := (Map.Has_iff_mem_keys _ h).mpr hm
    rw [Map.Has_of_perm _ _ hperm2, hEh] at this
    exact absurd this (by decide)
  obtain ⟨d1, d2, d3, d4⟩ := foldEntities_frame env hlive h
    (env.rangeEntities (Crawler.ordersPhase (Crawler.Untrack cr h).1 env ⟨t, []⟩).cr.entities)
    (Crawler.ordersPhase (Crawler.Untrack cr h).1 env ⟨t, []⟩)
    (fun p hp => hEK.1 p (hperm2.mem_iff.mp hp)) hnotin (hKE _ (by rw [hOP, hH3]))
  have hE : Map.Has (Crawler.entitiesPhase env
      (Crawler.ordersPhase (Crawler.Untrack cr h).1 env ⟨t, []⟩)).cr.entities h = false := by
    unfold Crawler.entitiesPhase
    rw [d3]; exact hEh
  have hO : Map.Has (Crawler.entitiesPhase env
      (Crawler.ordersPhase (Crawler.Untrack cr h).1 env ⟨t, []⟩)).cr.orders h = false := by
    unfold Crawler.entitiesPhase
    rw [d1, hOP, c4]; exact b4
  have hR : Map.Load (Crawler.entitiesPhase env
      (Crawler.ordersPhase (Crawler.Untrack cr h).1 env ⟨t, []⟩)).result.Orders h = some tr := by
    unfold Crawler.entitiesPhase
    rw [d2, hOP, c6]; exact b6
  unfold Crawler.untrackThenPass
  rw [sessionHandler_live _ env ⟨t, []⟩ hlive]
  refine ⟨?_, hE, hO, ⟨tr, hR, b7, b8⟩, d4 hNC⟩
  unfold Crawler.Tracked
  rw [← Map.Has_iff_mem_keys, Map.Has_of_perm _ _ (hfair.2 _)]
  show ¬ Map.Has (Crawler.entitiesPhase env
      (Crawler.ordersPhase (Crawler.Untrack cr h).1 env ⟨t, []⟩)).cr.entities h = true
  rw [hE]; decide

/-- C1 on a crawler that tracks `handleB` and holds an order for `handleC`:
after `Track(handleA)` and one pass, `handleA` is tracked and its order is gone. -/
theorem C1_start_round_trip_witness :
    (Crawler.trackThenPass Crawler.busy Env.steady ⟨0, []⟩ handleA).cr.IsTracked handleA = true ∧
    Map.Has (Crawler.trackThenPass Crawler.busy Env.steady ⟨0, []⟩ handleA).cr.orders handleA
      = false :=
  have h := C1_start_round_trip Crawler.busy Env.steady ⟨0, []⟩ handleA plainHandler plainHandler
    rfl rfl ⟨by decide, by decide⟩ rfl rfl (fun _ _ => ⟨rfl, rfl, rfl⟩)
    (fun _ _ => ⟨rfl, rfl, rfl⟩) (fun _ _ => ⟨rfl, rfl⟩) (fun _ => rfl)
    ⟨fun m => List.Perm.refl m, fun m => List.Perm.refl m⟩
  ⟨h.2.1, h.2.2.1⟩

/-- C2 on the same crawler: after `Untrack(handleB)` and one pass, `handleB` is
neither tracked nor ordered, and no handler was called for it. -/
theorem C2_stop_round_trip_witness :
    (Crawler.untrackThenPass Crawler.busy Env.steady ⟨0, []⟩ handleB).cr.IsTracked handleB = false ∧
    Map.Has (Crawler.untrackThenPass Crawler.busy Env.steady ⟨0, []⟩ handleB).cr.orders handleB
      = false ∧
    NotCalledFor handleB (Crawler.untrackThenPass Crawler.busy Env.steady ⟨0, []⟩ handleB).w.calls :=
  have h := C2_stop_round_trip Crawler.busy Env.steady 0 handleB rfl rfl
    ⟨⟨by decide, by decide⟩, ⟨by decide, by decide⟩⟩
    ⟨fun f hf => by cases hf; exact fun _ _ => ⟨rfl, rfl⟩,
     fun f hf => by cases hf; exact fun _ _ => ⟨rfl, rfl⟩⟩
    (fun _ => rfl) ⟨fun m => List.Perm.refl m, fun m => List.Perm.refl m⟩
  ⟨h.2.1, h.2.2.1, h.2.2.2.2⟩

/-! ## The mappings stay keyed by the handles of their values -/

theorem fresh_keyed : Crawler.fresh.Keyed :=
  ⟨⟨fun _ hp => absurd hp (List.not_mem_nil _), List.nodup_nil⟩,
   ⟨fun _ hp => absurd hp (List.not_mem_nil _), List.nodup_nil⟩⟩

theorem commitTrackingResult_keyed (cr : Crawler) (tr : TrackingResult) (hk : cr.Keyed) :
    (Crawler.commitTrackingResult cr tr).Keyed :=
  ⟨commitOrders_keyed _ _ hk.1, commitEntities_keyed _ _ hk.2⟩

/-- `Track` and `Untrack` keep the mappings keyed, whatever they return. -/
theorem order_keyed (cr : Crawler) (h : Handle) (command : TrackingCommand) (quiet : Bool)
    (hk : cr.Keyed) : (Crawler.order cr h command quiet).1.Keyed := by
  unfold Crawler.order
  simp only []
  split_ifs <;> first
    | exact hk
    | exact ⟨OrdersKeyed_Store _ h _ hk.1 rfl, hk.2⟩

theorem visitOrders_keyed (env : Env) :
    ∀ (l : List (Handle × Order)) (st : PassState), st.cr.Keyed →
      (Crawler.visitOrders env l st).cr.Keyed := by
  intro l
  induction l with
  | nil => intro st hk; exact hk
  | cons p l ih =>
    intro st hk
    obtain ⟨handle, order⟩ := p
    rw [Crawler.visitOrders]
    split
    · exact hk
    · exact ih _ (commitTrackingResult_keyed _ _ hk)

theorem visitEntities_keyed (env : Env) :
    ∀ (l : List (Handle × Entity)) (st : PassState), st.cr.Keyed →
      (Crawler.visitEntities env l st).cr.Keyed := by
  intro l
  induction l with
  | nil => intro st hk; exact hk
  | cons p l ih =>
    intro st hk
    obtain ⟨handle, entity⟩ := p
    rw [Crawler.visitEntities]
    split
    · exact hk
    · exact ih _ (commitTrackingResult_keyed _ _ hk)

/-- A pass keeps the mappings keyed, for every handler, clock, context and
order of iteration. -/
theorem sessionHandler_keyed (cr : Crawler) (env : Env) (w : World) (hk : cr.Keyed) :
    (Crawler.sessionHandler cr env w).cr.Keyed := by
  have hA := visitOrders_keyed env (env.rangeOrders cr.orders) (Crawler.passStart cr w) hk
  unfold Crawler.sessionHandler
  simp only []
  rw [if_pos (show (Crawler.passStart cr w).result.Err = none from rfl)]
  split
  · exact visitEntities_keyed env _ _ hA
  · exact hA

theorem order_invalid (cr : Crawler) (h : Handle) (c : TrackingCommand) (q : Bool)
    (hv : h.Valid = false) : Crawler.order cr h c q = (cr, false, some Err.InvalidHandle) := by
  unfold Crawler.order
  simp [hv]

/-- C11: for every handle whose `Valid()` is false, `Track` and `Untrack` return
the error `InvalidHandle` (with `tracked` false) and return the crawler as it
was, so the orders mapping, the entities mapping and the paused flag of the
session are unchanged. -/
theorem C11_invalid_handle_rejected (cr : Crawler) (h : Handle) (hv : h.Valid = false) :
    (Crawler.Track cr h).2 = (false, some Err.InvalidHandle) ∧
    (Crawler.Untrack cr h).2 = (false, some Err.InvalidHandle) ∧
    (Crawler.Track cr h).1.orders = cr.orders ∧
    (Crawler.Track cr h).1.entities = cr.entities ∧
    (Crawler.Track cr h).1.session.Paused = cr.session.Paused ∧
    (Crawler.Untrack cr h).1.orders = cr.orders ∧
    (Crawler.Untrack cr h).1.entities = cr.entities ∧
    (Crawler.Untrack cr h).1.session.Paused = cr.session.Paused ∧
    (Crawler.Track cr h).1 = cr ∧ (Crawler.Untrack cr h).1 = cr := by
  unfold Crawler.Track Crawler.Untrack
  rw [order_invalid cr h _ _ hv, order_invalid cr h _ _ hv]
  exact ⟨rfl, rfl, rfl, rfl, rfl, rfl, rfl, rfl, rfl, rfl⟩

theorem C11_invalid_handle_witness :
    (Crawler.Track (Crawler.dormant true) ⟨9, false⟩).2 = (false, some Err.InvalidHandle) ∧
    (Crawler.Untrack (Crawler.dormant true) ⟨9, false⟩).2 = (false, some Err.InvalidHandle) ∧
    (Crawler.Track (Crawler.dormant true) ⟨9, false⟩).1.orders
      = [(handleB, ⟨TrackingCommandStop, 0, 0, some handleB, 0⟩)] ∧
    (Crawler.Untrack (Crawler.dormant true) ⟨9, false⟩).1.session.Paused = true :=
  have w := C11_invalid_handle_rejected (Crawler.dormant true) ⟨9, false⟩ rfl
  ⟨w.1, w.2.1, w.2.2.1.trans rfl, w.2.2.2.2.2.2.2.1.trans rfl⟩

theorem Track_tracked (cr : Crawler) (h : Handle) (hv : h.Valid = true)
    (ht : cr.IsTracked h = true) : Crawler.Track cr h = (cr, true, none) := by
  unfold Crawler.Track Crawler.order
  simp [hv, ht]

theorem Untrack_untracked (cr : Crawler) (h : Handle) (hv : h.Valid = true)
    (ht : cr.IsTracked h = false) : Crawler.Untrack cr h = (cr, false, none) := by
  unfold Crawler.Untrack Crawler.order
  simp [hv, ht]

/-- C12: `Track` on a valid handle that is tracked, and `Untrack` on a valid
handle that is not, return a nil error with `tracked` true and false
respectively and return the crawler as it was: no order is stored, an order
already held for the handle is the same, and the session is as paused as before. -/
theorem C12_redundant_calls_are_noops (cr : Crawler) (h1 h2 : Handle)
    (hv1 : h1.Valid = true) (ht1 : cr.IsTracked h1 = true)
    (hv2 : h2.Valid = true) (ht2 : cr.IsTracked h2 = false) :
    (Crawler.Track cr h1).2 = (true, none) ∧
    (Crawler.Track cr h1).1.orders = cr.orders ∧
    Map.Load (Crawler.Track cr h1).1.orders h1 = Map.Load cr.orders h1 ∧
    (Crawler.Track cr h1).1.session.Paused = cr.session.Paused ∧
    (Crawler.Track cr h1).1 = cr ∧
    (Crawler.Untrack cr h2).2 = (false, none) ∧
    (Crawler.Untrack cr h2).1.orders = cr.orders ∧
    Map.Load (Crawler.Untrack cr h2).1.orders h2 = Map.Load cr.orders h2 ∧
    (Crawler.Untrack cr h2).1.session.Paused = cr.session.Paused ∧
    (Crawler.Untrack cr h2).1 = cr := by
  rw [Track_tracked cr h1 hv1 ht1, Untrack_untracked cr h2 hv2 ht2]
  exact ⟨rfl, rfl, rfl, rfl, rfl, rfl, rfl, rfl, rfl, rfl⟩

theorem C12_redundant_calls_witness :
    (Crawler.Track (Crawler.dormant true) handleB).2 = (true, none) ∧
    Map.Load (Crawler.Track (Crawler.dormant true) handleB).1.orders handleB
      = some ⟨TrackingCommandStop, 0, 0, some handleB, 0⟩ ∧
    (Crawler.Track (Crawler.dormant true) handleB).1.session.Paused = true ∧
    (Crawler.Untrack (Crawler.dormant true) handleA).2 = (false, none) ∧
    (Crawler.Untrack (Crawler.dormant true) handleA).1.orders = (Crawler.dormant true).orders ∧
    (Crawler.Untrack (Crawler.dormant true) handleA).1.session.Paused = true :=
  have w := C12_redundant_calls_are_noops (Crawler.dormant true) handleB handleA rfl rfl rfl rfl
  ⟨w.1, w.2.2.1.trans rfl, w.2.2.2.1.trans rfl, w.2.2.2.2.2.1, w.2.2.2.2.2.2.1,
    w.2.2.2.2.2.2.2.2.1.trans rfl⟩

theorem order_stores_paused (cr : Crawler) (h : Handle) (c : TrackingCommand)
    (hv : h.Valid = true)
    (hc : (c = TrackingCommandStart ∧ cr.IsTracked h = false) ∨
          (c = TrackingCommandStop ∧ cr.IsTracked h = true)) :
    (Crawler.order cr h c false).1.orders = Map.Store cr.orders h ⟨c, 0, 0, some h, 0⟩ ∧
    (Crawler.order cr h c false).1.session.Paused
      = (cr.session.Paused && !cr.session.PauseIdle) := by
  unfold Crawler.order
  rcases hc with ⟨rfl, ht⟩ | ⟨rfl, ht⟩
  all_goals
    simp only [hv, ht, Bool.not_true, Bool.false_eq_true, if_false, and_false, Bool.not_false,
      and_true, ne_eq, not_true_eq_false, false_and]
    cases hp : cr.session.PauseIdle <;> cases hq : cr.session.Paused <;>
      simp [hp, hq, Session.Resume, Session.SetPaused, Session.Paused, Session.PauseIdle] <;>
      simp_all [Session.Paused, Session.PauseIdle]

/-- C20: when `Track` or `Untrack` stores an order (`Track` on a valid handle
that is not tracked, `Untrack` on a valid handle that is), the paused flag of
the session after the call is the flag before the call and-ed with "PauseIdle
is off": with `PauseIdle` on, a paused session is not paused when the call
returns; with `PauseIdle` off the flag is unchanged. -/
theorem C20_enqueue_resumes_idle_pause (cr : Crawler) (h1 h2 : Handle)
    (hv1 : h1.Valid = true) (ht1 : cr.IsTracked h1 = false)
    (hv2 : h2.Valid = true) (ht2 : cr.IsTracked h2 = true) :
    Map.Load (Crawler.Track cr h1).1.orders h1 = some ⟨TrackingCommandStart, 0, 0, some h1, 0⟩ ∧
    (Crawler.Track cr h1).1.session.Paused = (cr.session.Paused && !cr.session.PauseIdle) ∧
    Map.Load (Crawler.Untrack cr h2).1.orders h2 = some ⟨TrackingCommandStop, 0, 0, some h2, 0⟩ ∧
    (Crawler.Untrack cr h2).1.session.Paused = (cr.session.Paused && !cr.session.PauseIdle) := by
  have a := order_stores_paused cr h1 TrackingCommandStart hv1 (Or.inl ⟨rfl, ht1⟩)
  have b := order_stores_paused cr h2 TrackingCommandStop hv2 (Or.inr ⟨rfl, ht2⟩)
  unfold Crawler.Track Crawler.Untrack
  rw [a.1, b.1]
  exact ⟨Map.Load_Store_self _ _ _, a.2, Map.Load_Store_self _ _ _, b.2⟩

theorem C20_enqueue_resumes_witness :
    (Crawler.dormant true).session.Paused = true ∧
    (Crawler.Track (Crawler.dormant true) handleA).1.session.Paused = false ∧
    (Crawler.Untrack (Crawler.dormant true) handleB).1.session.Paused = false ∧
    (Crawler.Track (Crawler.dormant false) handleA).1.session.Paused = true ∧
    (Crawler.Untrack (Crawler.dormant false) handleB).1.session.Paused = true :=
  have w1 := C20_enqueue_resumes_idle_pause (Crawler.dormant true) handleA handleB rfl rfl rfl rfl
  have w2 := C20_enqueue_resumes_idle_pause (Crawler.dormant false) handleA handleB rfl rfl rfl rfl
  ⟨rfl, w1.2.1.trans rfl, w1.2.2.2.trans rfl, w2.2.1.trans rfl, w2.2.2.2.trans rfl⟩

end crawly

namespace csync

/-- C17: with a context that is not cancelled, `Start` with an interval under
one second returns `SessionInvalidInterval` whatever the state of the session,
does not launch the loop, and leaves the session (active, paused, pauseIdle,
id, pass) as it was. -/
theorem C17_short_interval_rejected (sess : Session) (newID : String) (settings : SessionSettings)
    (hi : settings.Interval < Second) :
    (Session.Start sess none newID settings).2 = (some Err.SessionInvalidInterval, false) ∧
    (Session.Start sess none newID settings).1.active = sess.active ∧
    (Session.Start sess none newID settings).1.paused = sess.paused ∧
    (Session.Start sess none newID settings).1.pauseIdle = sess.pauseIdle ∧
    (Session.Start sess none newID settings).1.id = sess.id ∧
    (Session.Start sess none newID settings).1.pass = sess.pass ∧
    (Session.Start sess none newID settings).1 = sess := by
  have hm : settings.Interval < MinimumSessionInterval := by
    unfold MinimumSessionInterval; rw [one_mul]; exact hi
  unfold Session.Start
  rw [if_pos hm]
  exact ⟨rfl, rfl, rfl, rfl, rfl, rfl, rfl⟩

theorem C17_short_interval_witness :
    (Session.Start Session.zero none "a" ⟨999999999, 0, true, true⟩).2
      = (some Err.SessionInvalidInterval, false) ∧
    (Session.Start { Session.zero with active := true, id := "b", pass := 7 } none "a"
        ⟨0, 0, true, true⟩).1 = { Session.zero with active := true, id := "b", pass := 7 } :=
  ⟨(C17_short_interval_rejected Session.zero "a" ⟨999999999, 0, true, true⟩ (by decide)).1,
   (C17_short_interval_rejected { Session.zero with active := true, id := "b", pass := 7 } "a"
      ⟨0, 0, true, true⟩ (by decide)).2.2.2.2.2.2⟩

/-- C18: with a context that is not cancelled and an interval of at least one
second, `Start` on a session that is active returns `SessionAlreadyActive`,
does not launch a second loop, keeps the session active and leaves its paused,
pauseIdle, id and pass as they were. -/
theorem C18_start_while_active (sess : Session) (newID : String) (settings : SessionSettings)
    (ha : sess.Active = true) (hi : Second ≤ settings.Interval) :
    (Session.Start sess none newID settings).2 = (some Err.SessionAlreadyActive, false) ∧
    (Session.Start sess none newID settings).1.Active = true ∧
    (Session.Start sess none newID settings).1.paused = sess.paused ∧
    (Session.Start sess none newID settings).1.pauseIdle = sess.pauseIdle ∧
    (Session.Start sess none newID settings).1.id = sess.id ∧
    (Session.Start sess none newID settings).1.pass = sess.pass ∧
    (Session.Start sess none newID settings).1.bus = sess.bus := by
  have hm : ¬ settings.Interval < MinimumSessionInterval := by
    unfold MinimumSessionInterval; rw [one_mul]; exact not_lt.mpr hi
  have ha' : sess.active = true := ha
  unfold Session.Start
  rw [if_neg hm, if_pos ha']
  exact ⟨rfl, rfl, rfl, rfl, rfl, rfl, rfl⟩

theorem C18_start_while_active_witness :
    (Session.Start (crawly.startedSession ⟨Second, 0, false, true⟩).1 none "ffff"
        ⟨2 * Second, 0, true, false⟩).2 = (some Err.SessionAlreadyActive, false) ∧
    (Session.Start (crawly.startedSession ⟨Second, 0, false, true⟩).1 none "ffff"
        ⟨2 * Second, 0, true, false⟩).1.paused = false ∧
    (Session.Start (crawly.startedSession ⟨Second, 0, false, true⟩).1 none "ffff"
        ⟨2 * Second, 0, true, false⟩).1.pauseIdle = true ∧
    (Session.Start (crawly.startedSession ⟨Second, 0, false, true⟩).1 none "ffff"
        ⟨2 * Second, 0, true, false⟩).1.id = "0000000000000001" :=
  have w := C18_start_while_active (crawly.startedSession ⟨Second, 0, false, true⟩).1 "ffff"
    ⟨2 * Second, 0, true, false⟩ rfl (by decide)
  ⟨w.1, w.2.2.1.trans rfl, w.2.2.2.1.trans rfl, w.2.2.2.2.1.trans rfl⟩

/-! ## A closed broadcaster stays closed -/

theorem Heap.closed_setBc {V : Type} (h : Heap V) (b b' : Nat) (x : broadcaster)
    (hc : (h.bc b).closed = true) (hx : b' = b → x.closed = true) :
    ((h.setBc b' x).bc b).closed = true := by
  have hb := Heap.lt_of_closed h b hc
  by_cases e : b' = b
  · subst e
    rw [Heap.bc_setBc h b' x hb]; exact hx rfl
  · have : (h.setBc b' x).bc b = h.bc b := by
      simp [Heap.bc, Heap.setBc, List.getD_eq_getElem?_getD, List.getElem?_set_ne e]
    rw [this]; exact hc

theorem Heap.close_bcs {V : Type} (h h1 : Heap V) (c : Nat) (hh : h.close c = Except.ok h1) :
    h1.bcs = h.bcs := by
  unfold Heap.close at hh
  split_ifs at hh
  cases hh
  rfl

theorem Heap.closed_of_bcs {V : Type} (h h1 : Heap V) (b : Nat) (hh : h1.bcs = h.bcs)
    (hc : (h.bc b).closed = true) : (h1.bc b).closed = true := by
  unfold Heap.bc at hc ⊢
  rw [hh]; exact hc

theorem DiscardListener_closed {V : Type} (h h1 : Heap V) (b b' : Nat) (l : Option Nat)
    (hh : broadcaster.DiscardListener h b' l = Except.ok h1)
    (hc : (h.bc b).closed = true) : (h1.bc b).closed = true := by
  unfold broadcaster.DiscardListener at hh
  cases l with
  | none => cases hh; exact hc
  | some l =>
    simp only [] at hh
    split at hh
    · cases hh; exact hc
    · exact Heap.closed_of_bcs _ _ b (Heap.close_bcs _ _ _ hh)
        (Heap.closed_setBc h b b' _ hc (fun e => by subst e; exact hc))

theorem discardAll_closed {V : Type} (b b' : Nat) :
    ∀ (ls : List (Nat × Nat)) (h h1 : Heap V),
      broadcaster.discardAll b' ls h = Except.ok h1 →
      (h.bc b).closed = true → (h1.bc b).closed = true := by
  intro ls
  induction ls with
  | nil => intro h h1 hh hc; cases hh; exact hc
  | cons p rest ih =>
    intro h h1 hh hc
    obtain ⟨l, ch⟩ := p
    rw [broadcaster.discardAll] at hh
    cases hd : broadcaster.DiscardListener h b' (some l) with
    | error p => rw [hd] at hh; cases hh
    | ok h2 =>
      rw [hd] at hh
      exact ih h2 h1 hh (DiscardListener_closed h h2 b b' _ hd hc)

theorem Discard_closed {V : Type} (h h1 : Heap V) (b b' : Nat)
    (hh : broadcaster.Discard h b' = Except.ok h1)
    (hc : (h.bc b).closed = true) : (h1.bc b).closed = true := by
  unfold broadcaster.Discard at hh
  split_ifs at hh
  · cases hh; exact hc
  · exact discardAll_closed b b' _ _ h1 hh (Heap.closed_setBc h b b' _ hc (fun _ => rfl))

theorem Discard_closes {V : Type} (h h1 : Heap V) (b : Nat) (hb : b < h.bcs.length)
    (hh : broadcaster.Discard h b = Except.ok h1) : (h1.bc b).closed = true := by
  unfold broadcaster.Discard at hh
  split_ifs at hh with hcl
  · cases hh; exact hcl
  · refine discardAll_closed b b _ _ h1 hh ?_
    rw [Heap.bc_setBc h b _ hb]

theorem Listen_closed {V : Type} (h h1 : Heap V) (b b' l : Nat)
    (hh : broadcaster.Listen h b' = Except.ok (h1, l))
    (hc : (h.bc b).closed = true) : (h1.bc b).closed = true := by
  unfold broadcaster.Listen at hh
  split_ifs at hh
  simp only [Except.ok.injEq, Prod.mk.injEq] at hh
  rw [← hh.1]
  refine Heap.closed_setBc _ b b' _ (Heap.closed_of_bcs h _ b rfl hc) (fun e => ?_)
  subst e; exact hc

theorem listener_Discard_closed {V : Type} (h h1 : Heap V) (b l : Nat)
    (hh : listener.Discard h l = Except.ok h1)
    (hc : (h.bc b).closed = true) : (h1.bc b).closed = true := by
  unfold listener.Discard at hh
  split_ifs at hh
  · cases hh; exact hc
  · exact DiscardListener_closed _ h1 b _ _ hh (Heap.closed_of_bcs h _ b rfl hc)

theorem sendOne_bcs {V : Type} (env : SendEnv) (report : Bool) (value : V) (h h1 : Heap V)
    (r r1 : broadcasterReport) (l ch : Nat)
    (hh : broadcaster.sendOne env report value h r l ch = Except.ok (h1, r1)) :
    h1.bcs = h.bcs := by
  unfold broadcaster.sendOne at hh
  split_ifs at hh <;> simp only [Except.ok.injEq, Prod.mk.injEq] at hh <;> rw [← hh.1] <;> rfl

theorem sendAll_bcs {V : Type} (env : SendEnv) (report : Bool) (value : V) :
    ∀ (ls : List (Nat × Nat)) (h h1 : Heap V) (r r1 : broadcasterReport),
      broadcaster.sendAll env report value ls h r = Except.ok (h1, r1) → h1.bcs = h.bcs := by
  intro ls
  induction ls with
  | nil =>
    intro h h1 r r1 hh
    simp only [broadcaster.sendAll, Except.ok.injEq, Prod.mk.injEq] at hh
    rw [← hh.1]
  | cons p rest ih =>
    intro h h1 r r1 hh
    obtain ⟨l, ch⟩ := p
    rw [broadcaster.sendAll] at hh
    cases hd : broadcaster.sendOne env report value h r l ch with
    | error p => rw [hd] at hh; cases hh
    | ok x =>
      obtain ⟨h2, r2⟩ := x
      rw [hd] at hh
      rw [ih h2 h1 r2 r1 hh, sendOne_bcs env report value h h2 r r2 l ch hd]

theorem SendWithTimeout_bcs {V : Type} (env : SendEnv) (h h1 : Heap V) (b : Nat)
    (pctxErr : Option Err) (value : V) (timeout : Duration) (report : Bool)
    (x : Option broadcasterReport × Option Err)
    (hh : broadcaster.SendWithTimeout env h b pctxErr value timeout report = Except.ok (h1, x)) :
    h1.bcs = h.bcs := by
  unfold broadcaster.SendWithTimeout at hh
  split_ifs at hh
  · simp only [Except.ok.injEq, Prod.mk.injEq] at hh; rw [← hh.1]
  · cases pctxErr with
    | some e => simp only [Except.ok.injEq, Prod.mk.injEq] at hh; rw [← hh.1]
    | none =>
      simp only [] at hh
      cases hd : broadcaster.sendAll env report value (h.bc b).listeners h ⟨[], []⟩ with
      | error p => rw [hd] at hh; cases hh
      | ok y =>
        obtain ⟨h2, r2⟩ := y
        rw [hd] at hh
        simp only [Except.ok.injEq, Prod.mk.injEq] at hh
        rw [← hh.1]
        exact sendAll_bcs env report value _ h h2 _ r2 hd

theorem NewBroadcaster_closed {V : Type} (h : Heap V) (b : Nat) (capacity : Int)
    (hc : (h.bc b).closed = true) : ((NewBroadcaster h capacity).1.bc b).closed = true := by
  have hb := Heap.lt_of_closed h b hc
  have : (NewBroadcaster h capacity).1.bc b = h.bc b := by
    simp [NewBroadcaster, Heap.bc, List.getD_eq_getElem?_getD, List.getElem?_append_left hb]
  rw [this]; exact hc

theorem SendWithTimeout_on_closed {V : Type} (env : SendEnv) (h : Heap V) (b : Nat)
    (pctxErr : Option Err) (value : V) (timeout : Duration) (report : Bool)
    (hc : (h.bc b).closed = true) :
    broadcaster.SendWithTimeout env h b pctxErr value timeout report
      = Except.ok (h, none, some Err.ClosedBroadcastChannel) := by
  unfold broadcaster.SendWithTimeout
  rw [if_pos hc]

end csync

namespace crawly
open csync

theorem BroadcastCall.run_closed {V : Type} (c : BroadcastCall V) (h h1 : Heap V) (b : Nat)
    (hh : c.run h = Except.ok h1) (hc : (h.bc b).closed = true) : (h1.bc b).closed = true := by
  cases c with
  | NewBroadcaster capacity =>
    simp only [BroadcastCall.run, Except.ok.injEq] at hh
    rw [← hh]; exact NewBroadcaster_closed h b capacity hc
  | Listen b' =>
    simp only [BroadcastCall.run] at hh
    cases hd : broadcaster.Listen h b' with
    | error p => rw [hd] at hh; cases hh
    | ok x =>
      obtain ⟨h2, l⟩ := x
      rw [hd] at hh
      simp only [Except.ok.injEq] at hh
      rw [← hh]; exact Listen_closed h h2 b b' l hd hc
  | DiscardListener b' l => exact DiscardListener_closed h h1 b b' l hh hc
  | Discard b' => exact Discard_closed h h1 b b' hh hc
  | ListenerDiscard l => exact listener_Discard_closed h h1 b l hh hc
  | SendWithTimeout env b' pctxErr value timeout report =>
    simp only [BroadcastCall.run] at hh
    cases hd : broadcaster.SendWithTimeout env h b' pctxErr value timeout report with
    | error p => rw [hd] at hh; cases hh
    | ok x =>
      obtain ⟨h2, y⟩ := x
      rw [hd] at hh
      simp only [Except.ok.injEq] at hh
      rw [← hh]
      exact Heap.closed_of_bcs h h2 b (SendWithTimeout_bcs env h h2 b' pctxErr value timeout report y hd) hc

theorem BroadcastCall.runAll_closed {V : Type} (b : Nat) :
    ∀ (calls : List (BroadcastCall V)) (h h1 : Heap V),
      BroadcastCall.runAll calls h = Except.ok h1 →
      (h.bc b).closed = true → (h1.bc b).closed = true := by
  intro calls
  induction calls with
  | nil => intro h h1 hh hc; cases hh; exact hc
  | cons c rest ih =>
    intro h h1 hh hc
    rw [BroadcastCall.runAll] at hh
    cases hd : c.run h with
    | error p => rw [hd] at hh; cases hh
    | ok h2 =>
      rw [hd] at hh
      exact ih h2 h1 hh (BroadcastCall.run_closed c h h2 b hd hc)

/-- C19: take a broadcaster `b` of the heap on which `Discard` has returned,
and any sequence of calls of the broadcast API made afterwards (on this or
any other broadcaster or listener). Every `SendWithTimeout` and every `Send`
on `b` then (any value, timeout, context and report flag) returns the error
`ClosedBroadcastChannel` with a nil report, and returns the heap as it was: no
channel received the value. -/
theorem C19_send_after_discard {V : Type} (h h1 h2 : Heap V) (b : Nat)
    (calls : List (BroadcastCall V)) (hb : b < h.bcs.length)
    (hd : broadcaster.Discard h b = Except.ok h1)
    (hlater : BroadcastCall.runAll calls h1 = Except.ok h2)
    (env : SendEnv) (pctxErr : Option Err) (value : V) (timeout : Duration) (report : Bool) :
    broadcaster.Closed h2 b = true ∧
    broadcaster.SendWithTimeout env h2 b pctxErr value timeout report
      = Except.ok (h2, none, some Err.ClosedBroadcastChannel) ∧
    broadcaster.Send env h2 b pctxErr value report
      = Except.ok (h2, none, some Err.ClosedBroadcastChannel) := by
  have hc : (h2.bc b).closed = true :=
    BroadcastCall.runAll_closed b calls h1 h2 hlater (Discard_closes h h1 b hb hd)
  exact ⟨hc, SendWithTimeout_on_closed env h2 b pctxErr value timeout report hc,
    SendWithTimeout_on_closed env h2 b pctxErr value 0 report hc⟩

theorem C19_send_after_discard_witness :
    broadcaster.Send SendEnv.eager
        (heapOf (BroadcastCall.runAll laterCalls (heapOf (broadcaster.Discard listenedHeap 0))))
        0 none 7 true
      = Except.ok
        (heapOf (BroadcastCall.runAll laterCalls (heapOf (broadcaster.Discard listenedHeap 0))),
          none, some Err.ClosedBroadcastChannel) :=
  (C19_send_after_discard listenedHeap (heapOf (broadcaster.Discard listenedHeap 0))
    (heapOf (BroadcastCall.runAll laterCalls (heapOf (broadcaster.Discard listenedHeap 0))))
    0 laterCalls (by decide) rfl rfl SendEnv.eager none 7 0 true).2.2

end crawly

namespace csync

theorem Map.Store_Store_self {K V : Type} [DecidableEq K] (m : Map K V) (k : K) (v : V) :
    Map.Store (Map.Store m k v) k v = Map.Store m k v := by
  have hs : Map.Has (Map.Store m k v) k = true := Map.Has_Store_self m k v
  rw [Map.Store, if_pos hs]
  have : ∀ p ∈ Map.Store m k v, (fun e : K × V => if e.1 = k then (k, v) else e) p = id p := by
    intro p hp
    rcases Map.mem_Store m k v p hp with e | e
    · simp [e]
    · simp [e.2]
  rw [List.map_congr_left this, List.map_id]

theorem Map.count_keys_Store {K V : Type} [DecidableEq K] (m : Map K V) (k : K) (v : V)
    (hn : (Map.keys m).Nodup) : (Map.keys (Map.Store m k v)).count k = 1 :=
  List.count_eq_one_of_mem (Map.nodup_keys_Store m k v hn)
    ((Map.Has_iff_mem_keys _ k).mp (Map.Has_Store_self m k v))

end csync

namespace crawly
open csync

/-- C13: in a state whose orders mapping holds each key once, for a valid
handle that is not tracked, `Track` twice in a row leaves the orders mapping
as one `Track` does, with exactly one order under the handle, a Start order;
for a valid handle that is tracked, `Untrack` twice in a row leaves the orders
mapping as one `Untrack` does, with exactly one order under the handle, a Stop
order. -/
theorem C13_enqueue_is_idempotent (cr : Crawler) (h1 h2 : Handle)
    (hn : (Map.keys cr.orders).Nodup)
    (hv1 : h1.Valid = true) (ht1 : cr.IsTracked h1 = false)
    (hv2 : h2.Valid = true) (ht2 : cr.IsTracked h2 = true) :
    (Crawler.Track (Crawler.Track cr h1).1 h1).1.orders = (Crawler.Track cr h1).1.orders ∧
    Map.Load (Crawler.Track (Crawler.Track cr h1).1 h1).1.orders h1
      = some ⟨TrackingCommandStart, 0, 0, some h1, 0⟩ ∧
    (Map.keys (Crawler.Track (Crawler.Track cr h1).1 h1).1.orders).count h1 = 1 ∧
    (Crawler.Untrack (Crawler.Untrack cr h2).1 h2).1.orders = (Crawler.Untrack cr h2).1.orders ∧
    Map.Load (Crawler.Untrack (Crawler.Untrack cr h2).1 h2).1.orders h2
      = some ⟨TrackingCommandStop, 0, 0, some h2, 0⟩ ∧
    (Map.keys (Crawler.Untrack (Crawler.Untrack cr h2).1 h2).1.orders).count h2 = 1 := by
  obtain ⟨a1, a2, _, _, _⟩ := Track_untracked cr h1 hv1 ht1
  have ht1' : (Crawler.Track cr h1).1.IsTracked h1 = false := by
    unfold Crawler.IsTracked; rw [a2]; exact ht1
  obtain ⟨b1, _, _, _, _⟩ := Track_untracked (Crawler.Track cr h1).1 h1 hv1 ht1'
  obtain ⟨c1, c2, _, _, _⟩ := Untrack_tracked cr h2 hv2 ht2
  have ht2' : (Crawler.Untrack cr h2).1.IsTracked h2 = true := by
    unfold Crawler.IsTracked; rw [c2]; exact ht2
  obtain ⟨d1, _, _, _, _⟩ := Untrack_tracked (Crawler.Untrack cr h2).1 h2 hv2 ht2'
  rw [b1, d1, a1, c1, Map.Store_Store_self, Map.Store_Store_self]
  exact ⟨rfl, Map.Load_Store_self _ _ _, Map.count_keys_Store _ _ _ hn,
    rfl, Map.Load_Store_self _ _ _, Map.count_keys_Store _ _ _ hn⟩

theorem C13_enqueue_is_idempotent_witness :
    (Crawler.Track (Crawler.Track Crawler.busy handleA).1 handleA).1.orders
      = [(handleC, ⟨TrackingCommandStart, 0, 0, some handleC, 0⟩),
         (handleA, ⟨TrackingCommandStart, 0, 0, some handleA, 0⟩)] ∧
    (Crawler.Untrack (Crawler.Untrack Crawler.busy handleB).1 handleB).1.orders
      = [(handleC, ⟨TrackingCommandStart, 0, 0, some handleC, 0⟩),
         (handleB, ⟨TrackingCommandStop, 0, 0, some handleB, 0⟩)] :=
  have w := C13_enqueue_is_idempotent Crawler.busy handleA handleB (by decide) rfl rfl rfl rfl
  ⟨w.1.trans rfl, w.2.2.2.1.trans rfl⟩

/-- The decision taken for a Start order whose handler returned nil after
setting the order action to Update. -/
theorem orderStartOutcome_update (maxAttempts : Int) (r : TrackingResult)
    (herr : r.Order.Err = none) (ha : r.Order.Action = TrackingActionUpdate) :
    (Crawler.orderStartOutcome maxAttempts r).Order.Action = TrackingActionUpdate ∧
    (Crawler.orderStartOutcome maxAttempts r).Entity.Action = r.Entity.Action ∧
    (Crawler.orderStartOutcome maxAttempts r).Order.Value.Attempt = 0 ∧
    (Crawler.orderStartOutcome maxAttempts r).Order.Value.Handle = r.Order.Value.Handle := by
  simp [Crawler.orderStartOutcome, herr, ha]

theorem commitOrders_update_keeps (m : Map Handle Order) (tr : TrackingResult)
    (ha : tr.Order.Action = TrackingActionUpdate) (k : Handle) (hk : Map.Has m k = true) :
    Map.Has (commitOrders m tr) k = true := by
  unfold commitOrders
  cases tr.Order.Value.Handle with
  | none => exact hk
  | some h =>
    simp only []
    split_ifs
    · rw [ha] at *; contradiction
    · exact Map.Has_Store_of_Has m h k _ hk
    · exact hk

theorem commitOrders_update (m : Map Handle Order) (tr : TrackingResult) (h : Handle)
    (hh : tr.Order.Value.Handle = some h) (hv : h.Valid = true)
    (ha : tr.Order.Action = TrackingActionUpdate) :
    Map.Load (commitOrders m tr) h = some tr.Order.Value := by
  unfold commitOrders
  rw [hh]
  simp only [hv, if_true, ha]
  exact Map.Load_Store_self _ _ _

/-- C15. For a Start order that reaches its handler (context not cancelled,
minimum delay not applying): if the handler returns nil after setting
order.action = Update and leaving entity.action = None, processOrder returns
nil with order.action = Update, entity.action = None and attempt 0. Committing
that result leaves the entities mapping as it was (no entity is created),
removes no key from the orders mapping, and stores the order of the result
under the handle it carries, which is the order's own when the handler left it
alone. -/
theorem C15_handler_action_is_authoritative (cr : Crawler) (env : Env) (w : World) (order : Order)
    (result : TrackingResult) (handler : OrderHandler)
    (hcmd : order.Command = TrackingCommandStart)
    (hh : cr.loadHandlers.Order = some handler)
    (hctx : env.ctxErr w.tick = none)
    (hproc : ¬ (Time.IsZero order.LastProcessing = false ∧
      Time.Sub (env.now w.tick) order.LastProcessing < cr.loadSettings.MinimumTrackingOrderDelay))
    (hret : ∀ t, (handler t (Crawler.orderPrelude order result)).2 = none)
    (hord : ∀ t, (handler t (Crawler.orderPrelude order result)).1.Order.Action
      = TrackingActionUpdate)
    (hent : ∀ t, (handler t (Crawler.orderPrelude order result)).1.Entity.Action
      = TrackingActionNone) :
    (Crawler.processOrder cr env w order result).2.2 = none ∧
    (Crawler.processOrder cr env w order result).2.1.Order.Action = TrackingActionUpdate ∧
    (Crawler.processOrder cr env w order result).2.1.Entity.Action = TrackingActionNone ∧
    (Crawler.processOrder cr env w order result).2.1.Order.Value.Attempt = 0 ∧
    (Crawler.commitTrackingResult cr (Crawler.processOrder cr env w order result).2.1).entities
      = cr.entities ∧
    (∀ k : Handle, Map.Has cr.orders k = true →
      Map.Has (Crawler.commitTrackingResult cr
        (Crawler.processOrder cr env w order result).2.1).orders k = true) ∧
    (∀ h : Handle, (Crawler.processOrder cr env w order result).2.1.Order.Value.Handle = some h →
      h.Valid = true →
      Map.Load (Crawler.commitTrackingResult cr
        (Crawler.processOrder cr env w order result).2.1).orders h
        = some (Crawler.processOrder cr env w order result).2.1.Order.Value) ∧
    ((∀ t, (handler t (Crawler.orderPrelude order result)).1.Order.Value.Handle = order.Handle) →
      (Crawler.processOrder cr env w order result).2.1.Order.Value.Handle = order.Handle) := by
  rw [processOrder_processed cr env w order result hctx hproc]
  have hc : (Crawler.orderPrelude order result).Order.Value.Command = TrackingCommandStart := by
    simpa [Crawler.orderPrelude] using hcmd
  obtain ⟨h1, h2, h3, h4⟩ := orderStartOutcome_update
    (maxAttemptsOf cr.loadSettings.MaximumTrackingOrderAttempts)
    { (handler (if Time.IsZero order.LastProcessing then w.tick else w.tick + 1)
          (Crawler.orderPrelude order result)).1 with
      Order := { (handler (if Time.IsZero order.LastProcessing then w.tick else w.tick + 1)
          (Crawler.orderPrelude order result)).1.Order with
        Err := (handler (if Time.IsZero order.LastProcessing then w.tick else w.tick + 1)
          (Crawler.orderPrelude order result)).2 } }
    (by simpa using hret _) (by simpa using hord _)
  have h2' := h2.trans (hent _)
  have e1 : (Crawler.orderBody cr env
      ⟨if Time.IsZero order.LastProcessing then w.tick else w.tick + 1, w.calls⟩
      (Crawler.orderPrelude order result)).2.1.Order.Action = TrackingActionUpdate := by
    simpa [Crawler.orderBody, Crawler.orderSwitch, hc, hh] using h1
  have e2 : (Crawler.orderBody cr env
      ⟨if Time.IsZero order.LastProcessing then w.tick else w.tick + 1, w.calls⟩
      (Crawler.orderPrelude order result)).2.1.Entity.Action = TrackingActionNone := by
    simpa [Crawler.orderBody, Crawler.orderSwitch, hc, hh] using h2'
  refine ⟨rfl, e1, e2, ?_, ?_, ?_, ?_, ?_⟩
  · simpa [Crawler.orderBody, Crawler.orderSwitch, hc, hh] using h3
  · exact commitEntities_noAction _ _ e2
  · intro k hk
    exact commitOrders_update_keeps _ _ e1 k hk
  · intro h hcar hv
    exact commitOrders_update _ _ h hcar hv e1
  · intro hkeep
    simp only [Crawler.orderBody, Crawler.orderSwitch, hc, hh, if_true]
    rw [h4]
    exact hkeep _

/-- C15 at a concrete order: second attempt of a Start order for `handleA`
held by a crawler that tracks nothing. -/
theorem C15_handler_action_witness :
    (Crawler.processOrder (Crawler.withHandlers ⟨some deferringHandler, none⟩ DefaultCrawlerSettings)
        Env.steady ⟨0, []⟩ ⟨TrackingCommandStart, 1, 0, some handleA, 0⟩
        TrackingResult.zero).2.1.Order.Action = TrackingActionUpdate ∧
    (Crawler.processOrder (Crawler.withHandlers ⟨some deferringHandler, none⟩ DefaultCrawlerSettings)
        Env.steady ⟨0, []⟩ ⟨TrackingCommandStart, 1, 0, some handleA, 0⟩
        TrackingResult.zero).2.1.Order.Value.Attempt = 0 ∧
    (Crawler.commitTrackingResult
        (Crawler.withHandlers ⟨some deferringHandler, none⟩ DefaultCrawlerSettings)
        (Crawler.processOrder
          (Crawler.withHandlers ⟨some deferringHandler, none⟩ DefaultCrawlerSettings)
          Env.steady ⟨0, []⟩ ⟨TrackingCommandStart, 1, 0, some handleA, 0⟩
          TrackingResult.zero).2.1).entities = [] :=
  have h := C15_handler_action_is_authoritative
    (Crawler.withHandlers ⟨some deferringHandler, none⟩ DefaultCrawlerSettings)
    Env.steady ⟨0, []⟩ ⟨TrackingCommandStart, 1, 0, some handleA, 0⟩ TrackingResult.zero
    deferringHandler rfl rfl rfl (by decide) (fun _ => rfl) (fun _ => rfl) (fun _ => rfl)
  ⟨h.2.1, h.2.2.2.1, h.2.2.2.2.1⟩

theorem orderStartOutcome_Err (m : Int) (r : TrackingResult) :
    (Crawler.orderStartOutcome m r).Order.Err = r.Order.Err := by
  unfold Crawler.orderStartOutcome
  split <;> (simp only []; split_ifs <;> simp_all)

theorem entityOutcome_Err (m : Int) (r : TrackingResult) :
    (Crawler.entityOutcome m r).Entity.Err = r.Entity.Err := by
  unfold Crawler.entityOutcome
  split <;> (simp only []; split_ifs <;> simp_all)

/-- A Start order that reaches the switch: `processOrder` returns nil and
`Order.Err` holds what the handler returned (`NilHandler` without a handler). -/
theorem orderBody_Err (cr : Crawler) (env : Env) (w : World) (r : TrackingResult)
    (hc : r.Order.Value.Command = TrackingCommandStart) :
    (Crawler.orderBody cr env w r).2.2 = none ∧
    (Crawler.orderBody cr env w r).2.1.Order.Err = Crawler.orderHandlerErr cr w.tick r := by
  refine ⟨rfl, ?_⟩
  unfold Crawler.orderBody Crawler.orderSwitch Crawler.orderHandlerErr
  simp only [hc, if_true]
  cases cr.loadHandlers.Order with
  | none => simp only []; rw [orderStartOutcome_Err]
  | some f => simp only []; rw [orderStartOutcome_Err]

theorem entityBody_Err (cr : Crawler) (env : Env) (w : World) (r : TrackingResult) :
    (Crawler.entityBody cr env w r).2.2 = none ∧
    (Crawler.entityBody cr env w r).2.1.Entity.Err = Crawler.entityHandlerErr cr w.tick r := by
  refine ⟨rfl, ?_⟩
  unfold Crawler.entityBody Crawler.entityHandlerErr
  cases cr.loadHandlers.Entity with
  | none => simp only []; rw [entityOutcome_Err]
  | some f => simp only []; rw [entityOutcome_Err]

theorem processEntity_body (cr : Crawler) (env : Env) (w : World) (e : Entity)
    (r : TrackingResult) (hctx : env.ctxErr w.tick = none)
    (hproc : ¬ (Time.IsZero e.LastProcessing = false ∧
      Time.Sub (env.now w.tick) e.LastProcessing < cr.loadSettings.MinimumTrackingDelay)) :
    Crawler.processEntity cr env w e r
      = Crawler.entityBody cr env
          ⟨if Time.IsZero e.LastProcessing then w.tick else w.tick + 1, w.calls⟩
          (Crawler.entityPrelude e r) := by
  by_cases hz : Time.IsZero e.LastProcessing = true
  · simp [Crawler.processEntity, hctx, Crawler.entityPrelude, hz]
  · have hz' : Time.IsZero e.LastProcessing = false := by simpa using hz
    have hd : ¬ Time.Sub (env.now w.tick) e.LastProcessing
        < cr.loadSettings.MinimumTrackingDelay := fun h => hproc ⟨hz', h⟩
    simp [Crawler.processEntity, hctx, Crawler.entityPrelude, hz', hd]

theorem foldOrders_records (env : Env) :
    ∀ (l : List (Handle × Order)) (st : PassState),
      (l.foldl (fun st p => Crawler.orderStep env st p.1 p.2) st).result.Entities
        = st.result.Entities ∧
      (∀ k, Map.Has st.result.Orders k = true →
        Map.Has (l.foldl (fun st p => Crawler.orderStep env st p.1 p.2) st).result.Orders k
          = true) ∧
      (∀ k ∈ l.map Prod.fst,
        Map.Has (l.foldl (fun st p => Crawler.orderStep env st p.1 p.2) st).result.Orders k
          = true) := by
  intro l
  induction l with
  | nil => intro st; exact ⟨rfl, fun _ h => h, fun _ h => by simp at h⟩
  | cons p l ih =>
    intro st
    obtain ⟨i1, i2, i3⟩ := ih (Crawler.orderStep env st p.1 p.2)
    rw [List.foldl_cons]
    refine ⟨i1.trans rfl, fun k hk => i2 k (Map.Has_Store_of_Has _ _ _ _ hk), fun k hk => ?_⟩
    rw [List.map_cons, List.mem_cons] at hk
    rcases hk with hk | hk
    · rw [hk]; exact i2 _ (Map.Has_Store_self _ _ _)
    · exact i3 k hk

theorem foldEntities_records (env : Env) :
    ∀ (l : List (Handle × Entity)) (st : PassState),
      (l.foldl (fun st p => Crawler.entityStep env st p.1 p.2) st).result.Err = st.result.Err ∧
      (l.foldl (fun st p => Crawler.entityStep env st p.1 p.2) st).result.Orders
        = st.result.Orders ∧
      (∀ k, Map.Has st.result.Entities k = true →
        Map.Has (l.foldl (fun st p => Crawler.entityStep env st p.1 p.2) st).result.Entities k
          = true) ∧
      (∀ k ∈ l.map Prod.fst,
        Map.Has (l.foldl (fun st p => Crawler.entityStep env st p.1 p.2) st).result.Entities k
          = true) := by
  intro l
  induction l with
  | nil => intro st; exact ⟨rfl, rfl, fun _ h => h, fun _ h => by simp at h⟩
  | cons p l ih =>
    intro st
    obtain ⟨i0, i1, i2, i3⟩ := ih (Crawler.entityStep env st p.1 p.2)
    rw [List.foldl_cons]
    refine ⟨i0.trans rfl, i1.trans rfl, fun k hk => i2 k (Map.Has_Store_of_Has _ _ _ _ hk),
      fun k hk => ?_⟩
    rw [List.map_cons, List.mem_cons] at hk
    rcases hk with hk | hk
    · rw [hk]; exact i2 _ (Map.Has_Store_self _ _ _)
    · exact i3 k hk


/-! ## Entities are born from Start orders -/

theorem Born_mono (h : Handle) (A B : List Happening) (hsub : ∀ e ∈ A, e ∈ B)
    (hb : Born h A) : Born h B := by
  obtain ⟨e, he, hbe⟩ := hb
  exact ⟨e, hsub e he, hbe⟩

/-- Appending happenings to a history in which every Entity handler call has a
birth before it: the property is kept when every appended Entity handler call
is for a handle born in the history. -/
theorem justified_append (H E : List Happening)
    (hJ : ∀ pre post h, H = pre ++ Happening.entity (some h) :: post → Born h pre)
    (hE : ∀ h, Happening.entity (some h) ∈ E → Born h H) :
    ∀ pre post h, H ++ E = pre ++ Happening.entity (some h) :: post → Born h pre := by
  intro pre post h heq
  rcases List.append_eq_append_iff.mp heq with ⟨a, hpre, hEa⟩ | ⟨c, hH, hc⟩
  · have hm : Happening.entity (some h) ∈ E := by
      rw [hEa]; exact List.mem_append_right _ (List.mem_cons_self _ _)
    refine Born_mono h H pre (fun e he => ?_) (hE h hm)
    rw [hpre]; exact List.mem_append_left _ he
  · cases c with
    | nil =>
      have hm : Happening.entity (some h) ∈ E := by
        rw [List.nil_append] at hc
        rw [← hc]; exact List.mem_cons_self _ _
      refine Born_mono h H pre (fun e he => ?_) (hE h hm)
      rw [hH, List.append_nil] at he; exact he
    | cons x c =>
      rw [List.cons_append] at hc
      have hx : x = Happening.entity (some h) := (List.cons.inj hc).1.symm
      rw [hx] at hH
      exact hJ pre c h hH

theorem orderStartOutcome_entity (m : Int) (r : TrackingResult)
    (hU : (Crawler.orderStartOutcome m r).Entity.Action = TrackingActionUpdate) :
    r.Order.Err = none ∧
    (r.Order.Action = TrackingActionNone ∨ r.Entity.Action = TrackingActionUpdate) := by
  unfold Crawler.orderStartOutcome at hU
  cases he : r.Order.Err with
  | some err =>
    rw [he] at hU
    simp only [] at hU
    split_ifs at hU
  | none =>
    rw [he] at hU
    simp only [] at hU
    refine ⟨rfl, ?_⟩
    by_cases ha : r.Order.Action = TrackingActionNone
    · exact Or.inl ha
    · rw [if_neg ha] at hU
      exact Or.inr hU

theorem processOrder_none_ctx (cr : Crawler) (env : Env) (w : World) (o : Order)
    (r : TrackingResult) (hN : (Crawler.processOrder cr env w o r).2.2.isNone = true) :
    env.ctxErr w.tick = none := by
  cases hctx : env.ctxErr w.tick with
  | none => rfl
  | some e =>
    unfold Crawler.processOrder at hN
    rw [hctx] at hN
    simp at hN

theorem processOrder_err_world (cr : Crawler) (env : Env) (w : World) (o : Order)
    (r : TrackingResult) (hN : ¬ (Crawler.processOrder cr env w o r).2.2.isNone = true) :
    (Crawler.processOrder cr env w o r).1 = w := by
  cases hctx : env.ctxErr w.tick with
  | none =>
    exfalso; apply hN
    rw [processOrder_err_live cr env w o r hctx]; rfl
  | some e =>
    unfold Crawler.processOrder
    rw [hctx]

theorem processEntity_none_ctx (cr : Crawler) (env : Env) (w : World) (e : Entity)
    (r : TrackingResult) (hN : (Crawler.processEntity cr env w e r).2.2.isNone = true) :
    env.ctxErr w.tick = none := by
  cases hctx : env.ctxErr w.tick with
  | none => rfl
  | some e =>
    unfold Crawler.processEntity at hN
    rw [hctx] at hN
    simp at hN

theorem processEntity_err_world (cr : Crawler) (env : Env) (w : World) (e : Entity)
    (r : TrackingResult) (hN : ¬ (Crawler.processEntity cr env w e r).2.2.isNone = true) :
    (Crawler.processEntity cr env w e r).1 = w := by
  cases hctx : env.ctxErr w.tick with
  | none =>
    exfalso; apply hN
    rw [processEntity_err_live cr env w e r hctx]; rfl
  | some e =>
    unfold Crawler.processEntity
    rw [hctx]

/-- When `processOrder`, run on a zero result, asks for the entity to be
stored, the order is a Start order whose handler was called, returned nil and
either left the order action None or set the entity action to Update. -/
theorem processOrder_birth (cr : Crawler) (env : Env) (w : World) (o : Order)
    (hctx : env.ctxErr w.tick = none)
    (hU : (Crawler.processOrder cr env w o TrackingResult.zero).2.1.Entity.Action
      = TrackingActionUpdate) :
    o.Command = TrackingCommandStart ∧
    ∃ r, Crawler.orderHandlerOutput cr env w o = some (r, none) ∧
      (r.Order.Action = TrackingActionNone ∨ r.Entity.Action = TrackingActionUpdate) := by
  by_cases hproc : (Time.IsZero o.LastProcessing = false ∧
      Time.Sub (env.now w.tick) o.LastProcessing < cr.loadSettings.MinimumTrackingOrderDelay)
  · exfalso
    simp [Crawler.processOrder, hctx, Crawler.orderPrelude, hproc.1, hproc.2,
      TrackingResult.zero] at hU
  · rw [processOrder_processed cr env w o _ hctx hproc] at hU
    have hskip : (!Time.IsZero o.LastProcessing &&
        decide (Time.Sub (env.now w.tick) o.LastProcessing
          < cr.loadSettings.MinimumTrackingOrderDelay)) = false := by
      by_cases hz : Time.IsZero o.LastProcessing = true
      · simp [hz]
      · have hz' : Time.IsZero o.LastProcessing = false := by simpa using hz
        have hd : ¬ Time.Sub (env.now w.tick) o.LastProcessing
            < cr.loadSettings.MinimumTrackingOrderDelay := fun h => hproc ⟨hz', h⟩
        simp [hz', hd]
    have hc : (Crawler.orderPrelude o TrackingResult.zero).Order.Value.Command = o.Command := rfl
    by_cases hcmd : o.Command = TrackingCommandStart
    · refine ⟨hcmd, ?_⟩
      cases hf : cr.loadHandlers.Order with
      | none =>
        exfalso
        simp only [Crawler.orderBody, Crawler.orderSwitch, hc, hcmd, hf, if_true] at hU
        have := (orderStartOutcome_entity _ _ hU).1
        simp at this
      | some f =>
        simp only [Crawler.orderBody, Crawler.orderSwitch, hc, hcmd, hf, if_true] at hU
        obtain ⟨e1, e2⟩ := orderStartOutcome_entity _ _ hU
        simp only [] at e1 e2
        refine ⟨(f (if Time.IsZero o.LastProcessing then w.tick else w.tick + 1)
          (Crawler.orderPrelude o TrackingResult.zero)).1, ?_, e2⟩
        unfold Crawler.orderHandlerOutput
        rw [hctx]
        simp only [hskip, Bool.false_eq_true, if_false, hcmd, if_true, hf]
        rw [← e1]
    · exfalso
      by_cases hstop : o.Command = TrackingCommandStop
      · simp [Crawler.orderBody, Crawler.orderSwitch, hc, hstop] at hU
      · simp [Crawler.orderBody, Crawler.orderSwitch, hc, hcmd, hstop, Crawler.orderPrelude,
          TrackingResult.zero] at hU

theorem mem_commitEntities (m : Map Handle Entity) (tr : TrackingResult) (p : Handle × Entity)
    (hp : p ∈ commitEntities m tr) :
    p ∈ m ∨ (tr.Entity.Action = TrackingActionUpdate ∧ tr.Entity.Value.Handle = some p.1 ∧
      p.2 = tr.Entity.Value) := by
  unfold commitEntities at hp
  cases hk : tr.Entity.Value.Handle with
  | none => rw [hk] at hp; exact Or.inl hp
  | some k =>
    rw [hk] at hp
    simp only [] at hp
    split_ifs at hp with _ h1 h2
    · exact Or.inl ((Map.mem_Delete m k p).mp hp).1
    · rcases Map.mem_Store m k _ p hp with e | e
      · right; rw [e]; exact ⟨h2, rfl, rfl⟩
      · exact Or.inl e.1
    · exact Or.inl hp
    · exact Or.inl hp

theorem visitOrders_cons (env : Env) (k : Handle) (o : Order) (rest : List (Handle × Order))
    (st : PassState) :
    Crawler.visitOrders env ((k, o) :: rest) st
      = if (Crawler.processOrder st.cr env st.w o TrackingResult.zero).2.2.isNone then
          Crawler.visitOrders env rest (Crawler.orderStep env st k o)
        else
          { st with
            w := (Crawler.processOrder st.cr env st.w o TrackingResult.zero).1,
            result := { st.result with
              Idle := false,
              Err := (Crawler.processOrder st.cr env st.w o TrackingResult.zero).2.2 } } := by
  rw [Crawler.visitOrders]
  unfold Crawler.orderStep
  generalize Crawler.processOrder st.cr env st.w o TrackingResult.zero = out
  obtain ⟨w1, tr, err⟩ := out
  cases err <;> rfl

theorem visitEntities_cons (env : Env) (k : Handle) (e : Entity) (rest : List (Handle × Entity))
    (st : PassState) :
    Crawler.visitEntities env ((k, e) :: rest) st
      = if (Crawler.processEntity st.cr env st.w e TrackingResult.zero).2.2.isNone then
          Crawler.visitEntities env rest (Crawler.entityStep env st k e)
        else
          { st with
            w := (Crawler.processEntity st.cr env st.w e TrackingResult.zero).1,
            result := { st.result with
              Idle := false,
              Err := (Crawler.processEntity st.cr env st.w e TrackingResult.zero).2.2 } } := by
  rw [Crawler.visitEntities]
  unfold Crawler.entityStep
  generalize Crawler.processEntity st.cr env st.w e TrackingResult.zero = out
  obtain ⟨w1, tr, err⟩ := out
  cases err <;> rfl

theorem entityHappenings_append (a b : List Call) :
    entityHappenings (a ++ b) = entityHappenings a ++ entityHappenings b := by
  unfold entityHappenings
  rw [List.filterMap_append]

theorem orderHappenings_no_entity (env : Env) :
    ∀ (l : List (Handle × Order)) (st : PassState) (h : Option Handle),
      Happening.entity h ∉ Crawler.orderHappenings env l st := by
  intro l
  induction l with
  | nil => intro st h hm; simp [Crawler.orderHappenings] at hm
  | cons p l ih =>
    intro st h hm
    rw [Crawler.orderHappenings] at hm
    rcases List.mem_cons.mp hm with e | hm
    · cases e
    · split_ifs at hm
      · exact ih _ h hm
      · simp at hm

/-- The orders loop: every entity in the mapping afterwards was there before or
was born in the loop, and the loop calls no Entity handler. -/
theorem visitOrders_born (env : Env) :
    ∀ (l : List (Handle × Order)) (st : PassState) (hist : List Happening),
      (∀ f, st.cr.handlers.Order = some f → KeepsHandles f) →
      (∀ p ∈ st.cr.entities, ∀ h, p.2.Handle = some h → Born h hist) →
      (Crawler.visitOrders env l st).cr.handlers = st.cr.handlers ∧
      (∀ p ∈ (Crawler.visitOrders env l st).cr.entities, ∀ h, p.2.Handle = some h →
        Born h (hist ++ Crawler.orderHappenings env l st)) ∧
      entityHappenings (Crawler.visitOrders env l st).w.calls = entityHappenings st.w.calls := by
  intro l
  induction l with
  | nil =>
    intro st hist _ hent
    refine ⟨rfl, fun p hp h hh => ?_, rfl⟩
    rw [Crawler.orderHappenings, List.append_nil]
    exact hent p hp h hh
  | cons q l ih =>
    intro st hist hk hent
    obtain ⟨k, o⟩ := q
    rw [visitOrders_cons, Crawler.orderHappenings]
    by_cases hN : (Crawler.processOrder st.cr env st.w o TrackingResult.zero).2.2.isNone = true
    · rw [if_pos hN, if_pos hN]
      have hctx := processOrder_none_ctx st.cr env st.w o _ hN
      have hent' : ∀ p ∈ (Crawler.orderStep env st k o).cr.entities, ∀ h, p.2.Handle = some h →
          Born h (hist ++ [Happening.order o (Crawler.orderHandlerOutput st.cr env st.w o)]) := by
        intro p hp h hh
        rcases mem_commitEntities _ _ p hp with hm | ⟨hU, hH, hv⟩
        · exact Born_mono h hist _ (fun e he => List.mem_append_left _ he) (hent p hm h hh)
        · obtain ⟨_, h2⟩ := processOrder_handles st.cr env st.w o TrackingResult.zero hctx hk
          obtain ⟨hcmd, r, hout, hact⟩ := processOrder_birth st.cr env st.w o hctx hU
          have hoh : o.Handle = some h := by
            rw [← h2, ← hh, hv]
          refine ⟨_, List.mem_append_right _ (List.mem_singleton_self _), ?_⟩
          rw [hout]
          simp only [Happening.bornFrom, hoh, hcmd, decide_True, Bool.true_and, Bool.or_eq_true,
            decide_eq_true_eq]
          exact hact
      obtain ⟨i1, i2, i3⟩ := ih (Crawler.orderStep env st k o)
        (hist ++ [Happening.order o (Crawler.orderHandlerOutput st.cr env st.w o)]) hk hent'
      refine ⟨i1, fun p hp h hh => ?_, ?_⟩
      · have := i2 p hp h hh
        rw [List.append_assoc, List.singleton_append] at this
        exact this
      · rw [i3]
        show entityHappenings (Crawler.processOrder st.cr env st.w o TrackingResult.zero).1.calls
          = entityHappenings st.w.calls
        rcases processOrder_calls st.cr env st.w o TrackingResult.zero hctx with hc | ⟨hc, _⟩
        · rw [hc]
        · rw [hc, entityHappenings_append]
          simp [entityHappenings]
    · rw [if_neg hN, if_neg hN]
      refine ⟨rfl, fun p hp h hh => ?_, ?_⟩
      · exact Born_mono h hist _ (fun e he => List.mem_append_left _ he) (hent p hp h hh)
      · show entityHappenings (Crawler.processOrder st.cr env st.w o TrackingResult.zero).1.calls
          = entityHappenings st.w.calls
        rw [processOrder_err_world st.cr env st.w o _ hN]

/-- The entities loop: when every entity visited and every entity of the
mapping has a handle in `B`, so has every entity of the mapping afterwards and
every Entity handler call made. -/
theorem visitEntities_born (env : Env) (B : Handle → Prop) :
    ∀ (l : List (Handle × Entity)) (st : PassState),
      (∀ f, st.cr.handlers.Entity = some f → KeepsHandles f) →
      (∀ p ∈ l, ∀ h, p.2.Handle = some h → B h) →
      (∀ p ∈ st.cr.entities, ∀ h, p.2.Handle = some h → B h) →
      (∀ h, Happening.entity (some h) ∈ entityHappenings st.w.calls → B h) →
      (Crawler.visitEntities env l st).cr.handlers = st.cr.handlers ∧
      (∀ p ∈ (Crawler.visitEntities env l st).cr.entities, ∀ h, p.2.Handle = some h → B h) ∧
      (∀ h, Happening.entity (some h) ∈ entityHappenings (Crawler.visitEntities env l st).w.calls →
        B h) := by
  intro l
  induction l with
  | nil => intro st _ _ hent hcalls; exact ⟨rfl, hent, hcalls⟩
  | cons q l ih =>
    intro st hk hl hent hcalls
    obtain ⟨k, e⟩ := q
    rw [visitEntities_cons]
    by_cases hN : (Crawler.processEntity st.cr env st.w e TrackingResult.zero).2.2.isNone = true
    · rw [if_pos hN]
      have hctx := processEntity_none_ctx st.cr env st.w e _ hN
      obtain ⟨h1, _, h3⟩ := processEntity_handles st.cr env st.w e TrackingResult.zero hctx hk
      have he : ∀ h, e.Handle = some h → B h :=
        fun h hh => hl (k, e) (List.mem_cons_self _ _) h hh
      refine ih (Crawler.entityStep env st k e) hk
        (fun p hp => hl p (List.mem_cons_of_mem _ hp)) ?_ ?_
      · intro p hp h hh
        rcases mem_commitEntities _ _ p hp with hm | ⟨_, _, hv⟩
        · exact hent p hm h hh
        · refine he h ?_
          rw [← h1, ← hh, hv]
      · intro h hm
        have hm' : Happening.entity (some h) ∈ entityHappenings
            (Crawler.processEntity st.cr env st.w e TrackingResult.zero).1.calls := hm
        rcases h3 with hc | hc
        · rw [hc] at hm'; exact hcalls h hm'
        · rw [hc, entityHappenings_append] at hm'
          rcases List.mem_append.mp hm' with hm1 | hm1
          · exact hcalls h hm1
          · simp only [entityHappenings, List.filterMap_cons, List.filterMap_nil,
              List.mem_singleton, Happening.entity.injEq] at hm1
            exact he h hm1.symm
    · rw [if_neg hN]
      refine ⟨rfl, hent, fun h hm => hcalls h ?_⟩
      have hm' : Happening.entity (some h) ∈ entityHappenings
          (Crawler.processEntity st.cr env st.w e TrackingResult.zero).1.calls := hm
      rw [processEntity_err_world st.cr env st.w e _ hN] at hm'
      exact hm'

theorem sessionHandler_shape (cr : Crawler) (env : Env) (w : World) :
    (Crawler.sessionHandler cr env w).cr
      = (if (Crawler.visitOrders env (env.rangeOrders cr.orders)
              (Crawler.passStart cr w)).result.Err = none then
          Crawler.visitEntities env
            (env.rangeEntities (Crawler.visitOrders env (env.rangeOrders cr.orders)
              (Crawler.passStart cr w)).cr.entities)
            (Crawler.visitOrders env (env.rangeOrders cr.orders) (Crawler.passStart cr w))
        else Crawler.visitOrders env (env.rangeOrders cr.orders) (Crawler.passStart cr w)).cr ∧
    (Crawler.sessionHandler cr env w).w.calls
      = (if (Crawler.visitOrders env (env.rangeOrders cr.orders)
              (Crawler.passStart cr w)).result.Err = none then
          Crawler.visitEntities env
            (env.rangeEntities (Crawler.visitOrders env (env.rangeOrders cr.orders)
              (Crawler.passStart cr w)).cr.entities)
            (Crawler.visitOrders env (env.rangeOrders cr.orders) (Crawler.passStart cr w))
        else Crawler.visitOrders env (env.rangeOrders cr.orders)
          (Crawler.passStart cr w)).w.calls := by
  unfold Crawler.sessionHandler
  simp only []
  rw [if_pos (show (Crawler.passStart cr w).result.Err = none from rfl)]
  exact ⟨rfl, rfl⟩

/-- One pass keeps the two facts about a history: every entity of the mapping
was born in it, and every Entity handler call in it has a birth before it. -/
theorem pass_born (cr : Crawler) (env : Env) (tick : Nat) (hist : List Happening)
    (hkeep : cr.HandlersKeepHandles) (hfair : env.Fair)
    (hent : ∀ p ∈ cr.entities, ∀ h, p.2.Handle = some h → Born h hist)
    (hJ : ∀ pre post h, hist = pre ++ Happening.entity (some h) :: post → Born h pre) :
    (Crawler.sessionHandler cr env ⟨tick, []⟩).cr.handlers = cr.handlers ∧
    (∀ p ∈ (Crawler.sessionHandler cr env ⟨tick, []⟩).cr.entities, ∀ h, p.2.Handle = some h →
      Born h (hist ++ Crawler.passHappenings cr env tick)) ∧
    (∀ pre post h,
      hist ++ Crawler.passHappenings cr env tick = pre ++ Happening.entity (some h) :: post →
      Born h pre) := by
  obtain ⟨a1, a2, a3⟩ := visitOrders_born env (env.rangeOrders cr.orders)
    (Crawler.passStart cr ⟨tick, []⟩) hist hkeep.1 hent
  obtain ⟨s1, s2⟩ := sessionHandler_shape cr env ⟨tick, []⟩
  have hJ1 := justified_append hist
    (Crawler.orderHappenings env (env.rangeOrders cr.orders) (Crawler.passStart cr ⟨tick, []⟩))
    hJ (fun h hm => absurd hm (orderHappenings_no_entity env _ _ _))
  have key : ((if (Crawler.visitOrders env (env.rangeOrders cr.orders)
              (Crawler.passStart cr ⟨tick, []⟩)).result.Err = none then
          Crawler.visitEntities env
            (env.rangeEntities (Crawler.visitOrders env (env.rangeOrders cr.orders)
              (Crawler.passStart cr ⟨tick, []⟩)).cr.entities)
            (Crawler.visitOrders env (env.rangeOrders cr.orders) (Crawler.passStart cr ⟨tick, []⟩))
        else Crawler.visitOrders env (env.rangeOrders cr.orders)
          (Crawler.passStart cr ⟨tick, []⟩)).cr.handlers = cr.handlers) ∧
      (∀ p ∈ (Crawler.sessionHandler cr env ⟨tick, []⟩).cr.entities, ∀ h, p.2.Handle = some h →
        Born h (hist ++ Crawler.orderHappenings env (env.rangeOrders cr.orders)
          (Crawler.passStart cr ⟨tick, []⟩))) ∧
      (∀ h, Happening.entity (some h) ∈
          entityHappenings (Crawler.sessionHandler cr env ⟨tick, []⟩).w.calls →
        Born h (hist ++ Crawler.orderHappenings env (env.rangeOrders cr.orders)
          (Crawler.passStart cr ⟨tick, []⟩))) := by
    rw [s1, s2]
    have hc0 : ∀ h, Happening.entity (some h) ∈ entityHappenings
        (Crawler.visitOrders env (env.rangeOrders cr.orders)
          (Crawler.passStart cr ⟨tick, []⟩)).w.calls →
        Born h (hist ++ Crawler.orderHappenings env (env.rangeOrders cr.orders)
          (Crawler.passStart cr ⟨tick, []⟩)) := by
      intro h hm
      rw [a3] at hm
      simp [Crawler.passStart, entityHappenings] at hm
    split_ifs
    · obtain ⟨b0, b1, b2⟩ := visitEntities_born env
        (fun h => Born h (hist ++ Crawler.orderHappenings env (env.rangeOrders cr.orders)
          (Crawler.passStart cr ⟨tick, []⟩)))
        (env.rangeEntities (Crawler.visitOrders env (env.rangeOrders cr.orders)
          (Crawler.passStart cr ⟨tick, []⟩)).cr.entities)
        (Crawler.visitOrders env (env.rangeOrders cr.orders) (Crawler.passStart cr ⟨tick, []⟩))
        (by rw [a1]; exact hkeep.2)
        (fun p hp => a2 p ((hfair.2 _).subset hp)) a2 hc0
      exact ⟨b0.trans a1, b1, b2⟩
    · exact ⟨a1, a2, hc0⟩
  obtain ⟨k0, k1, k2⟩ := key
  refine ⟨?_, ?_, ?_⟩
  · show (Crawler.sessionHandler cr env ⟨tick, []⟩).cr.handlers = cr.handlers
    rw [s1]; exact k0
  · intro p hp h hh
    unfold Crawler.passHappenings
    rw [← List.append_assoc]
    exact Born_mono h _ _ (fun e he => List.mem_append_left _ he) (k1 p hp h hh)
  · unfold Crawler.passHappenings
    rw [← List.append_assoc]
    exact justified_append _ _ hJ1 k2

theorem order_frame (cr : Crawler) (h : Handle) (c : TrackingCommand) (q : Bool) :
    (Crawler.order cr h c q).1.entities = cr.entities ∧
    (Crawler.order cr h c q).1.handlers = cr.handlers := by
  unfold Crawler.order
  simp only []
  split_ifs <;> exact ⟨rfl, rfl⟩

/-- Over any sequence of steps with fair passes and handlers that keep the
handles, the two facts about the history are kept, and so is keyedness. -/
theorem runOps_born :
    ∀ (ops : List Op) (cr : Crawler) (hist : List Happening),
      cr.HandlersKeepHandles → cr.Keyed →
      (∀ env tick, Op.Pass env tick ∈ ops → env.Fair) →
      (∀ p ∈ cr.entities, ∀ h, p.2.Handle = some h → Born h hist) →
      (∀ pre post h, hist = pre ++ Happening.entity (some h) :: post → Born h pre) →
      (Crawler.runOps ops cr hist).1.Keyed ∧
      (∀ p ∈ (Crawler.runOps ops cr hist).1.entities, ∀ h, p.2.Handle = some h →
        Born h (Crawler.runOps ops cr hist).2) ∧
      (∀ pre post h, (Crawler.runOps ops cr hist).2 = pre ++ Happening.entity (some h) :: post →
        Born h pre) := by
  intro ops
  induction ops with
  | nil => intro cr hist _ hkd _ hent hJ; exact ⟨hkd, hent, hJ⟩
  | cons op ops ih =>
    intro cr hist hkeep hkd hfair hent hJ
    have hfair' : ∀ env tick, Op.Pass env tick ∈ ops → env.Fair :=
      fun env tick hm => hfair env tick (List.mem_cons_of_mem _ hm)
    cases op with
    | Track h =>
      rw [Crawler.runOps]
      obtain ⟨f1, f2⟩ := order_frame cr h TrackingCommandStart false
      refine ih (Crawler.Track cr h).1 hist ?_ (order_keyed cr h _ _ hkd) hfair' ?_ hJ
      · unfold Crawler.HandlersKeepHandles Crawler.Track; rw [f2]; exact hkeep
      · unfold Crawler.Track; rw [f1]; exact hent
    | Untrack h =>
      rw [Crawler.runOps]
      obtain ⟨f1, f2⟩ := order_frame cr h TrackingCommandStop false
      refine ih (Crawler.Untrack cr h).1 hist ?_ (order_keyed cr h _ _ hkd) hfair' ?_ hJ
      · unfold Crawler.HandlersKeepHandles Crawler.Untrack; rw [f2]; exact hkeep
      · unfold Crawler.Untrack; rw [f1]; exact hent
    | Pass env tick =>
      rw [Crawler.runOps]
      obtain ⟨p1, p2, p3⟩ := pass_born cr env tick hist hkeep
        (hfair env tick (List.mem_cons_self _ _)) hent hJ
      refine ih _ _ ?_ (sessionHandler_keyed cr env _ hkd) hfair' p2 p3
      unfold Crawler.HandlersKeepHandles; rw [p1]; exact hkeep

/-- C14 (amended). Take a crawler whose mappings are empty and whose handlers
leave the Handle fields of the result alone, and any sequence of `Track` calls,
`Untrack` calls and passes (any clock, any cancellation of the context, `Range`
visiting every entry). In the record of what happened, every invocation of the
Entity handler for a handle h comes after a `processOrder` on a Start order for
h whose handler returned nil and either left `order.action` None (whatever it
did to `entity.action`) or set `entity.action` to Update; and every handle
tracked at the end has such a `processOrder` in the record. -/
theorem C14_entities_born_from_start_orders (cr : Crawler) (ops : List Op)
    (horders : cr.orders = []) (hentities : cr.entities = [])
    (hkeep : cr.HandlersKeepHandles)
    (hfair : ∀ env tick, Op.Pass env tick ∈ ops → env.Fair) :
    (∀ pre post h, (Crawler.runOps ops cr []).2 = pre ++ Happening.entity (some h) :: post →
      ∃ e ∈ pre, Happening.bornFrom h e = true) ∧
    (∀ h, (Crawler.runOps ops cr []).1.IsTracked h = true →
      ∃ e ∈ (Crawler.runOps ops cr []).2, Happening.bornFrom h e = true) := by
  have hkd : cr.Keyed := by
    unfold Crawler.Keyed OrdersKeyed EntitiesKeyed
    rw [horders, hentities]
    exact ⟨⟨fun _ hp => absurd hp (List.not_mem_nil _), List.nodup_nil⟩,
      ⟨fun _ hp => absurd hp (List.not_mem_nil _), List.nodup_nil⟩⟩
  obtain ⟨r1, r2, r3⟩ := runOps_born ops cr [] hkeep hkd hfair
    (fun p hp => by rw [hentities] at hp; exact absurd hp (List.not_mem_nil _))
    (fun pre post h heq => by
      have := congrArg List.length heq
      simp at this
      omega)
  refine ⟨r3, fun h ht => ?_⟩
  have hmem : h ∈ Map.keys (Crawler.runOps ops cr []).1.entities :=
    (Map.Has_iff_mem_keys _ h).mp ht
  obtain ⟨p, hp, hph⟩ := List.mem_map.mp hmem
  refine r2 p hp h ?_
  rw [r1.2.1 p hp, hph]

/-- C14 as stated fails: with an Order handler that returns nil, leaves
`order.action` None and sets `entity.action` to Remove, `Track(handleA)` and one
pass invoke the Entity handler for `handleA`, although the only `processOrder`
before it neither ran with no handler-set action nor had `entity.action` set
to Update. The crawler starts with empty mappings and its handlers keep the
handles. -/
theorem C14_as_stated_counterexample :
    (Crawler.withHandlers ⟨some discardingHandler, some plainHandler⟩
      DefaultCrawlerSettings).orders = [] ∧
    (Crawler.withHandlers ⟨some discardingHandler, some plainHandler⟩
      DefaultCrawlerSettings).entities = [] ∧
    KeepsHandles discardingHandler ∧ KeepsHandles plainHandler ∧ Env.steady.Fair ∧
    (Crawler.runOps [Op.Track handleA, Op.Pass Env.steady 0]
      (Crawler.withHandlers ⟨some discardingHandler, some plainHandler⟩ DefaultCrawlerSettings)
      []).2
      = [Happening.order ⟨TrackingCommandStart, 0, 0, some handleA, 0⟩
          (some (⟨⟨TrackingActionNone, ⟨TrackingCommandStart, 0, 0, some handleA, 0⟩, none⟩,
                  ⟨TrackingActionRemove, ⟨0, 0, some handleA, 0⟩, none⟩⟩, none))]
        ++ Happening.entity (some handleA) :: [] ∧
    Happening.bornFromAsStated handleA
      (Happening.order ⟨TrackingCommandStart, 0, 0, some handleA, 0⟩
        (some (⟨⟨TrackingActionNone, ⟨TrackingCommandStart, 0, 0, some handleA, 0⟩, none⟩,
                ⟨TrackingActionRemove, ⟨0, 0, some handleA, 0⟩, none⟩⟩, none))) = false :=
  ⟨rfl, rfl, fun _ _ => ⟨rfl, rfl⟩, fun _ _ => ⟨rfl, rfl⟩,
    ⟨fun m => List.Perm.refl m, fun m => List.Perm.refl m⟩, rfl, rfl⟩

/-- C14 (amended) on the same run: the `processOrder` before the Entity handler
call is a birth for `handleA`, because the handler left `order.action` None. -/
theorem C14_entities_born_witness :
    ∃ e ∈ [Happening.order ⟨TrackingCommandStart, 0, 0, some handleA, 0⟩
          (some (⟨⟨TrackingActionNone, ⟨TrackingCommandStart, 0, 0, some handleA, 0⟩, none⟩,
                  ⟨TrackingActionRemove, ⟨0, 0, some handleA, 0⟩, none⟩⟩, none))],
      Happening.bornFrom handleA e = true :=
  (C14_entities_born_from_start_orders
    (Crawler.withHandlers ⟨some discardingHandler, some plainHandler⟩ DefaultCrawlerSettings)
    [Op.Track handleA, Op.Pass Env.steady 0] rfl rfl
    ⟨fun f hf => Option.some.inj hf ▸ fun _ _ => ⟨rfl, rfl⟩,
     fun f hf => Option.some.inj hf ▸ fun _ _ => ⟨rfl, rfl⟩⟩
    (fun env tick hm => by
      simp only [List.mem_cons, List.mem_singleton, Op.Pass.injEq, List.not_mem_nil,
        or_false] at hm
      rcases hm with hm | hm
      · cases hm
      · rw [hm.1]; exact ⟨fun m => List.Perm.refl m, fun m => List.Perm.refl m⟩)).1
    _ [] handleA rfl

/-! ## A failed Start order -/

/-- The statement `x.Attempt++` adds one to a Go `int` below the largest. -/
theorem incAttempt_succ (a : Int) (h0 : minInt64 ≤ a) (h1 : a < maxInt64) :
    incAttempt a = a + 1 := by
  unfold incAttempt wrapInt64
  unfold minInt64 at h0
  unfold maxInt64 at h1
  rw [Int.emod_eq_of_lt (by omega) (by omega)]
  omega

theorem maxAttemptsOf_reached (c a : Int) :
    (maxAttemptsOf c > 0 ∧ a ≥ maxAttemptsOf c) ↔ (c > 0 ∧ a ≥ c) := by
  unfold maxAttemptsOf
  split_ifs <;> constructor <;> intro h <;> omega

/-- The decision taken for a Start order whose handler returned an error. -/
theorem orderStartOutcome_failed (m : Int) (r : TrackingResult) (err : Err)
    (herr : r.Order.Err = some err) :
    (Crawler.orderStartOutcome m r).Order.Err = some err ∧
    (Crawler.orderStartOutcome m r).Order.Value.Attempt = incAttempt r.Order.Value.Attempt ∧
    (Crawler.orderStartOutcome m r).Order.Value.Handle = r.Order.Value.Handle ∧
    (Crawler.orderStartOutcome m r).Entity.Action = TrackingActionNone ∧
    (Crawler.orderStartOutcome m r).Order.Action
      = (if err = Err.InvalidHandle ∨ (m > 0 ∧ incAttempt r.Order.Value.Attempt ≥ m) then
          TrackingActionRemove
        else if r.Order.Action = TrackingActionNone then TrackingActionUpdate
        else r.Order.Action) := by
  unfold Crawler.orderStartOutcome
  rw [herr]
  simp only []
  split_ifs <;> exact ⟨herr, rfl, rfl, rfl, rfl⟩

/-- What `orderHandlerOutput` being `some` says about the call of `processOrder`. -/
theorem orderHandlerOutput_some (cr : Crawler) (env : Env) (w : World) (o : Order)
    (out : TrackingResult × Option Err)
    (hout : Crawler.orderHandlerOutput cr env w o = some out) :
    env.ctxErr w.tick = none ∧
    ¬ (Time.IsZero o.LastProcessing = false ∧
      Time.Sub (env.now w.tick) o.LastProcessing < cr.loadSettings.MinimumTrackingOrderDelay) ∧
    o.Command = TrackingCommandStart ∧
    ∃ f, cr.loadHandlers.Order = some f ∧
      out = f (if Time.IsZero o.LastProcessing then w.tick else w.tick + 1)
        (Crawler.orderPrelude o TrackingResult.zero) := by
  unfold Crawler.orderHandlerOutput at hout
  cases hctx : env.ctxErr w.tick with
  | some e => rw [hctx] at hout; cases hout
  | none =>
    rw [hctx] at hout
    simp only [] at hout
    by_cases hs : (!Time.IsZero o.LastProcessing &&
        decide (Time.Sub (env.now w.tick) o.LastProcessing
          < cr.loadSettings.MinimumTrackingOrderDelay)) = true
    · rw [if_pos hs] at hout; cases hout
    · rw [if_neg hs] at hout
      by_cases hc : o.Command = TrackingCommandStart
      · rw [if_pos hc] at hout
        cases hf : cr.loadHandlers.Order with
        | none => rw [hf] at hout; cases hout
        | some f =>
          rw [hf] at hout
          simp only [Option.some.injEq] at hout
          refine ⟨rfl, ?_, hc, f, rfl, hout.symm⟩
          intro hk
          apply hs
          simp [hk.1, hk.2]
      · rw [if_neg hc] at hout; cases hout

/-- C21. Take a Start order that reaches its handler (context not cancelled,
minimum delay not applying) and whose handler returns the error `err`, leaving
the result as `r`. Then `processOrder` returns nil with `err` in `Order.Err`;
the attempt of the result is the attempt the handler left, incremented (so the
order's attempt plus one when the handler left it alone and it is below the
largest `int`); `entity.action` is None whatever the handler preset, and
committing the result leaves the entities mapping as it was; `order.action` is
Remove when `err` is `InvalidHandle` or `MaximumTrackingOrderAttempts > 0` and
the incremented attempt has reached it, and otherwise the action the handler
preset, or Update if it preset none. In particular, unless the handler itself
preset Remove, `order.action` is Remove exactly in the first case. -/
theorem C21_failed_start_order (cr : Crawler) (env : Env) (w : World) (order : Order)
    (r : TrackingResult) (err : Err)
    (hout : Crawler.orderHandlerOutput cr env w order = some (r, some err)) :
    (Crawler.processOrder cr env w order TrackingResult.zero).2.2 = none ∧
    (Crawler.processOrder cr env w order TrackingResult.zero).2.1.Order.Err = some err ∧
    (Crawler.processOrder cr env w order TrackingResult.zero).2.1.Order.Value.Attempt
      = incAttempt r.Order.Value.Attempt ∧
    (r.Order.Value.Attempt = order.Attempt → minInt64 ≤ order.Attempt →
      order.Attempt < maxInt64 →
      (Crawler.processOrder cr env w order TrackingResult.zero).2.1.Order.Value.Attempt
        = order.Attempt + 1) ∧
    (Crawler.processOrder cr env w order TrackingResult.zero).2.1.Entity.Action
      = TrackingActionNone ∧
    (Crawler.commitTrackingResult cr
      (Crawler.processOrder cr env w order TrackingResult.zero).2.1).entities = cr.entities ∧
    (Crawler.processOrder cr env w order TrackingResult.zero).2.1.Order.Action
      = (if err = Err.InvalidHandle ∨ (cr.loadSettings.MaximumTrackingOrderAttempts > 0 ∧
            (Crawler.processOrder cr env w order TrackingResult.zero).2.1.Order.Value.Attempt
              ≥ cr.loadSettings.MaximumTrackingOrderAttempts) then TrackingActionRemove
        else if r.Order.Action = TrackingActionNone then TrackingActionUpdate
        else r.Order.Action) ∧
    (r.Order.Action ≠ TrackingActionRemove →
      ((Crawler.processOrder cr env w order TrackingResult.zero).2.1.Order.Action
          = TrackingActionRemove ↔
        (err = Err.InvalidHandle ∨ (cr.loadSettings.MaximumTrackingOrderAttempts > 0 ∧
          (Crawler.processOrder cr env w order TrackingResult.zero).2.1.Order.Value.Attempt
            ≥ cr.loadSettings.MaximumTrackingOrderAttempts)))) := by
  obtain ⟨hctx, hproc, hcmd, f, hf, hfo⟩ := orderHandlerOutput_some cr env w order _ hout
  have hc : (Crawler.orderPrelude order TrackingResult.zero).Order.Value.Command
      = TrackingCommandStart := hcmd
  have h1 : (f (if Time.IsZero order.LastProcessing then w.tick else w.tick + 1)
      (Crawler.orderPrelude order TrackingResult.zero)).1 = r := by rw [← hfo]
  have h2 : (f (if Time.IsZero order.LastProcessing then w.tick else w.tick + 1)
      (Crawler.orderPrelude order TrackingResult.zero)).2 = some err := by rw [← hfo]
  obtain ⟨o1, o2, _, o4, o5⟩ := orderStartOutcome_failed
    (maxAttemptsOf cr.loadSettings.MaximumTrackingOrderAttempts)
    { r with Order := { r.Order with Err := some err } } err rfl
  have e0 : (Crawler.processOrder cr env w order TrackingResult.zero).2.1
      = { Crawler.orderStartOutcome (maxAttemptsOf cr.loadSettings.MaximumTrackingOrderAttempts)
            { r with Order := { r.Order with Err := some err } } with
          Order := { (Crawler.orderStartOutcome
              (maxAttemptsOf cr.loadSettings.MaximumTrackingOrderAttempts)
              { r with Order := { r.Order with Err := some err } }).Order with
            Value := { (Crawler.orderStartOutcome
                (maxAttemptsOf cr.loadSettings.MaximumTrackingOrderAttempts)
                { r with Order := { r.Order with Err := some err } }).Order.Value with
              LastProcessing := env.now
                ((if Time.IsZero order.LastProcessing then w.tick else w.tick + 1) + 1) } } } := by
    rw [processOrder_processed cr env w order _ hctx hproc]
    simp only [Crawler.orderBody, Crawler.orderSwitch, hc, if_true, hf, h1, h2]
  have a1 : (Crawler.processOrder cr env w order TrackingResult.zero).2.1.Order.Value.Attempt
      = incAttempt r.Order.Value.Attempt := by rw [e0]; exact o2
  have a2 : (Crawler.processOrder cr env w order TrackingResult.zero).2.1.Entity.Action
      = TrackingActionNone := by rw [e0]; exact o4
  have a3 : (Crawler.processOrder cr env w order TrackingResult.zero).2.1.Order.Action
      = (if err = Err.InvalidHandle ∨ (cr.loadSettings.MaximumTrackingOrderAttempts > 0 ∧
            (Crawler.processOrder cr env w order TrackingResult.zero).2.1.Order.Value.Attempt
              ≥ cr.loadSettings.MaximumTrackingOrderAttempts) then TrackingActionRemove
        else if r.Order.Action = TrackingActionNone then TrackingActionUpdate
        else r.Order.Action) := by
    rw [a1, e0]
    show (Crawler.orderStartOutcome _ _).Order.Action = _
    rw [o5]
    simp only [maxAttemptsOf_reached]
  refine ⟨processOrder_err_live cr env w order _ hctx, ?_, a1, ?_, a2,
    commitEntities_noAction _ _ a2, a3, ?_⟩
  · rw [e0]; exact o1
  · intro hk hlo hhi
    rw [a1, hk, incAttempt_succ _ hlo hhi]
  · intro hne
    rw [a3]
    constructor
    · intro h
      by_contra hcond
      rw [if_neg hcond] at h
      split_ifs at h with hn
      · exact absurd h (by decide)
      · exact hne h
    · intro hcond
      rw [if_pos hcond]

/-- C21 on two calls with `MaximumTrackingOrderAttempts = 3`: a handler that
presets both actions to Update and fails with `InvalidHandle` on a first
attempt; a handler that fails with another error on the attempt after the
second, and on a first attempt. -/
theorem C21_failed_start_order_witness :
    (Crawler.processOrder (Crawler.withHandlers ⟨some rejectingHandler, none⟩ DefaultCrawlerSettings)
        Env.steady ⟨0, []⟩ ⟨TrackingCommandStart, 0, 0, some handleA, 0⟩
        TrackingResult.zero).2.1.Entity.Action = TrackingActionNone ∧
    (Crawler.processOrder (Crawler.withHandlers ⟨some rejectingHandler, none⟩ DefaultCrawlerSettings)
        Env.steady ⟨0, []⟩ ⟨TrackingCommandStart, 0, 0, some handleA, 0⟩
        TrackingResult.zero).2.1.Order.Action = TrackingActionRemove ∧
    (Crawler.processOrder (Crawler.withHandlers ⟨some failingHandler, none⟩ DefaultCrawlerSettings)
        Env.steady ⟨0, []⟩ ⟨TrackingCommandStart, 2, 0, some handleA, 0⟩
        TrackingResult.zero).2.1.Order.Value.Attempt = 3 ∧
    (Crawler.processOrder (Crawler.withHandlers ⟨some failingHandler, none⟩ DefaultCrawlerSettings)
        Env.steady ⟨0, []⟩ ⟨TrackingCommandStart, 2, 0, some handleA, 0⟩
        TrackingResult.zero).2.1.Order.Action = TrackingActionRemove ∧
    (Crawler.processOrder (Crawler.withHandlers ⟨some failingHandler, none⟩ DefaultCrawlerSettings)
        Env.steady ⟨0, []⟩ ⟨TrackingCommandStart, 0, 0, some handleA, 0⟩
        TrackingResult.zero).2.1.Order.Value.Attempt = 1 ∧
    (Crawler.processOrder (Crawler.withHandlers ⟨some failingHandler, none⟩ DefaultCrawlerSettings)
        Env.steady ⟨0, []⟩ ⟨TrackingCommandStart, 0, 0, some handleA, 0⟩
        TrackingResult.zero).2.1.Order.Action = TrackingActionUpdate :=
  have a := C21_failed_start_order
    (Crawler.withHandlers ⟨some rejectingHandler, none⟩ DefaultCrawlerSettings)
    Env.steady ⟨0, []⟩ ⟨TrackingCommandStart, 0, 0, some handleA, 0⟩ _ Err.InvalidHandle rfl
  have b := C21_failed_start_order
    (Crawler.withHandlers ⟨some failingHandler, none⟩ DefaultCrawlerSettings)
    Env.steady ⟨0, []⟩ ⟨TrackingCommandStart, 2, 0, some handleA, 0⟩ _ (Err.other 1) rfl
  have c := C21_failed_start_order
    (Crawler.withHandlers ⟨some failingHandler, none⟩ DefaultCrawlerSettings)
    Env.steady ⟨0, []⟩ ⟨TrackingCommandStart, 0, 0, some handleA, 0⟩ _ (Err.other 1) rfl
  ⟨a.2.2.2.2.1, a.2.2.2.2.2.2.1.trans rfl,
    b.2.2.2.1 rfl (by decide) (by decide), b.2.2.2.2.2.2.1.trans rfl,
    c.2.2.2.1 rfl (by decide) (by decide), c.2.2.2.2.2.2.1.trans rfl⟩

/-! ## Committing a tracking result -/

theorem commitOrders_invalid (m : Map Handle Order) (tr : TrackingResult) (h : Handle)
    (hk : tr.Order.Value.Handle = some h) (hv : h.Valid = false) : commitOrders m tr = m := by
  unfold commitOrders
  rw [hk]
  simp [hv]

theorem commitEntities_noHandle (m : Map Handle Entity) (tr : TrackingResult)
    (hk : tr.Entity.Value.Handle = none) : commitEntities m tr = m := by
  unfold commitEntities
  rw [hk]

theorem commitEntities_invalid (m : Map Handle Entity) (tr : TrackingResult) (h : Handle)
    (hk : tr.Entity.Value.Handle = some h) (hv : h.Valid = false) : commitEntities m tr = m := by
  unfold commitEntities
  rw [hk]
  simp [hv]

theorem commitOrders_eq (m : Map Handle Order) (tr : TrackingResult) (h : Handle)
    (hk : tr.Order.Value.Handle = some h) (hv : h.Valid = true) :
    (tr.Order.Action = TrackingActionRemove → commitOrders m tr = Map.Delete m h) ∧
    (tr.Order.Action = TrackingActionUpdate → commitOrders m tr = Map.Store m h tr.Order.Value) := by
  unfold commitOrders
  rw [hk]
  simp only [hv, if_true]
  constructor
  · intro ha; rw [if_pos ha]
  · intro ha; rw [if_neg (by rw [ha]; decide), if_pos ha]

theorem commitEntities_eq (m : Map Handle Entity) (tr : TrackingResult) (h : Handle)
    (hk : tr.Entity.Value.Handle = some h) (hv : h.Valid = true) :
    (tr.Entity.Action = TrackingActionRemove → commitEntities m tr = Map.Delete m h) ∧
    (tr.Entity.Action = TrackingActionUpdate →
      commitEntities m tr = Map.Store m h tr.Entity.Value) := by
  unfold commitEntities
  rw [hk]
  simp only [hv, if_true]
  constructor
  · intro ha; rw [if_pos ha]
  · intro ha; rw [if_neg (by rw [ha]; decide), if_pos ha]

/-- C22. `commitTrackingResult` on any crawler and any tracking result.
Order half, when the carried handle `h` is non-nil and valid: action Remove
makes the orders mapping the old one with `h` deleted (so `h` is no longer a
key), Update makes it the old one with the carried order stored under `h` (so
`h` loads that order), None leaves it as it was, and in every case each key
other than `h` loads what it loaded before. When the carried handle is nil or
not valid the orders mapping is as it was, whatever the action. The entity
half does the same to the entities mapping with the handle carried by the
entity. The two halves are independent: the orders mapping after the commit
depends only on the order half of the result and the entities mapping only on
the entity half. Nothing else of the crawler changes. -/
theorem C22_commit_applies_each_half (cr : Crawler) (tr : TrackingResult) :
    (∀ h, tr.Order.Value.Handle = some h → h.Valid = true →
      (tr.Order.Action = TrackingActionRemove →
        (Crawler.commitTrackingResult cr tr).orders = Map.Delete cr.orders h ∧
        Map.Has (Crawler.commitTrackingResult cr tr).orders h = false) ∧
      (tr.Order.Action = TrackingActionUpdate →
        (Crawler.commitTrackingResult cr tr).orders = Map.Store cr.orders h tr.Order.Value ∧
        Map.Load (Crawler.commitTrackingResult cr tr).orders h = some tr.Order.Value) ∧
      (tr.Order.Action = TrackingActionNone →
        (Crawler.commitTrackingResult cr tr).orders = cr.orders) ∧
      (∀ k, k ≠ h →
        Map.Load (Crawler.commitTrackingResult cr tr).orders k = Map.Load cr.orders k ∧
        Map.Has (Crawler.commitTrackingResult cr tr).orders k = Map.Has cr.orders k)) ∧
    (tr.Order.Value.Handle = none → (Crawler.commitTrackingResult cr tr).orders = cr.orders) ∧
    (∀ h, tr.Order.Value.Handle = some h → h.Valid = false →
      (Crawler.commitTrackingResult cr tr).orders = cr.orders) ∧
    (∀ h, tr.Entity.Value.Handle = some h → h.Valid = true →
      (tr.Entity.Action = TrackingActionRemove →
        (Crawler.commitTrackingResult cr tr).entities = Map.Delete cr.entities h ∧
        Map.Has (Crawler.commitTrackingResult cr tr).entities h = false) ∧
      (tr.Entity.Action = TrackingActionUpdate →
        (Crawler.commitTrackingResult cr tr).entities
          = Map.Store cr.entities h tr.Entity.Value ∧
        Map.Load (Crawler.commitTrackingResult cr tr).entities h = some tr.Entity.Value) ∧
      (tr.Entity.Action = TrackingActionNone →
        (Crawler.commitTrackingResult cr tr).entities = cr.entities) ∧
      (∀ k, k ≠ h →
        Map.Load (Crawler.commitTrackingResult cr tr).entities k = Map.Load cr.entities k ∧
        Map.Has (Crawler.commitTrackingResult cr tr).entities k = Map.Has cr.entities k)) ∧
    (tr.Entity.Value.Handle = none →
      (Crawler.commitTrackingResult cr tr).entities = cr.entities) ∧
    (∀ h, tr.Entity.Value.Handle = some h → h.Valid = false →
      (Crawler.commitTrackingResult cr tr).entities = cr.entities) ∧
    (∀ tr2 : TrackingResult, tr2.Order = tr.Order →
      (Crawler.commitTrackingResult cr tr2).orders = (Crawler.commitTrackingResult cr tr).orders) ∧
    (∀ tr2 : TrackingResult, tr2.Entity = tr.Entity →
      (Crawler.commitTrackingResult cr tr2).entities
        = (Crawler.commitTrackingResult cr tr).entities) ∧
    (Crawler.commitTrackingResult cr tr).handlers = cr.handlers ∧
    (Crawler.commitTrackingResult cr tr).settings = cr.settings ∧
    (Crawler.commitTrackingResult cr tr).session = cr.session ∧
    (Crawler.commitTrackingResult cr tr).heap = cr.heap := by
  refine ⟨?_, fun hk => commitOrders_noHandle _ _ hk, fun h hk hv => commitOrders_invalid _ _ h hk hv,
    ?_, fun hk => commitEntities_noHandle _ _ hk,
    fun h hk hv => commitEntities_invalid _ _ h hk hv, ?_, ?_, rfl, rfl, rfl, rfl⟩
  · intro h hk hv
    refine ⟨fun ha => ⟨(commitOrders_eq _ _ h hk hv).1 ha, commitOrders_remove _ _ h hk hv ha⟩,
      fun ha => ⟨(commitOrders_eq _ _ h hk hv).2 ha, commitOrders_update _ _ h hk hv ha⟩,
      fun ha => commitOrders_noAction _ _ ha, fun k hne => ?_⟩
    obtain ⟨f1, f2⟩ := commitOrders_frame cr.orders tr h k hk hne
    exact ⟨f2, f1⟩
  · intro h hk hv
    refine ⟨fun ha => ⟨(commitEntities_eq _ _ h hk hv).1 ha, commitEntities_remove _ _ h hk hv ha⟩,
      fun ha => ⟨(commitEntities_eq _ _ h hk hv).2 ha, ?_⟩,
      fun ha => commitEntities_noAction _ _ ha, fun k hne => ?_⟩
    · show Map.Load (commitEntities cr.entities tr) h = some tr.Entity.Value
      rw [(commitEntities_eq _ _ h hk hv).2 ha]
      exact Map.Load_Store_self _ _ _
    · obtain ⟨f1, f2⟩ := commitEntities_frame cr.entities tr h k hk hne
      exact ⟨f2, f1⟩
  · intro tr2 he
    show commitOrders cr.orders tr2 = commitOrders cr.orders tr
    unfold commitOrders
    rw [he]
  · intro tr2 he
    show commitEntities cr.entities tr2 = commitEntities cr.entities tr
    unfold commitEntities
    rw [he]

/-- C22 on the crawler that tracks `handleB` and holds an order for `handleC`:
a result that removes the order of `handleC` and updates the entity of
`handleA`; and a result with the same actions whose order handle is not valid
and whose entity handle is nil. -/
theorem C22_commit_witness :
    (Crawler.commitTrackingResult Crawler.busy
      ⟨⟨TrackingActionRemove, ⟨TrackingCommandStart, 0, 0, some handleC, 0⟩, none⟩,
       ⟨TrackingActionUpdate, ⟨0, 0, some handleA, 7⟩, none⟩⟩).orders = [] ∧
    (Crawler.commitTrackingResult Crawler.busy
      ⟨⟨TrackingActionRemove, ⟨TrackingCommandStart, 0, 0, some handleC, 0⟩, none⟩,
       ⟨TrackingActionUpdate, ⟨0, 0, some handleA, 7⟩, none⟩⟩).entities
      = [(handleB, ⟨0, 0, some handleB, 0⟩), (handleA, ⟨0, 0, some handleA, 7⟩)] ∧
    (Crawler.commitTrackingResult Crawler.busy
      ⟨⟨TrackingActionRemove, ⟨TrackingCommandStart, 0, 0, some ⟨3, false⟩, 0⟩, none⟩,
       ⟨TrackingActionUpdate, ⟨0, 0, none, 7⟩, none⟩⟩).orders = Crawler.busy.orders ∧
    (Crawler.commitTrackingResult Crawler.busy
      ⟨⟨TrackingActionRemove, ⟨TrackingCommandStart, 0, 0, some ⟨3, false⟩, 0⟩, none⟩,
       ⟨TrackingActionUpdate, ⟨0, 0, none, 7⟩, none⟩⟩).entities = Crawler.busy.entities :=
  have a := C22_commit_applies_each_half Crawler.busy
    ⟨⟨TrackingActionRemove, ⟨TrackingCommandStart, 0, 0, some handleC, 0⟩, none⟩,
     ⟨TrackingActionUpdate, ⟨0, 0, some handleA, 7⟩, none⟩⟩
  have b := C22_commit_applies_each_half Crawler.busy
    ⟨⟨TrackingActionRemove, ⟨TrackingCommandStart, 0, 0, some ⟨3, false⟩, 0⟩, none⟩,
     ⟨TrackingActionUpdate, ⟨0, 0, none, 7⟩, none⟩⟩
  ⟨((a.1 handleC rfl rfl).1 rfl).1.trans rfl, ((a.2.2.2.1 handleA rfl rfl).2.1 rfl).1.trans rfl,
    b.2.2.1 ⟨3, false⟩ rfl rfl, b.2.2.2.2.1 rfl⟩

end crawly

namespace csync

/-! ## Listeners and their channels -/

theorem Map.mem_of_Load {K V : Type} [DecidableEq K] (m : Map K V) (k : K) (v : V)
    (h : Map.Load m k = some v) : (k, v) ∈ m := by
  unfold Map.Load at h
  rw [Option.map_eq_some'] at h
  obtain ⟨p, hp, hv⟩ := h
  have hm := List.mem_of_find?_eq_some hp
  have hk := List.find?_some hp
  simp only [decide_eq_true_eq] at hk
  have : p = (k, v) := by
    rw [← hk, ← hv]
  rw [← this]; exact hm

theorem Heap.close_spec {V : Type} (h h1 : Heap V) (c : Nat) (hh : h.close c = Except.ok h1) :
    h1.lsts = h.lsts ∧ h1.chans.length = h.chans.length ∧
    (c < h.chans.length → (h1.chan c).closed = true) ∧
    (∀ d, d ≠ c → h1.chan d = h.chan d) ∧
    (∀ d, (h.chan d).closed = true → (h1.chan d).closed = true) ∧
    (h.chan c).closed = false := by
  unfold Heap.close at hh
  split_ifs at hh with hcl
  cases hh
  refine ⟨rfl, ?_, ?_, ?_, ?_, by simpa using hcl⟩
  · simp [Heap.setChan]
  · intro hc
    simp [Heap.chan, Heap.setChan, List.getD_eq_getElem?_getD, hc]
  · intro d hd
    simp [Heap.chan, Heap.setChan, List.getD_eq_getElem?_getD, List.getElem?_set_ne (Ne.symm hd)]
  · intro d hd
    by_cases e : d = c
    · subst e; rw [hd] at hcl; exact absurd rfl hcl
    · simp only [Heap.chan, Heap.setChan, List.getD_eq_getElem?_getD,
        List.getElem?_set_ne (Ne.symm e)]
      simpa only [Heap.chan, List.getD_eq_getElem?_getD] using hd

theorem Heap.close_ok {V : Type} (h : Heap V) (c : Nat) (hc : (h.chan c).closed = false) :
    ∃ h1, h.close c = Except.ok h1 := by
  unfold Heap.close
  rw [if_neg (by simp [hc])]
  exact ⟨_, rfl⟩

/-- The two ways `DiscardListener` returns. -/
theorem DiscardListener_cases {V : Type} (h h1 : Heap V) (b l : Nat)
    (hh : broadcaster.DiscardListener h b (some l) = Except.ok h1) :
    (Map.Load (h.bc b).listeners l = none ∧ h1 = h) ∨
    (∃ ch, Map.Load (h.bc b).listeners l = some ch ∧
      (h.setBc b { h.bc b with listeners := Map.Delete (h.bc b).listeners l }).close ch
        = Except.ok h1) := by
  unfold broadcaster.DiscardListener at hh
  simp only [Map.LoadAndDelete] at hh
  cases hld : Map.Load (h.bc b).listeners l with
  | none =>
    rw [hld] at hh
    simp only [Except.ok.injEq] at hh
    exact Or.inl ⟨rfl, hh.symm⟩
  | some ch =>
    rw [hld] at hh
    exact Or.inr ⟨ch, rfl, hh⟩

/-- `DiscardListener` changes no listener object and reopens no channel. -/
theorem DiscardListener_frame {V : Type} (h h1 : Heap V) (b : Nat) (l : Option Nat)
    (hh : broadcaster.DiscardListener h b l = Except.ok h1) :
    h1.lsts = h.lsts ∧ h1.chans.length = h.chans.length ∧
    (∀ d, (h.chan d).closed = true → (h1.chan d).closed = true) := by
  cases l with
  | none =>
    simp only [broadcaster.DiscardListener, Except.ok.injEq] at hh
    rw [← hh]; exact ⟨rfl, rfl, fun _ hd => hd⟩
  | some l =>
    rcases DiscardListener_cases h h1 b l hh with ⟨_, e⟩ | ⟨ch, _, hc⟩
    · rw [e]; exact ⟨rfl, rfl, fun _ hd => hd⟩
    · obtain ⟨c1, c2, _, _, c5, _⟩ := Heap.close_spec _ h1 ch hc
      exact ⟨c1, c2, c5⟩

theorem discardAll_frame {V : Type} (b : Nat) :
    ∀ (ls : List (Nat × Nat)) (h h1 : Heap V),
      broadcaster.discardAll b ls h = Except.ok h1 →
      h1.lsts = h.lsts ∧ h1.chans.length = h.chans.length ∧
      (∀ d, (h.chan d).closed = true → (h1.chan d).closed = true) := by
  intro ls
  induction ls with
  | nil => intro h h1 hh; cases hh; exact ⟨rfl, rfl, fun _ hd => hd⟩
  | cons p rest ih =>
    intro h h1 hh
    obtain ⟨l, ch⟩ := p
    rw [broadcaster.discardAll] at hh
    cases hd : broadcaster.DiscardListener h b (some l) with
    | error p => rw [hd] at hh; cases hh
    | ok h2 =>
      rw [hd] at hh
      obtain ⟨a1, a2, a3⟩ := DiscardListener_frame h h2 b _ hd
      obtain ⟨b1, b2, b3⟩ := ih h2 h1 hh
      exact ⟨b1.trans a1, b2.trans a2, fun d hdc => b3 d (a3 d hdc)⟩

theorem Discard_frame {V : Type} (h h1 : Heap V) (b : Nat)
    (hh : broadcaster.Discard h b = Except.ok h1) :
    h1.lsts = h.lsts ∧ h1.chans.length = h.chans.length ∧
    (∀ d, (h.chan d).closed = true → (h1.chan d).closed = true) := by
  unfold broadcaster.Discard at hh
  split_ifs at hh
  · cases hh; exact ⟨rfl, rfl, fun _ hd => hd⟩
  · obtain ⟨a1, a2, a3⟩ := discardAll_frame b _ _ h1 hh
    exact ⟨a1, a2, a3⟩


theorem List.getD_concat_length {α : Type} (A : List α) (x d : α) :
    (A ++ [x]).getD A.length d = x := by
  simp [List.getD_eq_getElem?_getD]

theorem List.getD_concat_lt {α : Type} (A : List α) (x d : α) (i : Nat) (hi : i < A.length) :
    (A ++ [x]).getD i d = A.getD i d := by
  simp [List.getD_eq_getElem?_getD, List.getElem?_append_left hi]

theorem List.getD_concat_gt {α : Type} (A : List α) (x d : α) (i : Nat) (hi : A.length < i) :
    (A ++ [x]).getD i d = d := by
  rw [List.getD_eq_getElem?_getD, List.getElem?_eq_none]
  · rfl
  · simp; omega

theorem Map.Delete_of_Load_none {K V : Type} [DecidableEq K] (m : Map K V) (k : K)
    (h : Map.Load m k = none) : Map.Delete m k = m := by
  unfold Map.Load at h
  rw [Option.map_eq_none', List.find?_eq_none] at h
  unfold Map.Delete
  rw [List.filter_eq_self]
  intro a ha
  have := h a ha
  simpa using this

/-- What `Listen` returns and allocates. -/
theorem Listen_spec {V : Type} (h h1 : Heap V) (b l : Nat)
    (hl : broadcaster.Listen h b = Except.ok (h1, l)) :
    l = h.lsts.length ∧
    h1.lsts = h.lsts ++ [⟨h.chans.length, b, (h.bc b).closed⟩] ∧
    h1.chans = h.chans ++ [⟨(h.bc b).capacity.toNat, [], [], (h.bc b).closed⟩] ∧
    h1.bcs.length = h.bcs.length ∧
    (b < h.bcs.length →
      h1.bc b = { h.bc b with
        listeners := Map.Store (h.bc b).listeners h.lsts.length h.chans.length }) := by
  unfold broadcaster.Listen at hl
  split_ifs at hl
  simp only [Except.ok.injEq, Prod.mk.injEq] at hl
  obtain ⟨e1, e2⟩ := hl
  rw [← e1, ← e2]
  refine ⟨rfl, rfl, rfl, by simp [Heap.setBc], fun hb => ?_⟩
  exact Heap.bc_setBc _ b _ hb

/-- The listener `Listen` returns: its flag and the flag of its channel are
those of the broadcaster at the time of the call. -/
theorem Listen_flags {V : Type} (h h1 : Heap V) (b l : Nat)
    (hl : broadcaster.Listen h b = Except.ok (h1, l)) :
    h1.lst l = ⟨h.chans.length, b, (h.bc b).closed⟩ ∧
    h1.chan h.chans.length = ⟨(h.bc b).capacity.toNat, [], [], (h.bc b).closed⟩ ∧
    listener.Closed h1 l = (h.bc b).closed ∧
    listener.channelClosed h1 l = (h.bc b).closed := by
  obtain ⟨e1, e2, e3, _, _⟩ := Listen_spec h h1 b l hl
  have a1 : h1.lst l = ⟨h.chans.length, b, (h.bc b).closed⟩ := by
    unfold Heap.lst
    rw [e2, e1, List.getD_concat_length]
  have a2 : h1.chan h.chans.length = ⟨(h.bc b).capacity.toNat, [], [], (h.bc b).closed⟩ := by
    unfold Heap.chan
    rw [e3, List.getD_concat_length]
  refine ⟨a1, a2, ?_, ?_⟩
  · unfold listener.Closed; rw [a1]
  · unfold listener.channelClosed listener.Channel; rw [a1]; simp only []; rw [a2]

/-- What `DiscardListener` does to the broadcaster it is called on. -/
theorem DiscardListener_bc {V : Type} (h h1 : Heap V) (b l : Nat) (hb : b < h.bcs.length)
    (hh : broadcaster.DiscardListener h b (some l) = Except.ok h1) :
    h1.bcs.length = h.bcs.length ∧
    (h1.bc b).listeners = Map.Delete (h.bc b).listeners l ∧
    (h1.bc b).closed = (h.bc b).closed := by
  rcases DiscardListener_cases h h1 b l hh with ⟨hn, e⟩ | ⟨ch, _, hc⟩
  · rw [e, Map.Delete_of_Load_none _ _ hn]; exact ⟨rfl, rfl, rfl⟩
  · have hbcs := Heap.close_bcs _ h1 ch hc
    have hbc : h1.bc b = { h.bc b with listeners := Map.Delete (h.bc b).listeners l } := by
      unfold Heap.bc
      rw [hbcs]
      exact Heap.bc_setBc h b _ hb
    refine ⟨?_, ?_, ?_⟩
    · rw [hbcs]; simp [Heap.setBc]
    · rw [hbc]
    · rw [hbc]

/-- The `Range` loop of `Discard` closes the channel stored for a listener it
visits. -/
theorem discardAll_closes {V : Type} (b l ch : Nat) :
    ∀ (ls : List (Nat × Nat)) (h h1 : Heap V),
      broadcaster.discardAll b ls h = Except.ok h1 → b < h.bcs.length → ch < h.chans.length →
      ((h.chan ch).closed = true ∨ Map.Load (h.bc b).listeners l = some ch) →
      l ∈ ls.map Prod.fst → (h1.chan ch).closed = true := by
  intro ls
  induction ls with
  | nil => intro h h1 _ _ _ _ hm; simp at hm
  | cons p rest ih =>
    intro h h1 hh hb hch hP hm
    obtain ⟨l', c'⟩ := p
    rw [broadcaster.discardAll] at hh
    cases hd : broadcaster.DiscardListener h b (some l') with
    | error p => rw [hd] at hh; cases hh
    | ok h2 =>
      rw [hd] at hh
      obtain ⟨f1, f2, f3⟩ := DiscardListener_frame h h2 b _ hd
      obtain ⟨g1, g2, _⟩ := DiscardListener_bc h h2 b l' hb hd
      obtain ⟨_, _, k3⟩ := discardAll_frame b rest h2 h1 hh
      by_cases e : l' = l
      · subst e
        apply k3
        rcases hP with hc | hl
        · exact f3 ch hc
        · rcases DiscardListener_cases h h2 b l' hd with ⟨hn, _⟩ | ⟨c2, hc2, hcl⟩
          · rw [hn] at hl; cases hl
          · rw [hl] at hc2
            cases hc2
            exact (Heap.close_spec _ h2 ch hcl).2.2.1 hch
      · have hm' : l ∈ rest.map Prod.fst := by
          simp only [List.map_cons, List.mem_cons] at hm
          rcases hm with hm | hm
          · exact absurd hm.symm e
          · exact hm
        refine ih h2 h1 hh (by rw [g1]; exact hb) (by rw [f2]; exact hch) ?_ hm'
        rcases hP with hc | hl
        · exact Or.inl (f3 ch hc)
        · right
          rw [g2, Map.Load_Delete_ne _ _ _ (Ne.symm e)]
          exact hl

end csync

namespace crawly
open csync

/-- On a broadcaster whose listeners are in order, `DiscardListener` returns
and leaves them in order. -/
theorem DiscardListener_intact {V : Type} (h : Heap V) (b l : Nat) (hb : b < h.bcs.length)
    (hint : ListenersIntact h b) :
    ∃ h1, broadcaster.DiscardListener h b (some l) = Except.ok h1 ∧
      h1.bcs.length = h.bcs.length ∧ ListenersIntact h1 b := by
  cases hld : Map.Load (h.bc b).listeners l with
  | none =>
    refine ⟨h, ?_, rfl, hint⟩
    unfold broadcaster.DiscardListener
    simp only [Map.LoadAndDelete, hld]
  | some ch =>
    have hmem := Map.mem_of_Load _ _ _ hld
    obtain ⟨hlt, hopen⟩ := hint.1 _ hmem
    obtain ⟨h1, hc⟩ := Heap.close_ok
      (h.setBc b { h.bc b with listeners := Map.Delete (h.bc b).listeners l }) ch hopen
    have hd : broadcaster.DiscardListener h b (some l) = Except.ok h1 := by
      unfold broadcaster.DiscardListener
      simp only [Map.LoadAndDelete, hld]
      exact hc
    obtain ⟨g1, g2, _⟩ := DiscardListener_bc h h1 b l hb hd
    obtain ⟨_, c2, _, c4, _, _⟩ := Heap.close_spec _ h1 ch hc
    refine ⟨h1, hd, g1, ?_, ?_⟩
    · intro p hp
      rw [g2] at hp
      obtain ⟨hp1, hp2⟩ := (Map.mem_Delete _ l p).mp hp
      obtain ⟨q1, q2⟩ := hint.1 p hp1
      have hne : p.2 ≠ ch := fun e => hp2 (hint.2 p hp1 (l, ch) hmem e)
      refine ⟨by rw [c2]; exact q1, ?_⟩
      rw [c4 p.2 hne]
      exact q2
    · intro p hp q hq hpq
      rw [g2] at hp hq
      exact hint.2 p ((Map.mem_Delete _ l p).mp hp).1 q ((Map.mem_Delete _ l q).mp hq).1 hpq

theorem discardAll_ok {V : Type} (b : Nat) :
    ∀ (ls : List (Nat × Nat)) (h : Heap V), b < h.bcs.length → ListenersIntact h b →
      ∃ h1, broadcaster.discardAll b ls h = Except.ok h1 := by
  intro ls
  induction ls with
  | nil => intro h _ _; exact ⟨h, rfl⟩
  | cons p rest ih =>
    intro h hb hint
    obtain ⟨l, c⟩ := p
    obtain ⟨h2, hd, hb2, hint2⟩ := DiscardListener_intact h b l hb hint
    obtain ⟨h1, hr⟩ := ih h2 (by rw [hb2]; exact hb) hint2
    refine ⟨h1, ?_⟩
    rw [broadcaster.discardAll, hd]
    exact hr

/-- `Listen` on an open broadcaster whose listeners are in order leaves them in
order. -/
theorem Listen_intact {V : Type} (h h1 : Heap V) (b l : Nat) (hb : b < h.bcs.length)
    (hopen : (h.bc b).closed = false) (hint : ListenersIntact h b)
    (hl : broadcaster.Listen h b = Except.ok (h1, l)) : ListenersIntact h1 b := by
  obtain ⟨_, _, e3, _, e5⟩ := Listen_spec h h1 b l hl
  obtain ⟨_, a2, _, _⟩ := Listen_flags h h1 b l hl
  have hbc := e5 hb
  have hlen : h1.chans.length = h.chans.length + 1 := by rw [e3]; simp
  have hold : ∀ c, c < h.chans.length → h1.chan c = h.chan c := by
    intro c hc
    unfold Heap.chan
    rw [e3, List.getD_concat_lt _ _ _ _ hc]
  have hentry : ∀ p ∈ (h1.bc b).listeners,
      p = (h.lsts.length, h.chans.length) ∨ p ∈ (h.bc b).listeners := by
    intro p hp
    rw [hbc] at hp
    rcases Map.mem_Store _ _ _ p hp with e | e
    · exact Or.inl e
    · exact Or.inr e.1
  constructor
  · intro p hp
    rcases hentry p hp with e | e
    · rw [e]
      refine ⟨by rw [hlen]; exact Nat.lt_succ_self _, ?_⟩
      show (h1.chan h.chans.length).closed = false
      rw [a2]; exact hopen
    · obtain ⟨q1, q2⟩ := hint.1 p e
      refine ⟨by rw [hlen]; omega, ?_⟩
      rw [hold p.2 q1]; exact q2
  · intro p hp q hq hpq
    rcases hentry p hp with e | e <;> rcases hentry q hq with f | f
    · rw [e, f]
    · exfalso
      have := (hint.1 q f).1
      rw [← hpq, e] at this
      exact Nat.lt_irrefl _ this
    · exfalso
      have := (hint.1 p e).1
      rw [hpq, f] at this
      exact Nat.lt_irrefl _ this
    · exact hint.2 p e q f hpq

end crawly

namespace csync

theorem sendOne_lsts {V : Type} (env : SendEnv) (report : Bool) (value : V) (h h1 : Heap V)
    (r r1 : broadcasterReport) (l ch : Nat)
    (hh : broadcaster.sendOne env report value h r l ch = Except.ok (h1, r1)) :
    h1.lsts = h.lsts := by
  unfold broadcaster.sendOne at hh
  split_ifs at hh <;> simp only [Except.ok.injEq, Prod.mk.injEq] at hh <;> rw [← hh.1] <;> rfl

theorem sendAll_lsts {V : Type} (env : SendEnv) (report : Bool) (value : V) :
    ∀ (ls : List (Nat × Nat)) (h h1 : Heap V) (r r1 : broadcasterReport),
      broadcaster.sendAll env report value ls h r = Except.ok (h1, r1) → h1.lsts = h.lsts := by
  intro ls
  induction ls with
  | nil =>
    intro h h1 r r1 hh
    simp only [broadcaster.sendAll, Except.ok.injEq, Prod.mk.injEq] at hh
    rw [← hh.1]
  | cons p rest ih =>
    intro h h1 r r1 hh
    obtain ⟨l, ch⟩ := p
    rw [broadcaster.sendAll] at hh
    cases hd : broadcaster.sendOne env report value h r l ch with
    | error p => rw [hd] at hh; cases hh
    | ok x =>
      obtain ⟨h2, r2⟩ := x
      rw [hd] at hh
      rw [ih h2 h1 r2 r1 hh, sendOne_lsts env report value h h2 r r2 l ch hd]

theorem SendWithTimeout_lsts {V : Type} (env : SendEnv) (h h1 : Heap V) (b : Nat)
    (pctxErr : Option Err) (value : V) (timeout : Duration) (report : Bool)
    (x : Option broadcasterReport × Option Err)
    (hh : broadcaster.SendWithTimeout env h b pctxErr value timeout report = Except.ok (h1, x)) :
    h1.lsts = h.lsts := by
  unfold broadcaster.SendWithTimeout at hh
  split_ifs at hh
  · simp only [Except.ok.injEq, Prod.mk.injEq] at hh; rw [← hh.1]
  · cases pctxErr with
    | some e => simp only [Except.ok.injEq, Prod.mk.injEq] at hh; rw [← hh.1]
    | none =>
      simp only [] at hh
      cases hd : broadcaster.sendAll env report value (h.bc b).listeners h ⟨[], []⟩ with
      | error p => rw [hd] at hh; cases hh
      | ok y =>
        obtain ⟨h2, r2⟩ := y
        rw [hd] at hh
        simp only [Except.ok.injEq, Prod.mk.injEq] at hh
        rw [← hh.1]
        exact sendAll_lsts env report value _ h h2 _ r2 hd

theorem Heap.lst_of_lsts {V : Type} (h h1 : Heap V) (k : Nat) (hh : h1.lsts = h.lsts) :
    h1.lst k = h.lst k := by
  unfold Heap.lst
  rw [hh]

end csync

namespace crawly
open csync

/-- A call of the broadcast API that turns the flag of listener `k` from false
to true is `k.Discard()`, or the `Listen` on a closed broadcaster that made `k`. -/
theorem BroadcastCall.run_flag {V : Type} (c : BroadcastCall V) (h h1 : Heap V) (k : Nat)
    (hh : c.run h = Except.ok h1) (h0 : (h.lst k).closed = false)
    (h9 : (h1.lst k).closed = true) :
    c = BroadcastCall.ListenerDiscard k ∨
    ∃ b, c = BroadcastCall.Listen b ∧ (h.bc b).closed = true ∧ k = h.lsts.length := by
  have contra : h1.lsts = h.lsts → False := by
    intro e
    rw [Heap.lst_of_lsts h h1 k e, h0] at h9
    cases h9
  cases c with
  | NewBroadcaster capacity =>
    simp only [BroadcastCall.run, Except.ok.injEq] at hh
    exact absurd (by rw [← hh]; rfl) contra
  | Listen b =>
    right
    simp only [BroadcastCall.run] at hh
    cases hd : broadcaster.Listen h b with
    | error p => rw [hd] at hh; cases hh
    | ok x =>
      obtain ⟨h2, l⟩ := x
      rw [hd] at hh
      simp only [Except.ok.injEq] at hh
      subst hh
      obtain ⟨_, e2, _, _, _⟩ := Listen_spec h h2 b l hd
      refine ⟨b, rfl, ?_⟩
      unfold Heap.lst at h0 h9
      rw [e2] at h9
      rcases Nat.lt_trichotomy k h.lsts.length with hk | hk | hk
      · rw [List.getD_concat_lt _ _ _ _ hk, h0] at h9; cases h9
      · rw [hk, List.getD_concat_length] at h9
        exact ⟨h9, hk⟩
      · rw [List.getD_concat_gt _ _ _ _ hk] at h9; cases h9
  | DiscardListener b l => exact absurd (DiscardListener_frame h h1 b l hh).1 contra
  | Discard b => exact absurd (Discard_frame h h1 b hh).1 contra
  | ListenerDiscard l =>
    left
    simp only [BroadcastCall.run, listener.Discard] at hh
    split_ifs at hh
    · simp only [Except.ok.injEq] at hh
      exact absurd (by rw [← hh]) contra
    · have e := (DiscardListener_frame _ h1 _ _ hh).1
      by_cases hk : l = k
      · rw [hk]
      · exfalso
        have : h1.lst k = h.lst k := by
          unfold Heap.lst
          rw [e]
          simp [Heap.setLst, List.getD_eq_getElem?_getD, List.getElem?_set_ne hk]
        rw [this, h0] at h9
        cases h9
  | SendWithTimeout env b pctxErr value timeout report =>
    simp only [BroadcastCall.run] at hh
    cases hd : broadcaster.SendWithTimeout env h b pctxErr value timeout report with
    | error p => rw [hd] at hh; cases hh
    | ok x =>
      obtain ⟨h2, y⟩ := x
      rw [hd] at hh
      simp only [Except.ok.injEq] at hh
      subst hh
      exact absurd (SendWithTimeout_lsts env h h2 b pctxErr value timeout report y hd) contra

/-- Over a sequence of calls of the broadcast API, the flag of a listener is
true at the end only if it was true at the start, or `Discard` of the listener
is among the calls, or the listener was made by a `Listen` among the calls on
a broadcaster that was closed at that point. -/
theorem BroadcastCall.runAll_flag {V : Type} (k : Nat) :
    ∀ (calls : List (BroadcastCall V)) (h0 h9 : Heap V),
      (h0.lst k).closed = false → BroadcastCall.runAll calls h0 = Except.ok h9 →
      (h9.lst k).closed = true →
      BroadcastCall.ListenerDiscard k ∈ calls ∨
      ∃ pre b post hmid, calls = pre ++ BroadcastCall.Listen b :: post ∧
        BroadcastCall.runAll pre h0 = Except.ok hmid ∧ (hmid.bc b).closed = true ∧
        k = hmid.lsts.length := by
  intro calls
  induction calls with
  | nil =>
    intro h0 h9 hf hr ht
    simp only [BroadcastCall.runAll, Except.ok.injEq] at hr
    rw [← hr, hf] at ht
    cases ht
  | cons c rest ih =>
    intro h0 h9 hf hr ht
    rw [BroadcastCall.runAll] at hr
    cases hd : c.run h0 with
    | error p => rw [hd] at hr; cases hr
    | ok h1 =>
      rw [hd] at hr
      simp only [] at hr
      cases hf1 : (h1.lst k).closed with
      | true =>
        rcases BroadcastCall.run_flag c h0 h1 k hd hf hf1 with e | ⟨b, e, hc, hk⟩
        · left; rw [e]; exact List.mem_cons_self _ _
        · right
          exact ⟨[], b, rest, h0, by rw [e]; rfl, rfl, hc, hk⟩
      | false =>
        rcases ih h1 h9 hf1 hr ht with hm | ⟨pre, b, post, hmid, e, hp, hc, hk⟩
        · left; exact List.mem_cons_of_mem _ hm
        · right
          refine ⟨c :: pre, b, post, hmid, by rw [e]; rfl, ?_, hc, hk⟩
          rw [BroadcastCall.runAll, hd]
          exact hp

/-- C23. Take an allocated broadcaster `b` that is open and whose listeners are
in order, and a listener `l` obtained from it by `Listen`: its flag is false
and its channel is open. `DiscardListener(l)` on the broadcaster returns, and
afterwards the channel of `l` is closed while `l.Closed()` is still false.
`Discard()` of the broadcaster returns, and afterwards the channel of `l` is
closed while `l.Closed()` is still false. And over any sequence of calls of the
broadcast API, from any heap: a listener `k` whose flag was false at the start
has `Closed()` true at the end only if `k.Discard()` is among the calls or `k`
was made by a `Listen` among the calls on a broadcaster closed at that point. -/
theorem C23_closed_flag_does_not_track_channel {V : Type} (h h1 : Heap V) (b l : Nat)
    (hb : b < h.bcs.length) (hopen : broadcaster.Closed h b = false)
    (hint : ListenersIntact h b)
    (hl : broadcaster.Listen h b = Except.ok (h1, l)) :
    listener.Closed h1 l = false ∧ listener.channelClosed h1 l = false ∧
    (∃ h2, broadcaster.DiscardListener h1 b (some l) = Except.ok h2 ∧
      listener.channelClosed h2 l = true ∧ listener.Closed h2 l = false) ∧
    (∃ h2, broadcaster.Discard h1 b = Except.ok h2 ∧
      listener.channelClosed h2 l = true ∧ listener.Closed h2 l = false) ∧
    (∀ (calls : List (BroadcastCall V)) (h0 h9 : Heap V) (k : Nat),
      listener.Closed h0 k = false → BroadcastCall.runAll calls h0 = Except.ok h9 →
      listener.Closed h9 k = true →
      BroadcastCall.ListenerDiscard k ∈ calls ∨
      ∃ pre b1 post hmid, calls = pre ++ BroadcastCall.Listen b1 :: post ∧
        BroadcastCall.runAll pre h0 = Except.ok hmid ∧ broadcaster.Closed hmid b1 = true ∧
        k = hmid.lsts.length) := by
  have hopen' : (h.bc b).closed = false := hopen
  obtain ⟨e1, e2, e3, e4, e5⟩ := Listen_spec h h1 b l hl
  obtain ⟨a1, a2, a3, a4⟩ := Listen_flags h h1 b l hl
  have hbc := e5 hb
  have hb1 : b < h1.bcs.length := by rw [e4]; exact hb
  have hint1 := Listen_intact h h1 b l hb hopen' hint hl
  have hload : Map.Load (h1.bc b).listeners l = some h.chans.length := by
    rw [hbc, e1]; exact Map.Load_Store_self _ _ _
  have hch : h.chans.length < h1.chans.length := by rw [e3]; simp
  have hflag : ∀ h2 : Heap V, h2.lsts = h1.lsts → (h2.chan h.chans.length).closed = true →
      listener.channelClosed h2 l = true ∧ listener.Closed h2 l = false := by
    intro h2 hls hc
    have hlst : h2.lst l = ⟨h.chans.length, b, (h.bc b).closed⟩ := by
      rw [Heap.lst_of_lsts h1 h2 l hls]; exact a1
    constructor
    · unfold listener.channelClosed listener.Channel
      rw [hlst]; exact hc
    · unfold listener.Closed
      rw [hlst]; exact hopen'
  refine ⟨by rw [a3]; exact hopen', by rw [a4]; exact hopen', ?_, ?_, ?_⟩
  · obtain ⟨h2, hd, _, _⟩ := DiscardListener_intact h1 b l hb1 hint1
    refine ⟨h2, hd, hflag h2 (DiscardListener_frame h1 h2 b _ hd).1 ?_⟩
    rcases DiscardListener_cases h1 h2 b l hd with ⟨hn, _⟩ | ⟨c2, hc2, hcl⟩
    · rw [hn] at hload; cases hload
    · rw [hload] at hc2
      cases hc2
      exact (Heap.close_spec _ h2 _ hcl).2.2.1 hch
  · have hcl1 : (h1.bc b).closed = false := by rw [hbc]; exact hopen'
    have hbcs : (h1.setBc b { h1.bc b with closed := true }).bc b
        = { h1.bc b with closed := true } := Heap.bc_setBc h1 b _ hb1
    have hb2 : b < (h1.setBc b { h1.bc b with closed := true }).bcs.length := by
      simp [Heap.setBc]; exact hb1
    have hint2 : ListenersIntact (h1.setBc b { h1.bc b with closed := true }) b := by
      unfold ListenersIntact
      rw [hbcs]
      exact hint1
    obtain ⟨h2, hd⟩ := discardAll_ok b (h1.bc b).listeners _ hb2 hint2
    have hD : broadcaster.Discard h1 b = Except.ok h2 := by
      unfold broadcaster.Discard
      rw [if_neg (by simp [hcl1])]
      exact hd
    refine ⟨h2, hD, hflag h2 (discardAll_frame b _ _ h2 hd).1 ?_⟩
    refine discardAll_closes b l h.chans.length _ _ h2 hd hb2 hch (Or.inr ?_) ?_
    · rw [hbcs]; exact hload
    · have : Map.Has (h1.bc b).listeners l = true := by
        rw [hbc, e1]; exact Map.Has_Store_self _ _ _
      exact (Map.Has_iff_mem_keys _ l).mp this
  · intro calls h0 h9 k hf hr ht
    exact BroadcastCall.runAll_flag k calls h0 h9 hf hr ht

/-- C23 on a broadcaster that already has two listeners: a third is obtained,
then the broadcaster is discarded; and the same with `DiscardListener`. -/
theorem C23_closed_flag_witness :
    (∃ h2, broadcaster.DiscardListener
        (heapOf (BroadcastCall.runAll [BroadcastCall.Listen 0] twiceListenedHeap)) 0 (some 2)
        = Except.ok h2 ∧
      listener.channelClosed h2 2 = true ∧ listener.Closed h2 2 = false) ∧
    (∃ h2, broadcaster.Discard
        (heapOf (BroadcastCall.runAll [BroadcastCall.Listen 0] twiceListenedHeap)) 0
        = Except.ok h2 ∧
      listener.channelClosed h2 2 = true ∧ listener.Closed h2 2 = false) :=
  have w := C23_closed_flag_does_not_track_channel twiceListenedHeap
    (heapOf (BroadcastCall.runAll [BroadcastCall.Listen 0] twiceListenedHeap)) 0 2
    (by decide) rfl
    ⟨by decide, by decide⟩ rfl
  ⟨w.2.2.1, w.2.2.2.1⟩

end crawly

namespace csync

theorem Map.Load_of_mem_nodup {K V : Type} [DecidableEq K] (m : Map K V) (k : K) (v : V)
    (hm : (k, v) ∈ m) (hn : (Map.keys m).Nodup) : Map.Load m k = some v := by
  induction m with
  | nil => cases hm
  | cons e m ih =>
    rw [Map.Load_cons]
    unfold Map.keys at hn
    rw [List.map_cons, List.nodup_cons] at hn
    rcases List.mem_cons.mp hm with h | h
    · rw [← h]; simp
    · have hne : ¬ e.1 = k := by
        intro he
        apply hn.1
        rw [he]
        exact List.mem_map.mpr ⟨(k, v), h, rfl⟩
      rw [if_neg hne]
      exact ih h hn.2

end csync

namespace crawly
open csync

/-! ## What a pass records -/

/-- The method `processOrder` reads the crawler only through its settings and
its handlers. -/
theorem processOrder_congr (cr1 cr2 : Crawler) (env : Env) (w : World) (o : Order)
    (r : TrackingResult) (hs : cr1.settings = cr2.settings) (hh : cr1.handlers = cr2.handlers) :
    Crawler.processOrder cr1 env w o r = Crawler.processOrder cr2 env w o r := by
  unfold Crawler.processOrder Crawler.orderBody Crawler.orderSwitch Crawler.loadSettings
    Crawler.loadHandlers
  rw [hs, hh]

/-- The method `processEntity` reads the crawler only through its settings and
its handlers. -/
theorem processEntity_congr (cr1 cr2 : Crawler) (env : Env) (w : World) (e : Entity)
    (r : TrackingResult) (hs : cr1.settings = cr2.settings) (hh : cr1.handlers = cr2.handlers) :
    Crawler.processEntity cr1 env w e r = Crawler.processEntity cr2 env w e r := by
  unfold Crawler.processEntity Crawler.entityBody Crawler.loadSettings Crawler.loadHandlers
  rw [hs, hh]

theorem foldOrders_Load_frame (env : Env) (k : Handle) :
    ∀ (l : List (Handle × Order)) (st : PassState), k ∉ l.map Prod.fst →
      Map.Load (l.foldl (fun st p => Crawler.orderStep env st p.1 p.2) st).result.Orders k
        = Map.Load st.result.Orders k := by
  intro l
  induction l with
  | nil => intro st _; rfl
  | cons p l ih =>
    intro st hk
    rw [List.map_cons, List.mem_cons, not_or] at hk
    rw [List.foldl_cons, ih _ hk.2]
    exact Map.Load_Store_ne _ _ _ _ hk.1

theorem foldEntities_Load_frame (env : Env) (k : Handle) :
    ∀ (l : List (Handle × Entity)) (st : PassState), k ∉ l.map Prod.fst →
      Map.Load (l.foldl (fun st p => Crawler.entityStep env st p.1 p.2) st).result.Entities k
        = Map.Load st.result.Entities k := by
  intro l
  induction l with
  | nil => intro st _; rfl
  | cons p l ih =>
    intro st hk
    rw [List.map_cons, List.mem_cons, not_or] at hk
    rw [List.foldl_cons, ih _ hk.2]
    exact Map.Load_Store_ne _ _ _ _ hk.1

/-- The orders loop on a live context, over entries with distinct keys: under
each key it records what `processOrder` returned for the order of that entry. -/
theorem foldOrders_recorded (env : Env) :
    ∀ (l : List (Handle × Order)) (st : PassState), (l.map Prod.fst).Nodup →
      ∀ k o, (k, o) ∈ l →
        ∃ (w1 : World) (cr1 : Crawler), cr1.settings = st.cr.settings ∧
          cr1.handlers = st.cr.handlers ∧
          Map.Load (l.foldl (fun st p => Crawler.orderStep env st p.1 p.2) st).result.Orders k
            = some (Crawler.processOrder cr1 env w1 o TrackingResult.zero).2.1 := by
  intro l
  induction l with
  | nil => intro st _ k o hm; cases hm
  | cons p l ih =>
    intro st hn k o hm
    rw [List.map_cons, List.nodup_cons] at hn
    rw [List.foldl_cons]
    rcases List.mem_cons.mp hm with e | e
    · subst e
      refine ⟨st.w, st.cr, rfl, rfl, ?_⟩
      rw [foldOrders_Load_frame env k l _ hn.1]
      exact Map.Load_Store_self _ _ _
    · obtain ⟨w1, cr1, h1, h2, h3⟩ := ih (Crawler.orderStep env st p.1 p.2) hn.2 k o e
      exact ⟨w1, cr1, h1, h2, h3⟩

/-- The entities loop on a live context, over entries with distinct keys: under
each key it records what `processEntity` returned for the entity of that entry. -/
theorem foldEntities_recorded (env : Env) :
    ∀ (l : List (Handle × Entity)) (st : PassState), (l.map Prod.fst).Nodup →
      ∀ k e, (k, e) ∈ l →
        ∃ (w1 : World) (cr1 : Crawler), cr1.settings = st.cr.settings ∧
          cr1.handlers = st.cr.handlers ∧
          Map.Load (l.foldl (fun st p => Crawler.entityStep env st p.1 p.2) st).result.Entities k
            = some (Crawler.processEntity cr1 env w1 e TrackingResult.zero).2.1 := by
  intro l
  induction l with
  | nil => intro st _ k e hm; cases hm
  | cons p l ih =>
    intro st hn k e hm
    rw [List.map_cons, List.nodup_cons] at hn
    rw [List.foldl_cons]
    rcases List.mem_cons.mp hm with h | h
    · subst h
      refine ⟨st.w, st.cr, rfl, rfl, ?_⟩
      rw [foldEntities_Load_frame env k l _ hn.1]
      exact Map.Load_Store_self _ _ _
    · obtain ⟨w1, cr1, h1, h2, h3⟩ := ih (Crawler.entityStep env st p.1 p.2) hn.2 k e h
      exact ⟨w1, cr1, h1, h2, h3⟩

theorem foldOrders_settings (env : Env) :
    ∀ (l : List (Handle × Order)) (st : PassState),
      (l.foldl (fun st p => Crawler.orderStep env st p.1 p.2) st).cr.settings = st.cr.settings ∧
      (l.foldl (fun st p => Crawler.orderStep env st p.1 p.2) st).cr.handlers
        = st.cr.handlers := by
  intro l
  induction l with
  | nil => intro st; exact ⟨rfl, rfl⟩
  | cons p l ih =>
    intro st
    rw [List.foldl_cons]
    exact ⟨(ih _).1.trans rfl, (ih _).2.trans rfl⟩

/-- The orders loop, when the Order handler keeps the handles, leaves the
entity stored under a key that no visited order has. -/
theorem foldOrders_entities_frame (env : Env) (hl : env.Live) (k : Handle) :
    ∀ (l : List (Handle × Order)) (st : PassState),
      (∀ p ∈ l, p.2.Handle = some p.1) → k ∉ l.map Prod.fst →
      (∀ f, st.cr.handlers.Order = some f → KeepsHandles f) →
      Map.Load (l.foldl (fun st p => Crawler.orderStep env st p.1 p.2) st).cr.entities k
        = Map.Load st.cr.entities k := by
  intro l
  induction l with
  | nil => intro st _ _ _; rfl
  | cons p l ih =>
    intro st hkey hk hH
    obtain ⟨k0, o⟩ := p
    rw [List.map_cons, List.mem_cons, not_or] at hk
    have ho : o.Handle = some k0 := hkey (k0, o) (List.mem_cons_self _ _)
    obtain ⟨_, h2⟩ := processOrder_handles st.cr env st.w o TrackingResult.zero (hl _) hH
    rw [ho] at h2
    rw [List.foldl_cons, ih (Crawler.orderStep env st k0 o)
      (fun p hp => hkey p (List.mem_cons_of_mem _ hp)) hk.2 hH]
    exact (commitEntities_frame _ _ k0 k h2 hk.1).2

/-- C16. Take a crawler whose mappings are keyed by the handles of their values
and whose handlers leave the Handle fields alone, and a pass whose context is
not cancelled at any point and whose `Range` visits every entry. Whatever else
the handlers do and whatever they return: (1) `processOrder` and
`processEntity` return nil; (2) for a Start order, and for an entity, that gets
past the minimum-delay check, the value the handler returned (or `NilHandler`
when the handler is nil) is what `Order.Err`, resp. `Entity.Err`, of the
tracking result holds; (3) `Result.Err` of the pass is nil; (4) for every order
of the orders mapping, `Result.Orders` holds under its key the tracking result
that `processOrder` returned for that order; (5) for every entity that the
entities mapping holds when the entities loop starts, in particular for every
entity of the mapping whose handle has no order, `Result.Entities` holds under
its key the tracking result that `processEntity` returned for that entity. -/
theorem C16_handler_errors_are_not_fatal (cr : Crawler) (env : Env) (w : World)
    (hl : env.Live) (hfair : env.Fair) (hkeyed : cr.Keyed) (hkeep : cr.HandlersKeepHandles) :
    (∀ (w1 : World) (o : Order) (r : TrackingResult),
      (Crawler.processOrder cr env w1 o r).2.2 = none) ∧
    (∀ (w1 : World) (e : Entity) (r : TrackingResult),
      (Crawler.processEntity cr env w1 e r).2.2 = none) ∧
    (∀ (w1 : World) (o : Order) (r : TrackingResult), o.Command = TrackingCommandStart →
      ¬ (Time.IsZero o.LastProcessing = false ∧
        Time.Sub (env.now w1.tick) o.LastProcessing
          < cr.loadSettings.MinimumTrackingOrderDelay) →
      (Crawler.processOrder cr env w1 o r).2.1.Order.Err
        = Crawler.orderHandlerErr cr
            (if Time.IsZero o.LastProcessing then w1.tick else w1.tick + 1)
            (Crawler.orderPrelude o r)) ∧
    (∀ (w1 : World) (e : Entity) (r : TrackingResult),
      ¬ (Time.IsZero e.LastProcessing = false ∧
        Time.Sub (env.now w1.tick) e.LastProcessing < cr.loadSettings.MinimumTrackingDelay) →
      (Crawler.processEntity cr env w1 e r).2.1.Entity.Err
        = Crawler.entityHandlerErr cr
            (if Time.IsZero e.LastProcessing then w1.tick else w1.tick + 1)
            (Crawler.entityPrelude e r)) ∧
    (Crawler.sessionHandler cr env w).result.Err = none ∧
    (∀ k o, (k, o) ∈ cr.orders →
      ∃ w1 : World, Map.Load (Crawler.sessionHandler cr env w).result.Orders k
        = some (Crawler.processOrder cr env w1 o TrackingResult.zero).2.1) ∧
    (∀ k e, (k, e) ∈ (Crawler.ordersPhase cr env w).cr.entities →
      ∃ w1 : World, Map.Load (Crawler.sessionHandler cr env w).result.Entities k
        = some (Crawler.processEntity cr env w1 e TrackingResult.zero).2.1) ∧
    (∀ k e, (k, e) ∈ cr.entities → Map.Has cr.orders k = false →
      ∃ w1 : World, Map.Load (Crawler.sessionHandler cr env w).result.Entities k
        = some (Crawler.processEntity cr env w1 e TrackingResult.zero).2.1) := by
  have hphase : (Crawler.ordersPhase cr env w).cr.Keyed := by
    have := visitOrders_keyed env (env.rangeOrders cr.orders) (Crawler.passStart cr w) hkeyed
    rw [visitOrders_live env hl] at this
    exact this
  have hset := foldOrders_settings env (env.rangeOrders cr.orders) (Crawler.passStart cr w)
  have hE : ∀ k e, (k, e) ∈ (Crawler.ordersPhase cr env w).cr.entities →
      ∃ w1 : World, Map.Load (Crawler.sessionHandler cr env w).result.Entities k
        = some (Crawler.processEntity cr env w1 e TrackingResult.zero).2.1 := by
    intro k e hm
    rw [sessionHandler_live cr env w hl]
    show ∃ w1 : World,
      Map.Load (Crawler.entitiesPhase env (Crawler.ordersPhase cr env w)).result.Entities k
        = some (Crawler.processEntity cr env w1 e TrackingResult.zero).2.1
    have hp := hfair.2 (Crawler.ordersPhase cr env w).cr.entities
    have hn : ((env.rangeEntities (Crawler.ordersPhase cr env w).cr.entities).map
        Prod.fst).Nodup := (List.Perm.map Prod.fst hp).nodup_iff.mpr hphase.2.2
    obtain ⟨w1, cr1, h1, h2, h3⟩ := foldEntities_recorded env _
      (Crawler.ordersPhase cr env w) hn k e (hp.mem_iff.mpr hm)
    refine ⟨w1, ?_⟩
    unfold Crawler.entitiesPhase
    rw [h3, processEntity_congr cr1 cr env w1 e _ (h1.trans hset.1) (h2.trans hset.2)]
  refine ⟨fun w1 o r => processOrder_err_live cr env w1 o r (hl _),
    fun w1 e r => processEntity_err_live cr env w1 e r (hl _), ?_, ?_, ?_, ?_, hE, ?_⟩
  · intro w1 o r hcmd hproc
    rw [processOrder_processed cr env w1 o r (hl _) hproc]
    exact (orderBody_Err cr env _ _ (by simpa [Crawler.orderPrelude] using hcmd)).2
  · intro w1 e r hproc
    rw [processEntity_body cr env w1 e r (hl _) hproc]
    exact (entityBody_Err cr env _ _).2
  · rw [sessionHandler_live cr env w hl]
    show (Crawler.entitiesPhase env (Crawler.ordersPhase cr env w)).result.Err = none
    unfold Crawler.entitiesPhase
    rw [(foldEntities_records env _ _).1]
    unfold Crawler.ordersPhase
    rw [foldOrders_Err]
    rfl
  · intro k o hm
    rw [sessionHandler_live cr env w hl]
    show ∃ w1 : World,
      Map.Load (Crawler.entitiesPhase env (Crawler.ordersPhase cr env w)).result.Orders k
        = some (Crawler.processOrder cr env w1 o TrackingResult.zero).2.1
    have hp := hfair.1 cr.orders
    have hn : ((env.rangeOrders cr.orders).map Prod.fst).Nodup :=
      (List.Perm.map Prod.fst hp).nodup_iff.mpr hkeyed.1.2
    obtain ⟨w1, cr1, h1, h2, h3⟩ := foldOrders_recorded env _
      (Crawler.passStart cr w) hn k o (hp.mem_iff.mpr hm)
    refine ⟨w1, ?_⟩
    unfold Crawler.entitiesPhase
    rw [(foldEntities_records env _ _).2.1]
    unfold Crawler.ordersPhase
    rw [h3, processOrder_congr cr1 cr env w1 o _ h1 h2]
  · intro k e hm hno
    refine hE k e (Map.mem_of_Load _ _ _ ?_)
    have hp := hfair.1 cr.orders
    have hk : k ∉ (env.rangeOrders cr.orders).map Prod.fst := by
      intro hmem
      have : Map.Has (env.rangeOrders cr.orders) k = true :=
        (Map.Has_iff_mem_keys _ k).mpr hmem
      rw [Map.Has_of_perm cr.orders _ hp k, hno] at this
      cases this
    unfold Crawler.ordersPhase
    rw [foldOrders_entities_frame env hl k _ (Crawler.passStart cr w)
      (fun p hp1 => hkeyed.1.1 p (hp.mem_iff.mp hp1)) hk hkeep.1]
    exact Map.Load_of_mem_nodup _ _ _ hm hkeyed.2.2

/-- C16 on a crawler whose Order handler is nil and whose Entity handler always
fails: the pass ends without error and records, for the order and for the
entity, the tracking result with the error in it. -/
theorem C16_handler_errors_witness :
    (Crawler.sessionHandler Crawler.troubled Env.steady ⟨0, []⟩).result.Err = none ∧
    (∃ w1 : World,
      Map.Load (Crawler.sessionHandler Crawler.troubled Env.steady ⟨0, []⟩).result.Orders handleC
        = some (Crawler.processOrder Crawler.troubled Env.steady w1
            ⟨TrackingCommandStart, 0, 0, some handleC, 0⟩ TrackingResult.zero).2.1) ∧
    (∃ w1 : World,
      Map.Load (Crawler.sessionHandler Crawler.troubled Env.steady ⟨0, []⟩).result.Entities
          handleB
        = some (Crawler.processEntity Crawler.troubled Env.steady w1
            ⟨0, 0, some handleB, 0⟩ TrackingResult.zero).2.1) ∧
    (Crawler.processOrder Crawler.troubled Env.steady ⟨0, []⟩
      ⟨TrackingCommandStart, 0, 0, some handleC, 0⟩ TrackingResult.zero).2.1.Order.Err
      = some Err.NilHandler ∧
    (Crawler.processEntity Crawler.troubled Env.steady ⟨2, []⟩
      ⟨0, 0, some handleB, 0⟩ TrackingResult.zero).2.1.Entity.Err = some (Err.other 1) :=
  have h := C16_handler_errors_are_not_fatal Crawler.troubled Env.steady ⟨0, []⟩ (fun _ => rfl)
    ⟨fun m => List.Perm.refl m, fun m => List.Perm.refl m⟩
    ⟨⟨by decide, by decide⟩, ⟨by decide, by decide⟩⟩
    ⟨fun f hf => (by cases hf), fun f hf => Option.some.inj hf ▸ fun _ _ => ⟨rfl, rfl⟩⟩
  ⟨h.2.2.2.2.1, h.2.2.2.2.2.1 handleC _ (List.mem_singleton_self _),
    h.2.2.2.2.2.2.2 handleB _ (List.mem_singleton_self _) rfl,
    (h.2.2.1 _ _ _ rfl (by decide)).trans rfl, (h.2.2.2.1 _ _ _ (by decide)).trans rfl⟩

end crawly
